import Mathlib

/-!
# A verification development for the `first-interpreter` Lisp interpreter

This file shallowly embeds the value model, garbage-collected heap, scope
(environment) structure, evaluator, standard library, tokenizer, parser and
printer of the C++ sources, and proves the specification claims about them.

Modelling conventions:

* C++ objects (`Atom`, `Cons`) live behind pointers and are registered with the
  garbage collector at creation (`gc_add_expr` is called by every `create_*`
  function).  We model the heap as two growable tables, one of atoms and one of
  cons cells; an `Expr` holds the index of its object.  A destroyed slot holds
  `none` (the `EXPR_VOID` tombstone written by the sweep phase).  C++ pointer
  identity corresponds to slot index; the collector's sort/defragment phase
  only reorders its internal bookkeeping table and never invalidates held
  pointers, so it is invisible at this level of abstraction.
* The `ATOM_REAL` payload is a 32-bit float in C++.  We carry it as `ℚ`;
  the claims proved about reals are kind-level only (which operand kinds
  produce a real), never about rounding of float arithmetic.
* C++ functions that recurse through the heap (`list_p`, `equal`, `assoc`,
  scope lookup, ...) do not terminate on cyclic heaps (the interpreter never
  builds cycles; no specified built-in mutates a cons).  We give them an
  internal fuel of `conses.length + 1`, which is enough for every acyclic
  chain, so on every input on which the C++ code terminates the model computes
  the same answer; on cyclic inputs (where the C++ loops forever) the model
  falls back to a documented default.
* The evaluator is mutually recursive and can genuinely diverge (user
  recursion), so it takes an explicit fuel and returns `none` when the fuel
  runs out or when an execution runs into C++ undefined behaviour (dangling
  dereference, assertion failure).  Every theorem about it concludes from a
  `some` result.
-/

namespace FirstInterp

/-- Identities of the native (built-in) functions registered by
`load_std_library` in `std.cpp`.  The C++ `Native` pairs a function pointer
with an opaque `param`; every registration passes `param = NULL`, so the
identity of the pair is the identity of the function. -/
inductive NativeId where
  | carN | greaterThanN | plusOpN | mulOpN | listOpN | assocOpN | quasiquoteN
  | setN | quoteN | beginN | defunN | whenN | lambdaOpN | unquoteN | loadN
  | appendN | equalOpN
  deriving DecidableEq, Repr

/-- `struct Expr` of `expr.hpp`: a tagged union of an atom pointer, a cons
pointer, or the `EXPR_VOID` sentinel.  Pointers are modelled as indices into
the heap tables. -/
inductive Expr where
  | atom (i : Nat)
  | cons (i : Nat)
  | void
  deriving DecidableEq, Repr

/-- `struct Lambda` of `expr.hpp`: parameter list, body, captured
environment. -/
structure LambdaPayload where
  args_list : Expr
  body : Expr
  envir : Expr
  deriving DecidableEq, Repr

/-- `struct Atom` of `expr.hpp`: the six atom kinds.  The integer payload is a
C `long int`; arithmetic on it in `std.cpp` has undefined behaviour on
overflow, so the defined executions are exactly those of unbounded `Int`. -/
inductive Atom where
  | symbol (s : String)
  | integer (n : Int)
  | real (x : ℚ)
  | string (s : String)
  | lam (l : LambdaPayload)
  | native (fn : NativeId)
  deriving DecidableEq, Repr

/-- `struct Cons` of `expr.hpp`. -/
structure Cons where
  car : Expr
  cdr : Expr
  deriving DecidableEq, Repr

/-- The garbage-collected heap (`struct Gc` of `gc.hpp`).  Every object ever
allocated occupies one slot; `none` is the `EXPR_VOID` tombstone left by the
sweep phase of `gc_collect`. -/
structure Gc where
  atoms : List (Option Atom)
  conses : List (Option Cons)
  deriving DecidableEq, Repr

def Gc.getAtom (gc : Gc) (i : Nat) : Option Atom := (gc.atoms.getD i none)

def Gc.getCons (gc : Gc) (i : Nat) : Option Cons := (gc.conses.getD i none)

/-- `create_*_atom` + `gc_add_expr`: append a fresh registered atom. -/
def Gc.allocAtom (gc : Gc) (a : Atom) : Expr × Gc :=
  (Expr.atom gc.atoms.length, { gc with atoms := gc.atoms ++ [some a] })

/-- `create_cons` + `gc_add_expr`: append a fresh registered cons cell. -/
def Gc.allocCons (gc : Gc) (c : Cons) : Expr × Gc :=
  (Expr.cons gc.conses.length, { gc with conses := gc.conses ++ [some c] })

/-- In-place mutation `cons->car = e` (used by `set_scope_value_impl`). -/
def Gc.setCar (gc : Gc) (i : Nat) (e : Expr) : Gc :=
  match gc.getCons i with
  | some c => { gc with conses := gc.conses.set i (some { c with car := e }) }
  | none => gc

/-- In-place mutation `cons->cdr = e` (used by `set_scope_value_impl` and the
parser). -/
def Gc.setCdr (gc : Gc) (i : Nat) (e : Expr) : Gc :=
  match gc.getCons i with
  | some c => { gc with conses := gc.conses.set i (some { c with cdr := e }) }
  | none => gc

/-- The `SYMBOL(gc, name)` allocation helper
(`atom_as_expr(create_symbol_atom(gc, name, NULL))`). -/
def SYMBOL (gc : Gc) (s : String) : Expr × Gc := gc.allocAtom (.symbol s)

def INTEGER (gc : Gc) (n : Int) : Expr × Gc := gc.allocAtom (.integer n)

def REAL (gc : Gc) (x : ℚ) : Expr × Gc := gc.allocAtom (.real x)

def STRING (gc : Gc) (s : String) : Expr × Gc := gc.allocAtom (.string s)

def NATIVE (gc : Gc) (fn : NativeId) : Expr × Gc := gc.allocAtom (.native fn)

def NIL (gc : Gc) : Expr × Gc := SYMBOL gc "nil"

def T (gc : Gc) : Expr × Gc := SYMBOL gc "t"

def CONS (gc : Gc) (car cdr : Expr) : Expr × Gc := gc.allocCons ⟨car, cdr⟩

/-- `CAR(x) = x.cons->car`.  Dereferencing a non-cons or a destroyed slot is
undefined behaviour in the source; the model answers `void` there (every call
site below guards with `cons_p` on live heaps). -/
def CAR (gc : Gc) (e : Expr) : Expr :=
  match e with
  | .cons i => match gc.getCons i with
    | some c => c.car
    | none => .void
  | _ => .void

/-- `CDR(x) = x.cons->cdr`; same conventions as `CAR`. -/
def CDR (gc : Gc) (e : Expr) : Expr :=
  match e with
  | .cons i => match gc.getCons i with
    | some c => c.cdr
    | none => .void
  | _ => .void

/-- Payload of a live symbol atom. -/
def symPayload (gc : Gc) (e : Expr) : Option String :=
  match e with
  | .atom i => match gc.getAtom i with
    | some (.symbol s) => some s
    | _ => none
  | _ => none

def intPayload (gc : Gc) (e : Expr) : Option Int :=
  match e with
  | .atom i => match gc.getAtom i with
    | some (.integer n) => some n
    | _ => none
  | _ => none

def realPayload (gc : Gc) (e : Expr) : Option ℚ :=
  match e with
  | .atom i => match gc.getAtom i with
    | some (.real x) => some x
    | _ => none
  | _ => none

def lambdaPayload (gc : Gc) (e : Expr) : Option LambdaPayload :=
  match e with
  | .atom i => match gc.getAtom i with
    | some (.lam l) => some l
    | _ => none
  | _ => none

/-- `symbol_p` of `builtins.cpp`. -/
def symbol_p (gc : Gc) (e : Expr) : Bool :=
  match e with
  | .atom i => match gc.getAtom i with
    | some (.symbol _) => true
    | _ => false
  | _ => false

/-- `nil_p` of `builtins.cpp`: a symbol atom whose payload is `"nil"`. -/
def nil_p (gc : Gc) (e : Expr) : Bool :=
  symPayload gc e == some "nil"

/-- `integer_p` of `builtins.cpp`. -/
def integer_p (gc : Gc) (e : Expr) : Bool :=
  match e with
  | .atom i => match gc.getAtom i with
    | some (.integer _) => true
    | _ => false
  | _ => false

/-- `real_p` of `builtins.cpp`. -/
def real_p (gc : Gc) (e : Expr) : Bool :=
  match e with
  | .atom i => match gc.getAtom i with
    | some (.real _) => true
    | _ => false
  | _ => false

/-- `string_p` of `builtins.cpp`. -/
def string_p (gc : Gc) (e : Expr) : Bool :=
  match e with
  | .atom i => match gc.getAtom i with
    | some (.string _) => true
    | _ => false
  | _ => false

/-- `cons_p` of `builtins.cpp`: a pure tag check (`obj.type == EXPR_CONS`),
no dereference. -/
def cons_p (e : Expr) : Bool :=
  match e with
  | .cons _ => true
  | _ => false

/-- `lambda_p` of `builtins.cpp`. -/
def lambda_p (gc : Gc) (e : Expr) : Bool :=
  match e with
  | .atom i => match gc.getAtom i with
    | some (.lam _) => true
    | _ => false
  | _ => false

/-- `list_p` of `builtins.cpp`, with explicit fuel for the recursion along
`cdr` pointers. -/
def list_p_fueled (gc : Gc) : Nat → Expr → Bool
  | 0, _ => false
  | f + 1, e =>
    if nil_p gc e then true
    else match e with
      | .cons i => match gc.getCons i with
        | some c => list_p_fueled gc f c.cdr
        | none => false
      | _ => false

/-- `list_p`: the fuel `conses.length + 1` suffices for every acyclic chain
(a proper list visits pairwise distinct cells); on a cyclic chain the C++
recursion never returns. -/
def list_p (gc : Gc) (e : Expr) : Bool :=
  list_p_fueled gc (gc.conses.length + 1) e

/-- `list_of_symbols_p` of `builtins.cpp`. -/
def list_of_symbols_p_fueled (gc : Gc) : Nat → Expr → Bool
  | 0, _ => false
  | f + 1, e =>
    if nil_p gc e then true
    else match e with
      | .cons i => match gc.getCons i with
        | some c =>
          if symbol_p gc c.car then list_of_symbols_p_fueled gc f c.cdr else false
        | none => false
      | _ => false

def list_of_symbols_p (gc : Gc) (e : Expr) : Bool :=
  list_of_symbols_p_fueled gc (gc.conses.length + 1) e

/-- `length_of_list` of `builtins.cpp`: count cells while the value is not
`nil`.  The C++ loop dereferences `obj.cons` without a tag check, so a dotted
terminal is undefined behaviour there; the model stops and returns the count
accumulated so far (all call sites guard the argument with `list_p` or build
it themselves). -/
def length_of_list_fueled (gc : Gc) : Nat → Expr → Int → Int
  | 0, _, acc => acc
  | f + 1, e, acc =>
    if nil_p gc e then acc
    else match e with
      | .cons i => match gc.getCons i with
        | some c => length_of_list_fueled gc f c.cdr (acc + 1)
        | none => acc + 1
      | _ => acc + 1

def length_of_list (gc : Gc) (e : Expr) : Int :=
  length_of_list_fueled gc (gc.conses.length + 1) e 0

/-- `equal_atoms` of `builtins.cpp`.  Takes the two slot indices because
lambda equality is pointer identity and native equality is identity of the
`(fun, param)` pair (`param` is always `NULL`). -/
def equal_atoms (gc : Gc) (i j : Nat) : Bool :=
  match gc.getAtom i, gc.getAtom j with
  | some a1, some a2 =>
    match a1, a2 with
    | .symbol s1, .symbol s2 => s1 == s2
    | .integer n1, .integer n2 => n1 == n2
    | .real x1, .real x2 => |x1 - x2| < (1 : ℚ) / 1000000
    | .string s1, .string s2 => s1 == s2
    | .lam _, .lam _ => i == j
    | .native f1, .native f2 => f1 == f2
    | _, _ => false
  | _, _ => false

/-- `equal` of `builtins.cpp` (mutual with `equal_cons`), fuelled: the
recursion depth on an acyclic heap is bounded by the longest cons chain. -/
def equal_fueled (gc : Gc) : Nat → Expr → Expr → Bool
  | 0, _, _ => false
  | f + 1, e1, e2 =>
    match e1, e2 with
    | .atom i, .atom j => equal_atoms gc i j
    | .cons i, .cons j =>
      match gc.getCons i, gc.getCons j with
      | some c1, some c2 =>
        equal_fueled gc f c1.car c2.car && equal_fueled gc f c1.cdr c2.cdr
      | _, _ => false
    | .void, .void => true
    | _, _ => false

def equal (gc : Gc) (e1 e2 : Expr) : Bool :=
  equal_fueled gc (gc.conses.length + 1) e1 e2

/-- The special-form name table of `builtins.cpp`. -/
def specials : List String :=
  ["set", "quote", "begin", "defun", "lambda", "λ", "when", "quasiquote"]

/-- `is_special`.  The repository carries two variants: `builtins.cpp` at the
repository root does a linear scan of `specials`, i.e. plain set membership;
the `src/builtins.cpp` variant calls `std::binary_search` on the same array,
which is not sorted, so that call's behaviour is undefined (and its
`constexpr std::string` array is ill-formed).  The defined-behaviour variant,
which also matches the interpreter's evident intent, is the membership
test. -/
def is_special (name : String) : Bool :=
  specials.contains name

/-- Modelled from the spec: `assoc` is declared in `builtins.hpp` and used by
`scope.cpp` and `AssocOpFn`, but its definition is absent from the sources
(the declaration is even commented out in one header).  §4.D of the spec:
scan the association list, return the first `(name . value)` cell whose key
equals the probe (symbols compare by payload, which is what `equal` does);
when no cell matches, the scan falls off the end of the list and yields its
terminal, `nil` for a proper frame. -/
def assoc_fueled (gc : Gc) (key : Expr) : Nat → Expr → Expr
  | 0, alist => alist
  | f + 1, alist =>
    match alist with
    | .cons i =>
      match gc.getCons i with
      | some c =>
        if cons_p c.car && equal gc (CAR gc c.car) key then c.car
        else assoc_fueled gc key f c.cdr
      | none => alist
    | _ => alist

def assoc (gc : Gc) (key alist : Expr) : Expr :=
  assoc_fueled gc key (gc.conses.length + 1) alist

/-- `get_scope_value_impl` of `scope.cpp`: try `assoc` on each frame in turn;
a non-cons scope (the `nil` terminal of the frame chain) is returned as the
"not found" answer. -/
def get_scope_value_impl_fueled (gc : Gc) (name : Expr) : Nat → Expr → Expr
  | 0, scope => scope
  | f + 1, scope =>
    match scope with
    | .cons i =>
      match gc.getCons i with
      | some c =>
        let value := assoc gc name c.car
        if nil_p gc value then get_scope_value_impl_fueled gc name f c.cdr
        else value
      | none => scope
    | _ => scope

/-- `get_scope_value` of `scope.cpp`. -/
def get_scope_value (gc : Gc) (scope name : Expr) : Expr :=
  get_scope_value_impl_fueled gc name (gc.conses.length + 1) scope

/-- `set_scope_value_impl` of `scope.cpp`.  Returns the (possibly new) scope
expression together with the mutated heap.  The three live branches: an
existing binding cell is mutated through its `cdr`; at the global frame
(`scope.cons->cdr` is `nil`) a new binding is spliced into the frame's `car`,
preserving the identity of the spine cell; otherwise recurse into the outer
frames, discarding the returned expression exactly as the C++ does. -/
def set_scope_value_impl_fueled (name value : Expr) :
    Nat → Gc → Expr → Expr × Gc
  | 0, gc, scope => (scope, gc)
  | f + 1, gc, scope =>
    match scope with
    | .cons i =>
      match gc.getCons i with
      | some c =>
        let value_cell := assoc gc name c.car
        if !nil_p gc value_cell then
          match value_cell with
          | .cons j => (scope, gc.setCdr j value)
          | _ => (scope, gc)
        else if nil_p gc c.cdr then
          let (pair, gc1) := CONS gc name value
          let (newcar, gc2) := CONS gc1 pair c.car
          (scope, gc2.setCar i newcar)
        else
          let r := set_scope_value_impl_fueled name value f gc c.cdr
          (scope, r.2)
      | none => (scope, gc)
    | _ =>
      let (nilE, gc1) := NIL gc
      let (pair, gc2) := CONS gc1 name value
      let (frame, gc3) := CONS gc2 pair nilE
      CONS gc3 frame scope

/-- `set_scope_value` of `scope.cpp` (the public wrapper reassigns
`scope->expr` to the returned expression). -/
def set_scope_value (gc : Gc) (scope name value : Expr) : Expr × Gc :=
  set_scope_value_impl_fueled name value (gc.conses.length + 1) gc scope

/-- `create_scope` of `scope.cpp`: one spine cell whose frame is empty
(`CONS(gc, NIL(gc), NIL(gc))`). -/
def create_scope (gc : Gc) : Expr × Gc :=
  let (n1, gc1) := NIL gc
  let (n2, gc2) := NIL gc1
  CONS gc2 n1 n2

/-- The frame-building loop of `push_scope_frame`: pair up `vars` and `args`
(in reverse order, which `scope.cpp` notes is immaterial for keyed lookup).
The C++ loop dereferences both chains as cons cells without a tag check;
the model stops on a non-cons (the callers always pass proper lists). -/
def push_scope_frame_loop (fuel : Nat) (gc : Gc) (vars args frame : Expr) :
    Expr × Gc :=
  match fuel with
  | 0 => (frame, gc)
  | f + 1 =>
    if !nil_p gc vars || !nil_p gc args then
      match vars, args with
      | .cons i, .cons j =>
        match gc.getCons i, gc.getCons j with
        | some cv, some ca =>
          if nil_p gc vars || nil_p gc args then (frame, gc)
          else
            let (pair, gc1) := CONS gc cv.car ca.car
            let (frame', gc2) := CONS gc1 pair frame
            push_scope_frame_loop f gc2 cv.cdr ca.cdr frame'
        | _, _ => (frame, gc)
      | _, _ => (frame, gc)
    else (frame, gc)

/-- `push_scope_frame` of `scope.cpp`. -/
def push_scope_frame (gc : Gc) (scope vars args : Expr) : Expr × Gc :=
  let (n, gc1) := NIL gc
  let (frame, gc2) := push_scope_frame_loop (gc1.conses.length + 1) gc1 vars args n
  CONS gc2 frame scope

/-- `struct EvalResult` of `expr.hpp`. -/
structure EvalResult where
  is_error : Bool
  expr : Expr
  deriving DecidableEq, Repr

def eval_success (e : Expr) : EvalResult := ⟨false, e⟩

def eval_failure (e : Expr) : EvalResult := ⟨true, e⟩

/-- The `list(gc, format, ...)` helper of `builtins.cpp`: build a proper list
in the heap from already-allocated elements.  (The checked-in `list_rec` is
ill-formed C++ — it terminates the chain with a null pointer and refers to a
non-existent `ATOM_ATOM` kind — so we model the behaviour its call sites rely
on: a `nil`-terminated heap list.) -/
def listOfExprs (gc : Gc) : List Expr → Expr × Gc
  | [] => NIL gc
  | e :: rest =>
    let (tail, gc1) := listOfExprs gc rest
    CONS gc1 e tail

/-- `wrong_argument_type` of `interpreter.cpp`:
`eval_failure(list(gc, "qqe", "wrong-argument-type", type, obj))` — a proper
three-element list, not a dotted pair. -/
def wrong_argument_type (gc : Gc) (type : String) (obj : Expr) :
    EvalResult × Gc :=
  let (s1, gc1) := SYMBOL gc "wrong-argument-type"
  let (s2, gc2) := SYMBOL gc1 type
  let (l, gc3) := listOfExprs gc2 [s1, s2, obj]
  (eval_failure l, gc3)

/-- `wrong_integer_of_arguments` of `interpreter.cpp`:
`eval_failure(CONS(SYMBOL("wrong-integer-of-arguments"), INTEGER(count)))`. -/
def wrong_integer_of_arguments (gc : Gc) (count : Int) : EvalResult × Gc :=
  let (s, gc1) := SYMBOL gc "wrong-integer-of-arguments"
  let (n, gc2) := INTEGER gc1 count
  let (p, gc3) := CONS gc2 s n
  (eval_failure p, gc3)

/-- The code after the scanning loop of `match_list`: an optional trailing
`*` that matches the empty tail, then the final length check.  The reported
argument count is the local `i` of `match_list`, which the `src` variant of
`interpreter.cpp` declares as `long int i = 0` and never increments — so the
count in the error value is always `0`. -/
def match_list_post (gc : Gc) (format : List Char) (xs : Expr)
    (acc : List Expr) : (EvalResult × List Expr) × Gc :=
  match format with
  | '*' :: rest =>
    if nil_p gc xs then
      let (n, gc1) := NIL gc
      if rest.isEmpty then
        let (n2, gc2) := NIL gc1
        ((eval_success n2, acc ++ [n]), gc2)
      else
        let (r, gc2) := wrong_integer_of_arguments gc1 0
        ((r, []), gc2)
    else
      let (r, gc1) := wrong_integer_of_arguments gc 0
      ((r, []), gc1)
  | [] =>
    if nil_p gc xs then
      let (n, gc1) := NIL gc
      ((eval_success n, acc), gc1)
    else
      let (r, gc1) := wrong_integer_of_arguments gc 0
      ((r, []), gc1)
  | _ =>
    let (r, gc1) := wrong_integer_of_arguments gc 0
    ((r, []), gc1)

/-- The scanning loop of `match_list` of `interpreter.cpp`.  One format
character consumes one list element; a kind mismatch reports
`wrong-argument-type` at the first offender; `*` captures the whole remaining
list and replaces it by a fresh `nil`.  `acc` collects what the C++ code
writes through its `va_arg` output pointers, in format order. -/
def match_list_loop (gc : Gc) : List Char → Expr → List Expr →
    (EvalResult × List Expr) × Gc
  | [], xs, acc => match_list_post gc [] xs acc
  | c :: rest, xs, acc =>
    if nil_p gc xs then match_list_post gc (c :: rest) xs acc
    else if !cons_p xs then
      let (r, gc1) := wrong_argument_type gc "consp" xs
      ((r, []), gc1)
    else
      let x := CAR gc xs
      match c with
      | 'd' =>
        if !integer_p gc x then
          let (r, gc1) := wrong_argument_type gc "integerp" x
          ((r, []), gc1)
        else match_list_loop gc rest (CDR gc xs) (acc ++ [x])
      | 'f' =>
        if !real_p gc x then
          let (r, gc1) := wrong_argument_type gc "realp" x
          ((r, []), gc1)
        else match_list_loop gc rest (CDR gc xs) (acc ++ [x])
      | 's' =>
        if !string_p gc x then
          let (r, gc1) := wrong_argument_type gc "stringp" x
          ((r, []), gc1)
        else match_list_loop gc rest (CDR gc xs) (acc ++ [x])
      | 'q' =>
        if !symbol_p gc x then
          let (r, gc1) := wrong_argument_type gc "symbolp" x
          ((r, []), gc1)
        else match_list_loop gc rest (CDR gc xs) (acc ++ [x])
      | 'e' => match_list_loop gc rest (CDR gc xs) (acc ++ [x])
      | '*' =>
        let (n, gc1) := NIL gc
        match_list_loop gc1 rest n (acc ++ [xs])
      | _ => match_list_loop gc rest (CDR gc xs) acc

/-- `match_list` of `interpreter.cpp` (the variadic output pointers are
returned as the extracted-expression list). -/
def match_list (gc : Gc) (format : String) (xs : Expr) :
    (EvalResult × List Expr) × Gc :=
  match_list_loop gc format.toList xs []

/-- `read_error` of `interpreter.cpp`:
`eval_failure(list(gc, "qsd", "read-error", message, character))`. -/
def read_error (gc : Gc) (msg : String) (character : Int) : EvalResult × Gc :=
  let (s1, gc1) := SYMBOL gc "read-error"
  let (s2, gc2) := STRING gc1 msg
  let (s3, gc3) := INTEGER gc2 character
  let (l, gc4) := listOfExprs gc3 [s1, s2, s3]
  (eval_failure l, gc4)

/-- `bool_as_expr`: `condition ? T(gc) : NIL(gc)` (allocating the symbol). -/
def bool_as_expr (gc : Gc) (condition : Bool) : Expr × Gc :=
  if condition then T gc else NIL gc

/-- `RealFn` of `std.cpp`: coerce a numeric expression to a real atom. -/
def realFn (gc : Gc) (a : Expr) : EvalResult × Gc :=
  if real_p gc a then (eval_success a, gc)
  else if integer_p gc a then
    let (e, gc1) := REAL gc (((intPayload gc a).getD 0 : Int) : ℚ)
    (eval_success e, gc1)
  else wrong_argument_type gc "(or realp integerp)" a

/-- `Plus2Fn` of `std.cpp`: add two numbers, integer when both are integers,
promoted to real otherwise. -/
def plus2 (gc : Gc) (a b : Expr) : EvalResult × Gc :=
  if integer_p gc a && integer_p gc b then
    let (e, gc1) := INTEGER gc ((intPayload gc a).getD 0 + (intPayload gc b).getD 0)
    (eval_success e, gc1)
  else
    let (ra, gc1) := realFn gc a
    if ra.is_error then (ra, gc1)
    else
      let (rb, gc2) := realFn gc1 b
      if rb.is_error then (rb, gc2)
      else
        let (e, gc3) :=
          REAL gc2 ((realPayload gc2 ra.expr).getD 0 + (realPayload gc2 rb.expr).getD 0)
        (eval_success e, gc3)

/-- `Mul2Fn` of `std.cpp`. -/
def mul2 (gc : Gc) (a b : Expr) : EvalResult × Gc :=
  if integer_p gc a && integer_p gc b then
    let (e, gc1) := INTEGER gc ((intPayload gc a).getD 0 * (intPayload gc b).getD 0)
    (eval_success e, gc1)
  else
    let (ra, gc1) := realFn gc a
    if ra.is_error then (ra, gc1)
    else
      let (rb, gc2) := realFn gc1 b
      if rb.is_error then (rb, gc2)
      else
        let (e, gc3) :=
          REAL gc2 ((realPayload gc2 ra.expr).getD 0 * (realPayload gc2 rb.expr).getD 0)
        (eval_success e, gc3)

/-- `GreaterThan2Fn` of `std.cpp`. -/
def greaterThan2 (gc : Gc) (a b : Expr) : EvalResult × Gc :=
  if integer_p gc a && integer_p gc b then
    let (e, gc1) := bool_as_expr gc (decide ((intPayload gc a).getD 0 > (intPayload gc b).getD 0))
    (eval_success e, gc1)
  else
    let (ra, gc1) := realFn gc a
    if ra.is_error then (ra, gc1)
    else
      let (rb, gc2) := realFn gc1 b
      if rb.is_error then (rb, gc2)
      else
        let (e, gc3) :=
          bool_as_expr gc2
            (decide ((realPayload gc2 ra.expr).getD 0 > (realPayload gc2 rb.expr).getD 0))
        (eval_success e, gc3)

/-- The accumulation loop of `PlusOpFn`/`MulOpFn`, parameterised by the
two-argument operation.  On an acyclic argument chain the entry fuel
`conses.length + 1` is never exhausted. -/
def arith_op_loop (op : Gc → Expr → Expr → EvalResult × Gc) :
    Nat → Gc → Expr → Expr → EvalResult × Gc
  | 0, gc, _, acc => (eval_success acc, gc)
  | f + 1, gc, args, acc =>
    if nil_p gc args then (eval_success acc, gc)
    else if !cons_p args then wrong_argument_type gc "consp" args
    else
      let x := CAR gc args
      let (r, gc1) := op gc acc x
      if r.is_error then (r, gc1)
      else arith_op_loop op f gc1 (CDR gc1 args) r.expr

/-- `PlusOpFn` of `std.cpp`: fold `plus2` over the argument list starting
from the integer `0`. -/
def plus_op (gc : Gc) (args : Expr) : EvalResult × Gc :=
  let (acc, gc1) := INTEGER gc 0
  arith_op_loop plus2 (gc1.conses.length + 1) gc1 args acc

/-- `MulOpFn` of `std.cpp`: fold `mul2` over the argument list starting from
the integer `1`. -/
def mul_op (gc : Gc) (args : Expr) : EvalResult × Gc :=
  let (acc, gc1) := INTEGER gc 1
  arith_op_loop mul2 (gc1.conses.length + 1) gc1 args acc

/-- The scanning loop of `GreaterThanFn` of `std.cpp`: check that adjacent
elements are strictly descending-sorted under `greaterThan2`. -/
def greaterThan_loop : Nat → Gc → Expr → Expr → Bool → EvalResult × Gc
  | 0, gc, _, _, sorted =>
    let (e, gc1) := bool_as_expr gc sorted
    (eval_success e, gc1)
  | f + 1, gc, x1, args, sorted =>
    if !nil_p gc args && sorted then
      let x2 := CAR gc args
      let args' := CDR gc args
      let (r, gc1) := greaterThan2 gc x1 x2
      if r.is_error then (r, gc1)
      else greaterThan_loop f gc1 x2 args' (sorted && !nil_p gc1 r.expr)
    else
      let (e, gc1) := bool_as_expr gc sorted
      (eval_success e, gc1)

/-- `GreaterThanFn` of `std.cpp`. -/
def greaterThan (gc : Gc) (args : Expr) : EvalResult × Gc :=
  if !cons_p args then wrong_argument_type gc "consp" args
  else greaterThan_loop (gc.conses.length + 1) gc (CAR gc args) (CDR gc args) true

/-- The `car` built-in of `interpreter.cpp` (note the `Expr xs = NIL(gc)`
initialisation, which allocates). -/
def car_native (gc : Gc) (args : Expr) : EvalResult × Gc :=
  let (xs0, gc0) := NIL gc
  match match_list gc0 "e" args with
  | ((r, m), gc1) =>
    if r.is_error then (r, gc1)
    else
      let xs := m.headD xs0
      if nil_p gc1 xs then (eval_success xs, gc1)
      else if !cons_p xs then wrong_argument_type gc1 "consp" xs
      else (eval_success (CAR gc1 xs), gc1)

/-- `AssocOpFn` of `std.cpp` (its two out-parameters are initialised with
`NIL(gc)`, which allocates). -/
def assoc_op (gc : Gc) (args : Expr) : EvalResult × Gc :=
  let (_, gc0) := NIL gc
  let (_, gc1) := NIL gc0
  match match_list gc1 "ee" args with
  | ((r, m), gc2) =>
    if r.is_error then (r, gc2)
    else
      match m with
      | [key, alist] => (eval_success (assoc gc2 key alist), gc2)
      | _ => (r, gc2)

/-- `QuoteFn` of `std.cpp`. -/
def quote_native (gc : Gc) (args : Expr) : EvalResult × Gc :=
  match match_list gc "e" args with
  | ((r, m), gc1) =>
    if r.is_error then (r, gc1)
    else (eval_success (m.headD .void), gc1)

/-- `UnquoteFn` of `std.cpp`: always the error string, ignoring the
arguments. -/
def unquote_native (gc : Gc) : EvalResult × Gc :=
  let (s, gc1) := STRING gc "Using unquote outside of quasiquote."
  (eval_failure s, gc1)

/-- `EqualOpFn` of `std.cpp`. -/
def equal_op (gc : Gc) (args : Expr) : EvalResult × Gc :=
  match match_list gc "ee" args with
  | ((r, m), gc1) =>
    if r.is_error then (r, gc1)
    else
      match m with
      | [o1, o2] =>
        if equal gc1 o1 o2 then
          let (e, gc2) := T gc1
          (eval_success e, gc2)
        else
          let (e, gc2) := NIL gc1
          (eval_success e, gc2)
      | _ => (r, gc1)

/-- `LambdaFn` of `std.cpp` / `create_lambda_atom`: build a lambda atom
capturing the current scope expression. -/
def lambda_helper (gc : Gc) (args body scopeExpr : Expr) : Expr × Gc :=
  gc.allocAtom (.lam ⟨args, body, scopeExpr⟩)

/-- `LambdaOpFn` of `std.cpp` (handles both `lambda` and `λ`). -/
def lambda_op (gc : Gc) (scope args : Expr) : EvalResult × Gc :=
  match match_list gc "e*" args with
  | ((r, m), gc1) =>
    if r.is_error then (r, gc1)
    else
      match m with
      | [args_list, body] =>
        if !list_of_symbols_p gc1 args_list then
          wrong_argument_type gc1 "list-of-symbolsp" args_list
        else
          let (l, gc2) := lambda_helper gc1 args_list body scope
          (eval_success l, gc2)
      | _ => (r, gc1)

/-- The recursive helper of `AppendFn` of `std.cpp`.  (As written the helper
rebuilds the spine of its single list argument; it does not concatenate.) -/
def append_helper : Nat → Gc → Expr → EvalResult × Gc
  | 0, gc, _ =>
    let (n, gc1) := NIL gc
    (eval_success n, gc1)
  | f + 1, gc, xs =>
    if nil_p gc xs then
      let (n, gc1) := NIL gc
      (eval_success n, gc1)
    else
      match match_list gc "e*" xs with
      | ((r, m), gc1) =>
        if r.is_error then (r, gc1)
        else
          match m with
          | [x, xs1] =>
            let (r1, gc2) := append_helper f gc1 xs1
            if r1.is_error then (r1, gc2)
            else
              let (p, gc3) := CONS gc2 x r1.expr
              (eval_success p, gc3)
          | _ => (r, gc1)

/-- `AppendFn` of `std.cpp`. -/
def append_native (gc : Gc) (args : Expr) : EvalResult × Gc :=
  if nil_p gc args then
    let (n, gc1) := NIL gc
    (eval_success n, gc1)
  else append_helper (gc.conses.length + 1) gc args

/-- Modelled from the spec: `LoadFn` of `std.cpp` parses a file and evaluates
its expressions; file I/O is outside this embedding, so the filesystem is
modelled as empty and a failed read surfaces as the `read-error` value that
`LoadFn` builds from a failing `ParseResult`.  (The checked-in call
`read_error(gc, msg, line, column)` does not even match the three-parameter
declaration of `read_error`.)  No claim exercises `load`. -/
def load_native (gc : Gc) (args : Expr) : EvalResult × Gc :=
  match match_list gc "s" args with
  | ((r, _), gc1) =>
    if r.is_error then (r, gc1)
    else read_error gc1 "No such file or directory" 0

/-- The error value built at the end of `eval_atom`, `eval_all_args` and
`eval` for an `EXPR_VOID` input:
`eval_failure(CONS(SYMBOL("unexpected-expression"), expr))`. -/
def unexpected_expression (gc : Gc) (e : Expr) : EvalResult × Gc :=
  let (s, gc1) := SYMBOL gc "unexpected-expression"
  let (p, gc2) := CONS gc1 s e
  (eval_failure p, gc2)

/-- `eval_atom` of `interpreter.cpp`: non-symbol atoms self-evaluate; a
symbol is looked up in the scope, yielding `(void-variable . sym)` when the
lookup comes back `nil`, and the `cdr` of the binding cell otherwise.
Returns `none` on a dangling atom pointer (undefined behaviour in C++). -/
def eval_atom (gc : Gc) (scope : Expr) (i : Nat) : Option (EvalResult × Gc) :=
  match gc.getAtom i with
  | some (.symbol _) =>
    let value := get_scope_value gc scope (.atom i)
    if nil_p gc value then
      let (s, gc1) := SYMBOL gc "void-variable"
      let (p, gc2) := CONS gc1 s (.atom i)
      some (eval_failure p, gc2)
    else some (eval_success (CDR gc value), gc)
  | some _ => some (eval_success (.atom i), gc)
  | none => none

/-- The pending-call alphabet of the evaluator.  Each constructor corresponds
to one mutually recursive function of `interpreter.cpp`/`std.cpp`; making the
mutual recursion a single function over this alphabet keeps the recursion
structural in the fuel, so closed evaluations reduce in the kernel. -/
inductive Call where
  | evalC (scope e : Expr)
  | evalAllArgsC (scope args : Expr)
  | evalFuncallC (scope callable args : Expr)
  | callLambdaC (lam args : Expr)
  | lambdaBodyC (scope body prev : Expr)
  | evalBlockC (scope block : Expr)
  | blockLoopC (scope head prev : Expr)
  | nativeC (fn : NativeId) (scope args : Expr)
  | quasiquoteC (scope args : Expr)
  deriving DecidableEq, Repr

/-- The evaluator.  `none` means the fuel ran out or the execution hit C++
undefined behaviour (dangling dereference); every run of the C++ interpreter
that terminates normally is reproduced by `run` for every sufficiently large
fuel.  Branch-by-branch correspondence:

* `.evalC` — `eval`;
* `.evalAllArgsC` — `eval_all_args` (note that the terminal atom of the
  argument list is itself evaluated: for a proper list the `nil` terminal is
  looked up in the scope);
* `.evalFuncallC` — `eval_funcall`: evaluate the head, pass the arguments
  unevaluated exactly when the head is a symbol whose payload `is_special`,
  then dispatch on whether the callable is a native;
* `.callLambdaC` + `.lambdaBodyC` — `call_lambda`;
* `.evalBlockC` + `.blockLoopC` — `eval_block`;
* `.nativeC` — the native-function bridge: the `std.cpp` functors that do
  not re-enter the evaluator are called out of line, the re-entrant ones
  (`SetFn`, `BeginFn`, `DefunFn`, `WhenFn`, `QuasiquoteFn`) are inlined;
* `.quasiquoteC` — `QuasiquoteFn` of `std.cpp`. -/
def step (recur : Gc → Call → Option (EvalResult × Gc)) (gc : Gc) (c : Call) :
    Option (EvalResult × Gc) :=
    match c with
    | .evalC scope e =>
      match e with
      | .atom i => eval_atom gc scope i
      | .cons i =>
        match gc.getCons i with
        | some cc => recur gc (.evalFuncallC scope cc.car cc.cdr)
        | none => none
      | .void => some (unexpected_expression gc e)
    | .evalAllArgsC scope args =>
      match args with
      | .atom i => eval_atom gc scope i
      | .cons i =>
        match gc.getCons i with
        | some cc =>
          match recur gc (.evalC scope cc.car) with
          | none => none
          | some (carR, gc1) =>
            if carR.is_error then some (carR, gc1)
            else
              match recur gc1 (.evalAllArgsC scope cc.cdr) with
              | none => none
              | some (cdrR, gc2) =>
                if cdrR.is_error then some (cdrR, gc2)
                else
                  let (p, gc3) := CONS gc2 carR.expr cdrR.expr
                  some (eval_success p, gc3)
        | none => none
      | .void => some (unexpected_expression gc args)
    | .evalFuncallC scope callable args =>
      match recur gc (.evalC scope callable) with
      | none => none
      | some (callableR, gc1) =>
        if callableR.is_error then some (callableR, gc1)
        else
          let special := symbol_p gc1 callable &&
            is_special ((symPayload gc1 callable).getD "")
          let argsStep : Option (EvalResult × Gc) :=
            if special then some (eval_success args, gc1)
            else recur gc1 (.evalAllArgsC scope args)
          match argsStep with
          | none => none
          | some (argsR, gc2) =>
            if argsR.is_error then some (argsR, gc2)
            else
              match callableR.expr with
              | .atom j =>
                match gc2.getAtom j with
                | some (.native fn) => recur gc2 (.nativeC fn scope argsR.expr)
                | some _ => recur gc2 (.callLambdaC callableR.expr argsR.expr)
                | none => none
              | _ => recur gc2 (.callLambdaC callableR.expr argsR.expr)
    | .callLambdaC lam args =>
      if !lambda_p gc lam then
        let (s, gc1) := SYMBOL gc "expected-callable"
        let (p, gc2) := CONS gc1 s lam
        some (eval_failure p, gc2)
      else if !list_p gc args then
        let (s, gc1) := SYMBOL gc "expected-arguments"
        let (p, gc2) := CONS gc1 s args
        some (eval_failure p, gc2)
      else
        let l := (lambdaPayload gc lam).getD ⟨.void, .void, .void⟩
        let vars := l.args_list
        if length_of_list gc args != length_of_list gc vars then
          some (wrong_integer_of_arguments gc (length_of_list gc args))
        else
          let (scope', gc1) := push_scope_frame gc l.envir vars args
          let (n, gc2) := NIL gc1
          recur gc2 (.lambdaBodyC scope' l.body n)
    | .lambdaBodyC scope body prev =>
      if nil_p gc body then some (eval_success prev, gc)
      else
        match body with
        | .cons i =>
          match gc.getCons i with
          | some cc =>
            match recur gc (.evalC scope cc.car) with
            | none => none
            | some (r, gc1) =>
              if r.is_error then some (r, gc1)
              else recur gc1 (.lambdaBodyC scope cc.cdr r.expr)
          | none => none
        | _ => none
    | .evalBlockC scope block =>
      if !list_p gc block then some (wrong_argument_type gc "listp" block)
      else
        let (n, gc1) := NIL gc
        recur gc1 (.blockLoopC scope block n)
    | .blockLoopC scope head prev =>
      match head with
      | .cons i =>
        match gc.getCons i with
        | some cc =>
          match recur gc (.evalC scope cc.car) with
          | none => none
          | some (r, gc1) =>
            if r.is_error then some (r, gc1)
            else recur gc1 (.blockLoopC scope cc.cdr r.expr)
        | none => none
      | _ => some (eval_success prev, gc)
    | .nativeC fn scope args =>
      match fn with
      | .carN => some (car_native gc args)
      | .greaterThanN => some (greaterThan gc args)
      | .plusOpN => some (plus_op gc args)
      | .mulOpN => some (mul_op gc args)
      | .listOpN => some (eval_success args, gc)
      | .assocOpN => some (assoc_op gc args)
      | .quoteN => some (quote_native gc args)
      | .lambdaOpN => some (lambda_op gc scope args)
      | .unquoteN => some (unquote_native gc)
      | .equalOpN => some (equal_op gc args)
      | .appendN => some (append_native gc args)
      | .loadN => some (load_native gc args)
      | .quasiquoteN => recur gc (.quasiquoteC scope args)
      | .setN =>
        match match_list gc "qe" args with
        | ((r, m), gc1) =>
          if r.is_error then some (r, gc1)
          else
            match m with
            | [nameE, valueE] =>
              match recur gc1 (.evalC scope valueE) with
              | none => none
              | some (vr, gc2) =>
                if vr.is_error then some (vr, gc2)
                else
                  let (nameSym, gc3) := SYMBOL gc2 ((symPayload gc2 nameE).getD "")
                  let r4 := set_scope_value gc3 scope nameSym vr.expr
                  some (eval_success vr.expr, r4.2)
            | _ => none
      | .beginN =>
        match match_list gc "*" args with
        | ((r, m), gc1) =>
          if r.is_error then some (r, gc1)
          else recur gc1 (.evalBlockC scope (m.headD .void))
      | .defunN =>
        match match_list gc "ee*" args with
        | ((r, m), gc1) =>
          if r.is_error then some (r, gc1)
          else
            match m with
            | [nameE, args_list, body] =>
              if !list_of_symbols_p gc1 args_list then
                some (wrong_argument_type gc1 "list-of-symbolsp" args_list)
              else
                let (setSym, gc2) := SYMBOL gc1 "set"
                let (lamE, gc3) := lambda_helper gc2 args_list body scope
                let (form, gc4) := listOfExprs gc3 [setSym, nameE, lamE]
                recur gc4 (.evalC scope form)
            | _ => none
      | .whenN =>
        match match_list gc "e*" args with
        | ((r, m), gc1) =>
          if r.is_error then some (r, gc1)
          else
            match m with
            | [condE, body] =>
              match recur gc1 (.evalC scope condE) with
              | none => none
              | some (cr, gc2) =>
                if cr.is_error then some (cr, gc2)
                else if !nil_p gc2 cr.expr then recur gc2 (.evalBlockC scope body)
                else
                  let (n, gc3) := NIL gc2
                  some (eval_success n, gc3)
            | _ => none
    | .quasiquoteC scope args =>
      match match_list gc "e" args with
      | ((r, m), gc1) =>
        if r.is_error then some (r, gc1)
        else
          let expr := m.headD .void
          match match_list gc1 "qe" expr with
          | ((r2, m2), gc2) =>
            if !r2.is_error && (symPayload gc2 (m2.headD .void) == some "unquote") then
              recur gc2 (.evalC scope (m2.getD 1 .void))
            else if cons_p expr then
              let (n1, gc3) := NIL gc2
              let (w1, gc4) := CONS gc3 (CAR gc3 expr) n1
              match recur gc4 (.quasiquoteC scope w1) with
              | none => none
              | some (leftR, gc5) =>
                if leftR.is_error then some (leftR, gc5)
                else
                  let (n2, gc6) := NIL gc5
                  let (w2, gc7) := CONS gc6 (CDR gc6 expr) n2
                  match recur gc7 (.quasiquoteC scope w2) with
                  | none => none
                  | some (rightR, gc8) =>
                    if rightR.is_error then some (rightR, gc8)
                    else
                      let (p, gc9) := CONS gc8 leftR.expr rightR.expr
                      some (eval_success p, gc9)
            else some (eval_success expr, gc2)

/-- The evaluator: the fuelled fixed point of `step`.  `run (f+1) gc c`
performs the call `c` with every (mutually) recursive call made at fuel
`f`. -/
def run : Nat → Gc → Call → Option (EvalResult × Gc)
  | 0, _, _ => none
  | f + 1, gc, c => step (run f) gc c

/-- `eval` of `interpreter.cpp`, at a given fuel. -/
def eval (fuel : Nat) (gc : Gc) (scope e : Expr) : Option (EvalResult × Gc) :=
  run fuel gc (.evalC scope e)

/-- `eval_all_args` of `interpreter.cpp`, at a given fuel. -/
def eval_all_args (fuel : Nat) (gc : Gc) (scope args : Expr) :
    Option (EvalResult × Gc) :=
  run fuel gc (.evalAllArgsC scope args)

/-- `eval_funcall` of `interpreter.cpp`, at a given fuel. -/
def eval_funcall (fuel : Nat) (gc : Gc) (scope callable args : Expr) :
    Option (EvalResult × Gc) :=
  run fuel gc (.evalFuncallC scope callable args)

/-- `call_lambda` of `interpreter.cpp`, at a given fuel. -/
def call_lambda (fuel : Nat) (gc : Gc) (lam args : Expr) :
    Option (EvalResult × Gc) :=
  run fuel gc (.callLambdaC lam args)

/-- `eval_block` of `interpreter.cpp`, at a given fuel. -/
def eval_block (fuel : Nat) (gc : Gc) (scope block : Expr) :
    Option (EvalResult × Gc) :=
  run fuel gc (.evalBlockC scope block)

/-- `QuasiquoteFn` of `std.cpp`, at a given fuel. -/
def quasiquote (fuel : Nat) (gc : Gc) (scope args : Expr) :
    Option (EvalResult × Gc) :=
  run fuel gc (.quasiquoteC scope args)

/-- One `set_scope_value(gc, scope, SYMBOL(name), NATIVE(fn, NULL))`
registration line of `load_std_library`. -/
def bindN (gc : Gc) (scope : Expr) (name : String) (fn : NativeId) :
    Expr × Gc :=
  let (s, gc1) := SYMBOL gc name
  let (v, gc2) := NATIVE gc1 fn
  set_scope_value gc2 scope s v

/-- One `set_scope_value(gc, scope, SYMBOL(name), SYMBOL(payload))`
registration line of `load_std_library` (used for `t` and `nil`). -/
def bindSym (gc : Gc) (scope : Expr) (name payload : String) : Expr × Gc :=
  let (s, gc1) := SYMBOL gc name
  let (v, gc2) := SYMBOL gc1 payload
  set_scope_value gc2 scope s v

/-- `load_std_library` of `std.cpp`, in registration order. -/
def load_std_library (gc : Gc) (scope : Expr) : Expr × Gc :=
  let (scope, gc) := bindN gc scope "car" .carN
  let (scope, gc) := bindN gc scope ">" .greaterThanN
  let (scope, gc) := bindN gc scope "+" .plusOpN
  let (scope, gc) := bindN gc scope "*" .mulOpN
  let (scope, gc) := bindN gc scope "list" .listOpN
  let (scope, gc) := bindSym gc scope "t" "t"
  let (scope, gc) := bindSym gc scope "nil" "nil"
  let (scope, gc) := bindN gc scope "assoc" .assocOpN
  let (scope, gc) := bindN gc scope "quasiquote" .quasiquoteN
  let (scope, gc) := bindN gc scope "set" .setN
  let (scope, gc) := bindN gc scope "quote" .quoteN
  let (scope, gc) := bindN gc scope "begin" .beginN
  let (scope, gc) := bindN gc scope "defun" .defunN
  let (scope, gc) := bindN gc scope "when" .whenN
  let (scope, gc) := bindN gc scope "lambda" .lambdaOpN
  let (scope, gc) := bindN gc scope "λ" .lambdaOpN
  let (scope, gc) := bindN gc scope "unquote" .unquoteN
  let (scope, gc) := bindN gc scope "load" .loadN
  let (scope, gc) := bindN gc scope "append" .appendN
  let (scope, gc) := bindN gc scope "equal" .equalOpN
  (scope, gc)

/-- The interpreter's start-up state (`repl.cpp` `main`): an empty heap, a
fresh scope, the standard library loaded.  (The extra REPL conveniences of
`repl-runtime.cpp` — `quit`, `gc-inspect`, `scope`, `print` — are I/O-bound
and not registered here; no claim mentions them.) -/
def initialState : Expr × Gc :=
  let gc0 : Gc := ⟨[], []⟩
  let (scope0, gc1) := create_scope gc0
  load_std_library gc1 scope0

def stdScope : Expr := initialState.1

def stdGc : Gc := initialState.2

/-- Pure observation of a heap value as a tree, for stating concrete
results.  `dead` marks a dangling reference, `cut` fuel exhaustion (which
cannot happen below the internal bound on an acyclic heap). -/
inductive SVal where
  | sym (s : String)
  | int (n : Int)
  | rl (x : ℚ)
  | str (s : String)
  | lamV
  | natV (fn : NativeId)
  | voidV
  | dead
  | cut
  | consV (car cdr : SVal)
  deriving DecidableEq, Repr

def readSVal_fueled (gc : Gc) : Nat → Expr → SVal
  | 0, _ => .cut
  | f + 1, e =>
    match e with
    | .void => .voidV
    | .atom i =>
      match gc.getAtom i with
      | some (.symbol s) => .sym s
      | some (.integer n) => .int n
      | some (.real x) => .rl x
      | some (.string s) => .str s
      | some (.lam _) => .lamV
      | some (.native fn) => .natV fn
      | none => .dead
    | .cons i =>
      match gc.getCons i with
      | some c => .consV (readSVal_fueled gc f c.car) (readSVal_fueled gc f c.cdr)
      | none => .dead

def readSVal (gc : Gc) (e : Expr) : SVal :=
  readSVal_fueled gc (gc.conses.length + 1) e

/-- Run the evaluator and observe the result as an error flag plus value
tree. -/
def runRead (fuel : Nat) (gc : Gc) (scope e : Expr) : Option (Bool × SVal) :=
  (run fuel gc (.evalC scope e)).map fun r => (r.1.is_error, readSVal r.2 r.1.expr)

/-- Big-step formulation: the call `c` converges to `r` at some fuel. -/
def Runs (gc : Gc) (c : Call) (r : EvalResult × Gc) : Prop :=
  ∃ f, run f gc c = some r

/-- Payload of a live string atom. -/
def strPayload (gc : Gc) (e : Expr) : Option String :=
  match e with
  | .atom i => match gc.getAtom i with
    | some (.string s) => some s
    | _ => none
  | _ => none

/-- Heap growth by pure allocation: every live slot keeps its payload.  (Not
an equivalence: `set_scope_value` can also mutate cons cells, and the
collector can destroy slots.) -/
structure Gc.Preserves (g g' : Gc) : Prop where
  atom : ∀ {i : Nat} {a : Atom}, g.getAtom i = some a → g'.getAtom i = some a
  cons : ∀ {i : Nat} {c : Cons}, g.getCons i = some c → g'.getCons i = some c

/-- The `(+)` end-to-end instance: the form `(+)` built in the standard
heap. -/
def c9PlusState : Expr × Gc :=
  let (p, gc) := SYMBOL stdGc "+"
  listOfExprs gc [p]

/-- The `(*)` end-to-end instance. -/
def c9MulState : Expr × Gc :=
  let (p, gc) := SYMBOL stdGc "*"
  listOfExprs gc [p]

/-- A concrete arity-mismatch instance: the lambda `(lambda (x) )` applied to
the argument list `(1 2)`, in a four-atom heap. -/
def c10State : (Expr × Expr) × Gc :=
  let gc : Gc := ⟨[], []⟩
  let (x, gc) := SYMBOL gc "x"
  let (params, gc) := listOfExprs gc [x]
  let (body, gc) := NIL gc
  let (envir, gc) := NIL gc
  let (lam, gc) := lambda_helper gc params body envir
  let (one, gc) := INTEGER gc 1
  let (two, gc) := INTEGER gc 2
  let (args, gc) := listOfExprs gc [one, two]
  ((lam, args), gc)

/-- C7 counterexample state: the form `(unquote x)` with `x` unbound, built
in the standard heap. -/
def c7CexState : Expr × Gc :=
  let gc := stdGc
  let (u, gc) := SYMBOL gc "unquote"
  let (x, gc) := SYMBOL gc "x"
  listOfExprs gc [u, x]

/-- C7 witness state: the head symbol `unquote` and the argument list `(5)`,
built in the standard heap. -/
def c7WitState : (Expr × Expr) × Gc :=
  let gc := stdGc
  let (u, gc) := SYMBOL gc "unquote"
  let (five, gc) := INTEGER gc 5
  let (args, gc) := listOfExprs gc [five]
  ((u, args), gc)

/-- The result of evaluating the witness argument list `(5)`. -/
def c7WitOut : EvalResult × Gc :=
  (run 20 c7WitState.2 (.evalAllArgsC stdScope c7WitState.1.2)).getD
    (⟨true, .void⟩, c7WitState.2)

/-- A heap value that is a proper list with the given element expressions
(the spine follows live cons cells and ends in a `nil` symbol atom). -/
inductive IsHeapList (gc : Gc) : Expr → List Expr → Prop where
  | nil : ∀ e, nil_p gc e = true → IsHeapList gc e []
  | cons : ∀ (i : Nat) (cc : Cons) (es : List Expr),
      gc.getCons i = some cc → IsHeapList gc cc.cdr es →
      IsHeapList gc (.cons i) (cc.car :: es)

/-- The kind check each `match_list` format character performs on its
element. -/
def kindOK (gc : Gc) (c : Char) (x : Expr) : Bool :=
  match c with
  | 'd' => integer_p gc x
  | 'f' => real_p gc x
  | 's' => string_p gc x
  | 'q' => symbol_p gc x
  | _ => true

/-- The predicate name `match_list` reports for each format character's kind
mismatch. -/
def kindName : Char → String
  | 'd' => "integerp"
  | 'f' => "realp"
  | 's' => "stringp"
  | 'q' => "symbolp"
  | _ => ""

/-- C5 counterexample state: the lists `(1 2)` and `("a")` in a small
heap. -/
def c5CexState : (Expr × Expr) × Gc :=
  let gc : Gc := ⟨[], []⟩
  let (one, gc) := INTEGER gc 1
  let (two, gc) := INTEGER gc 2
  let (xs2, gc) := listOfExprs gc [one, two]
  let (sa, gc) := STRING gc "a"
  let (xs1, gc) := listOfExprs gc [sa]
  ((xs2, xs1), gc)

/-- Literal form of the standard heap, proved equal to `stdGc` in
`stdGc_lit` below.  Spelling the tables out keeps definitional reduction of
concrete evaluations over the standard heap shallow. -/
def stdGcLit : Gc :=
{ atoms := [some (Atom.symbol "nil"),
            some (Atom.symbol "nil"),
            some (Atom.symbol "car"),
            some (Atom.native (NativeId.carN)),
            some (Atom.symbol ">"),
            some (Atom.native (NativeId.greaterThanN)),
            some (Atom.symbol "+"),
            some (Atom.native (NativeId.plusOpN)),
            some (Atom.symbol "*"),
            some (Atom.native (NativeId.mulOpN)),
            some (Atom.symbol "list"),
            some (Atom.native (NativeId.listOpN)),
            some (Atom.symbol "t"),
            some (Atom.symbol "t"),
            some (Atom.symbol "nil"),
            some (Atom.symbol "nil"),
            some (Atom.symbol "assoc"),
            some (Atom.native (NativeId.assocOpN)),
            some (Atom.symbol "quasiquote"),
            some (Atom.native (NativeId.quasiquoteN)),
            some (Atom.symbol "set"),
            some (Atom.native (NativeId.setN)),
            some (Atom.symbol "quote"),
            some (Atom.native (NativeId.quoteN)),
            some (Atom.symbol "begin"),
            some (Atom.native (NativeId.beginN)),
            some (Atom.symbol "defun"),
            some (Atom.native (NativeId.defunN)),
            some (Atom.symbol "when"),
            some (Atom.native (NativeId.whenN)),
            some (Atom.symbol "lambda"),
            some (Atom.native (NativeId.lambdaOpN)),
            some (Atom.symbol "λ"),
            some (Atom.native (NativeId.lambdaOpN)),
            some (Atom.symbol "unquote"),
            some (Atom.native (NativeId.unquoteN)),
            some (Atom.symbol "load"),
            some (Atom.native (NativeId.loadN)),
            some (Atom.symbol "append"),
            some (Atom.native (NativeId.appendN)),
            some (Atom.symbol "equal"),
            some (Atom.native (NativeId.equalOpN))],
  conses := [some { car := Expr.cons 40, cdr := Expr.atom 1 },
             some { car := Expr.atom 2, cdr := Expr.atom 3 },
             some { car := Expr.cons 1, cdr := Expr.atom 0 },
             some { car := Expr.atom 4, cdr := Expr.atom 5 },
             some { car := Expr.cons 3, cdr := Expr.cons 2 },
             some { car := Expr.atom 6, cdr := Expr.atom 7 },
             some { car := Expr.cons 5, cdr := Expr.cons 4 },
             some { car := Expr.atom 8, cdr := Expr.atom 9 },
             some { car := Expr.cons 7, cdr := Expr.cons 6 },
             some { car := Expr.atom 10, cdr := Expr.atom 11 },
             some { car := Expr.cons 9, cdr := Expr.cons 8 },
             some { car := Expr.atom 12, cdr := Expr.atom 13 },
             some { car := Expr.cons 11, cdr := Expr.cons 10 },
             some { car := Expr.atom 14, cdr := Expr.atom 15 },
             some { car := Expr.cons 13, cdr := Expr.cons 12 },
             some { car := Expr.atom 16, cdr := Expr.atom 17 },
             some { car := Expr.cons 15, cdr := Expr.cons 14 },
             some { car := Expr.atom 18, cdr := Expr.atom 19 },
             some { car := Expr.cons 17, cdr := Expr.cons 16 },
             some { car := Expr.atom 20, cdr := Expr.atom 21 },
             some { car := Expr.cons 19, cdr := Expr.cons 18 },
             some { car := Expr.atom 22, cdr := Expr.atom 23 },
             some { car := Expr.cons 21, cdr := Expr.cons 20 },
             some { car := Expr.atom 24, cdr := Expr.atom 25 },
             some { car := Expr.cons 23, cdr := Expr.cons 22 },
             some { car := Expr.atom 26, cdr := Expr.atom 27 },
             some { car := Expr.cons 25, cdr := Expr.cons 24 },
             some { car := Expr.atom 28, cdr := Expr.atom 29 },
             some { car := Expr.cons 27, cdr := Expr.cons 26 },
             some { car := Expr.atom 30, cdr := Expr.atom 31 },
             some { car := Expr.cons 29, cdr := Expr.cons 28 },
             some { car := Expr.atom 32, cdr := Expr.atom 33 },
             some { car := Expr.cons 31, cdr := Expr.cons 30 },
             some { car := Expr.atom 34, cdr := Expr.atom 35 },
             some { car := Expr.cons 33, cdr := Expr.cons 32 },
             some { car := Expr.atom 36, cdr := Expr.atom 37 },
             some { car := Expr.cons 35, cdr := Expr.cons 34 },
             some { car := Expr.atom 38, cdr := Expr.atom 39 },
             some { car := Expr.cons 37, cdr := Expr.cons 36 },
             some { car := Expr.atom 40, cdr := Expr.atom 41 },
             some { car := Expr.cons 39, cdr := Expr.cons 38 }] }

/-- C4 end-to-end state: the forms `(+ a b)`, `(* a b)` and `(> a b)` with
integer atoms of the given payloads, built in the standard heap. -/
def c4State (base : Gc) (a b : Int) : (Expr × Expr × Expr) × Gc :=
  let gc := base
  let (ae, gc) := INTEGER gc a
  let (be, gc) := INTEGER gc b
  let (plusS, gc) := SYMBOL gc "+"
  let (mulS, gc) := SYMBOL gc "*"
  let (gtS, gc) := SYMBOL gc ">"
  let (fPlus, gc) := listOfExprs gc [plusS, ae, be]
  let (fMul, gc) := listOfExprs gc [mulS, ae, be]
  let (fGt, gc) := listOfExprs gc [gtS, ae, be]
  ((fPlus, fMul, fGt), gc)

/-- Numeric-atom test: an integer or real atom (`integer_p || real_p`), the
operand kinds accepted by the arithmetic built-ins. -/
def is_num_atom (gc : Gc) (e : Expr) : Bool :=
  integer_p gc e || real_p gc e

/-- C4 witness state: the integer argument list `(2 3)` and the mixed
argument list `(2 1/2)` in a small heap. -/
def c4WitState : (Expr × Expr) × Gc :=
  let gc : Gc := ⟨[], []⟩
  let (two, gc) := INTEGER gc 2
  let (three, gc) := INTEGER gc 3
  let (ints, gc) := listOfExprs gc [two, three]
  let (half, gc) := REAL gc (1 / 2 : ℚ)
  let (mixed, gc) := listOfExprs gc [two, half]
  ((ints, mixed), gc)

/-- Literal form of the C4 end-to-end heap `(c4State stdGc a b).2`, proved
equal to it in `c4State_lit`. -/
def c4Lit (a b : Int) : Gc :=
{ atoms := [some (Atom.symbol "nil"),
            some (Atom.symbol "nil"),
            some (Atom.symbol "car"),
            some (Atom.native (NativeId.carN)),
            some (Atom.symbol ">"),
            some (Atom.native (NativeId.greaterThanN)),
            some (Atom.symbol "+"),
            some (Atom.native (NativeId.plusOpN)),
            some (Atom.symbol "*"),
            some (Atom.native (NativeId.mulOpN)),
            some (Atom.symbol "list"),
            some (Atom.native (NativeId.listOpN)),
            some (Atom.symbol "t"),
            some (Atom.symbol "t"),
            some (Atom.symbol "nil"),
            some (Atom.symbol "nil"),
            some (Atom.symbol "assoc"),
            some (Atom.native (NativeId.assocOpN)),
            some (Atom.symbol "quasiquote"),
            some (Atom.native (NativeId.quasiquoteN)),
            some (Atom.symbol "set"),
            some (Atom.native (NativeId.setN)),
            some (Atom.symbol "quote"),
            some (Atom.native (NativeId.quoteN)),
            some (Atom.symbol "begin"),
            some (Atom.native (NativeId.beginN)),
            some (Atom.symbol "defun"),
            some (Atom.native (NativeId.defunN)),
            some (Atom.symbol "when"),
            some (Atom.native (NativeId.whenN)),
            some (Atom.symbol "lambda"),
            some (Atom.native (NativeId.lambdaOpN)),
            some (Atom.symbol "λ"),
            some (Atom.native (NativeId.lambdaOpN)),
            some (Atom.symbol "unquote"),
            some (Atom.native (NativeId.unquoteN)),
            some (Atom.symbol "load"),
            some (Atom.native (NativeId.loadN)),
            some (Atom.symbol "append"),
            some (Atom.native (NativeId.appendN)),
            some (Atom.symbol "equal"),
            some (Atom.native (NativeId.equalOpN)),
            some (Atom.integer a),
            some (Atom.integer b),
            some (Atom.symbol "+"),
            some (Atom.symbol "*"),
            some (Atom.symbol ">"),
            some (Atom.symbol "nil"),
            some (Atom.symbol "nil"),
            some (Atom.symbol "nil")],
  conses := [some { car := Expr.cons 40, cdr := Expr.atom 1 },
             some { car := Expr.atom 2, cdr := Expr.atom 3 },
             some { car := Expr.cons 1, cdr := Expr.atom 0 },
             some { car := Expr.atom 4, cdr := Expr.atom 5 },
             some { car := Expr.cons 3, cdr := Expr.cons 2 },
             some { car := Expr.atom 6, cdr := Expr.atom 7 },
             some { car := Expr.cons 5, cdr := Expr.cons 4 },
             some { car := Expr.atom 8, cdr := Expr.atom 9 },
             some { car := Expr.cons 7, cdr := Expr.cons 6 },
             some { car := Expr.atom 10, cdr := Expr.atom 11 },
             some { car := Expr.cons 9, cdr := Expr.cons 8 },
             some { car := Expr.atom 12, cdr := Expr.atom 13 },
             some { car := Expr.cons 11, cdr := Expr.cons 10 },
             some { car := Expr.atom 14, cdr := Expr.atom 15 },
             some { car := Expr.cons 13, cdr := Expr.cons 12 },
             some { car := Expr.atom 16, cdr := Expr.atom 17 },
             some { car := Expr.cons 15, cdr := Expr.cons 14 },
             some { car := Expr.atom 18, cdr := Expr.atom 19 },
             some { car := Expr.cons 17, cdr := Expr.cons 16 },
             some { car := Expr.atom 20, cdr := Expr.atom 21 },
             some { car := Expr.cons 19, cdr := Expr.cons 18 },
             some { car := Expr.atom 22, cdr := Expr.atom 23 },
             some { car := Expr.cons 21, cdr := Expr.cons 20 },
             some { car := Expr.atom 24, cdr := Expr.atom 25 },
             some { car := Expr.cons 23, cdr := Expr.cons 22 },
             some { car := Expr.atom 26, cdr := Expr.atom 27 },
             some { car := Expr.cons 25, cdr := Expr.cons 24 },
             some { car := Expr.atom 28, cdr := Expr.atom 29 },
             some { car := Expr.cons 27, cdr := Expr.cons 26 },
             some { car := Expr.atom 30, cdr := Expr.atom 31 },
             some { car := Expr.cons 29, cdr := Expr.cons 28 },
             some { car := Expr.atom 32, cdr := Expr.atom 33 },
             some { car := Expr.cons 31, cdr := Expr.cons 30 },
             some { car := Expr.atom 34, cdr := Expr.atom 35 },
             some { car := Expr.cons 33, cdr := Expr.cons 32 },
             some { car := Expr.atom 36, cdr := Expr.atom 37 },
             some { car := Expr.cons 35, cdr := Expr.cons 34 },
             some { car := Expr.atom 38, cdr := Expr.atom 39 },
             some { car := Expr.cons 37, cdr := Expr.cons 36 },
             some { car := Expr.atom 40, cdr := Expr.atom 41 },
             some { car := Expr.cons 39, cdr := Expr.cons 38 },
             some { car := Expr.atom 43, cdr := Expr.atom 47 },
             some { car := Expr.atom 42, cdr := Expr.cons 41 },
             some { car := Expr.atom 44, cdr := Expr.cons 42 },
             some { car := Expr.atom 43, cdr := Expr.atom 48 },
             some { car := Expr.atom 42, cdr := Expr.cons 44 },
             some { car := Expr.atom 45, cdr := Expr.cons 45 },
             some { car := Expr.atom 43, cdr := Expr.atom 49 },
             some { car := Expr.atom 42, cdr := Expr.cons 47 },
             some { car := Expr.atom 46, cdr := Expr.cons 48 }] }

/-- The post-argument-evaluation heap of the three C4 forms: each argument
list `(a b)` re-evaluates to a fresh two-cell list ending in the standard
`nil` binding's value atom, allocating exactly two cons cells. -/
def c4MidL (a b : Int) : Gc :=
  ⟨(c4Lit a b).atoms,
   (c4Lit a b).conses ++
     [some ⟨.atom 43, .atom 15⟩, some ⟨.atom 42, .cons 50⟩]⟩

/-- The second `match_list` probe of `QuasiquoteFn` (`"qe"` on the extracted
expression), starting from the heap left by the first, successful,
single-element extraction (which allocates one `nil` atom). -/
def qqProbe (gc : Gc) (x : Expr) : (EvalResult × List Expr) × Gc :=
  match_list ((gc.allocAtom (.symbol "nil")).2) "qe" x

/-- The left recursion wrapper of `QuasiquoteFn`: `CONS(CAR(expr), NIL)`. -/
def qqLeft (gc2 : Gc) (x : Expr) : Expr × Gc :=
  let (n1, gc3) := NIL gc2
  CONS gc3 (CAR gc3 x) n1

/-- The right recursion wrapper of `QuasiquoteFn`: `CONS(CDR(expr), NIL)`. -/
def qqRight (gc5 : Gc) (x : Expr) : Expr × Gc :=
  let (n2, gc6) := NIL gc5
  CONS gc6 (CDR gc6 x) n2

/-- C2 witness state: the argument list `((unquote 5))` in a small heap;
the extracted expression is `(unquote 5)` = `.cons 1`. -/
def c2WitState : Gc :=
  let gc : Gc := ⟨[], []⟩
  let (u, gc) := SYMBOL gc "unquote"
  let (five, gc) := INTEGER gc 5
  let (x, gc) := listOfExprs gc [u, five]
  let (_, gc) := listOfExprs gc [x]
  gc

/-- C1 counterexample state: the form `(unquote z)` with `z` unbound, in the
standard heap. -/
def c1CexState : Expr × Gc :=
  let gc := stdGc
  let (u, gc) := SYMBOL gc "unquote"
  let (z, gc) := SYMBOL gc "z"
  listOfExprs gc [u, z]

/-- C1 witness state: the head symbol `quote` and the raw argument list
`(z)` in the standard heap. -/
def c1WitState : (Expr × Expr) × Gc :=
  let gc := stdGc
  let (q, gc) := SYMBOL gc "quote"
  let (z, gc) := SYMBOL gc "z"
  let (args, gc) := listOfExprs gc [z]
  ((q, args), gc)

/-- The result of `QuoteFn` on the raw argument list `(z)`. -/
def c1WitOut : EvalResult × Gc :=
  (run 2 c1WitState.2 (.nativeC .quoteN stdScope c1WitState.1.2)).getD
    (⟨true, .void⟩, c1WitState.2)

/-- C3 environment-law state: the form `(begin (set a 1) (set a 2) a)` in
the standard heap. -/
def c3Law1State : Expr × Gc :=
  let gc := stdGc
  let (beginS, gc) := SYMBOL gc "begin"
  let (setS1, gc) := SYMBOL gc "set"
  let (aS1, gc) := SYMBOL gc "a"
  let (one, gc) := INTEGER gc 1
  let (f1, gc) := listOfExprs gc [setS1, aS1, one]
  let (setS2, gc) := SYMBOL gc "set"
  let (aS2, gc) := SYMBOL gc "a"
  let (two, gc) := INTEGER gc 2
  let (f2, gc) := listOfExprs gc [setS2, aS2, two]
  let (aS3, gc) := SYMBOL gc "a"
  listOfExprs gc [beginS, f1, f2, aS3]

/-- C3 closure-law state: the form
`(begin (defun g () a) (set a 3) (g))` in the standard heap. -/
def c3Law2State : Expr × Gc :=
  let gc := stdGc
  let (beginS, gc) := SYMBOL gc "begin"
  let (defunS, gc) := SYMBOL gc "defun"
  let (gS, gc) := SYMBOL gc "g"
  let (pnil, gc) := NIL gc
  let (aS1, gc) := SYMBOL gc "a"
  let (f1, gc) := listOfExprs gc [defunS, gS, pnil, aS1]
  let (setS, gc) := SYMBOL gc "set"
  let (aS2, gc) := SYMBOL gc "a"
  let (three, gc) := INTEGER gc 3
  let (f2, gc) := listOfExprs gc [setS, aS2, three]
  let (gS2, gc) := SYMBOL gc "g"
  let (f3, gc) := listOfExprs gc [gS2]
  listOfExprs gc [beginS, f1, f2, f3]

/-- C3 witness state: a two-frame-free heap whose scope `.cons 2` has the
single global frame `((a . 1))`, plus a fresh value atom `2`. -/
def c3WitState : Gc :=
  let gc : Gc := ⟨[], []⟩
  let (a, gc) := SYMBOL gc "a"
  let (one, gc) := INTEGER gc 1
  let (cell, gc) := CONS gc a one
  let (n2, gc) := NIL gc
  let (frame, gc) := CONS gc cell n2
  let (n3, gc) := NIL gc
  let (_, gc) := CONS gc frame n3
  let (_, gc) := INTEGER gc 2
  gc

/-- A reference to a registered heap object: the two tables of the model
play the role of the single `gc->exprs` registry of `gc.cpp` (an entry
holds either an atom or a cons pointer; the sort/defragment steps of
`gc_collect` only repack that registry and have no observable effect on
object identity, which the model's indices carry). -/
inductive GcRef where
  | a (i : Nat)
  | c (i : Nat)
  deriving DecidableEq, Repr

/-- The object a non-void expression refers to; `gc_traverse_expr` asserts
`root->type != EXPR_VOID`, so a void expression aborts the collector
(`none`). -/
def toRef : Expr → Option GcRef
  | .atom i => some (.a i)
  | .cons i => some (.c i)
  | .void => none

/-- The sub-expressions `gc_traverse_expr` recurses into: the car and cdr
of a cons, and the parameter list, body and captured environment of a
lambda atom; every other atom is a leaf.  A destroyed (unregistered) object
fails the collector's `gc_find_expr` assertion (`none`). -/
def exprChildren (gc : Gc) (r : GcRef) : Option (List Expr) :=
  match r with
  | .c i =>
    match gc.getCons i with
    | some cc => some [cc.car, cc.cdr]
    | none => none
  | .a i =>
    match gc.getAtom i with
    | some (.lam l) => some [l.args_list, l.body, l.envir]
    | some _ => some []
    | none => none

/-- The mark phase (`gc_traverse_expr`): depth-first traversal with a
visited set, kept as an explicit worklist so the recursion is structural in
the fuel.  `none` models an assertion failure (void expression or
unregistered object) or fuel exhaustion. -/
def gc_mark : Nat → Gc → List GcRef → List Expr → Option (List GcRef)
  | 0, _, _, _ => none
  | _ + 1, _, vis, [] => some vis
  | f + 1, gc, vis, e :: rest =>
    match toRef e with
    | none => none
    | some r =>
      if r ∈ vis then gc_mark f gc vis rest
      else
        match exprChildren gc r with
        | none => none
        | some children => gc_mark f gc (r :: vis) (children ++ rest)

/-- The sweep phase over the atom table: an unvisited slot is destroyed and
overwritten with the void tombstone. -/
def sweepAtoms (vis : List GcRef) : Nat → List (Option Atom) →
    List (Option Atom)
  | _, [] => []
  | i, a :: rest => (if GcRef.a i ∈ vis then a else none) ::
      sweepAtoms vis (i + 1) rest

/-- The sweep phase over the cons table. -/
def sweepConses (vis : List GcRef) : Nat → List (Option Cons) →
    List (Option Cons)
  | _, [] => []
  | i, c :: rest => (if GcRef.c i ∈ vis then c else none) ::
      sweepConses vis (i + 1) rest

/-- `gc_collect` of `gc.cpp`: clear the visited marks, mark everything
reachable from `root`, then destroy every unvisited slot.  The fuel bounds
the traversal generously (each object is expanded at most once, pushing at
most three children). -/
def gc_collect (gc : Gc) (root : Expr) : Option Gc :=
  match gc_mark (4 * (gc.atoms.length + gc.conses.length) + 8) gc []
      [root] with
  | none => none
  | some vis => some ⟨sweepAtoms vis 0 gc.atoms, sweepConses vis 0 gc.conses⟩

/-- Reachability from a root object, following exactly the edges
`gc_traverse_expr` follows. -/
inductive Reach (gc : Gc) (r0 : GcRef) : GcRef → Prop where
  | base : Reach gc r0 r0
  | step : ∀ {r r' : GcRef} {ch : List Expr} {e : Expr}, Reach gc r0 r →
      exprChildren gc r = some ch → e ∈ ch → toRef e = some r' →
      Reach gc r0 r'

/-- C6 witness state: the scope `((a . 1))` (spine cell `.cons 2`), plus a
garbage integer atom `99` and a garbage cons cell unreachable from the
scope. -/
def c6State : Gc :=
  let gc : Gc := ⟨[], []⟩
  let (a, gc) := SYMBOL gc "a"
  let (one, gc) := INTEGER gc 1
  let (cell, gc) := CONS gc a one
  let (n2, gc) := NIL gc
  let (frame, gc) := CONS gc cell n2
  let (n3, gc) := NIL gc
  let (_, gc) := CONS gc frame n3
  let (junk, gc) := INTEGER gc 99
  let (_, gc) := CONS gc junk junk
  gc

/-- The C6 witness heap after collection rooted at the scope. -/
def c6Collected : Gc := (gc_collect c6State (.cons 2)).getD ⟨[], []⟩

/-! ### The tokenizer, parser and printer (`tokenizer.cpp`, `parser.cpp`,
`expr.cpp`).  Positions in the input are modelled as suffixes of the
character list; two suffixes of the same input are equal exactly when the
C pointers are. -/

/-- C `isspace` (default locale). -/
def c_isspace (c : Char) : Bool :=
  c == ' ' || c == Char.ofNat 9 || c == Char.ofNat 10 ||
  c == Char.ofNat 11 || c == Char.ofNat 12 || c == Char.ofNat 13

/-- `forbidden_symbol_chars` of `tokenizer.cpp`. -/
def forbidden_symbol_chars : List Char :=
  ['(', ')', Char.ofNat 34, Char.ofNat 39, ';', Char.ofNat 96, ',']

/-- `is_symbol_char` of `tokenizer.cpp`. -/
def is_symbol_char (x : Char) : Bool :=
  !(forbidden_symbol_chars.contains x || c_isspace x)

/-- `skip_whitespace` of `tokenizer.cpp` (also the leading-whitespace skip
of `strtol`/`strtof`). -/
def skip_whitespace : List Char → List Char
  | [] => []
  | c :: rest => if c_isspace c then skip_whitespace rest else c :: rest

/-- `next_quote` of `tokenizer.cpp`. -/
def next_quote : List Char → List Char
  | [] => []
  | c :: rest => if c == Char.ofNat 34 then c :: rest else next_quote rest

/-- `skip_until_newline` of `tokenizer.cpp`. -/
def skip_until_newline : List Char → List Char
  | [] => []
  | c :: rest => if c == Char.ofNat 10 then c :: rest
      else skip_until_newline rest

/-- `next_non_symbol` of `tokenizer.cpp`. -/
def next_non_symbol : List Char → List Char
  | [] => []
  | c :: rest => if is_symbol_char c then next_non_symbol rest else c :: rest

/-- A token: begin and end positions (suffixes of the input). -/
structure Token where
  tbegin : List Char
  tend : List Char
  deriving DecidableEq, Repr

/-- The comment-skipping loop of `next_token`; the fuel (an upper bound on
the input length) covers every execution, since each iteration strictly
shortens the suffix. -/
def skip_comments : Nat → List Char → List Char
  | 0, s => s
  | f + 1, s =>
    match s with
    | c :: rest =>
      if c == ';' then
        skip_comments f (skip_whitespace (skip_until_newline rest))
      else s
    | [] => s

/-- `next_token` of `tokenizer.cpp`. -/
def next_token (str : List Char) : Token :=
  let s0 := skip_whitespace str
  match s0 with
  | [] => ⟨[], []⟩
  | _ :: _ =>
    let s := skip_comments (s0.length + 1) s0
    match s with
    | [] => ⟨[], []⟩
    | c :: rest =>
      if c == '(' || c == ')' || c == '.' || c == Char.ofNat 39 ||
          c == Char.ofNat 96 || c == ',' then ⟨c :: rest, rest⟩
      else if c == Char.ofNat 34 then
        ⟨c :: rest, match next_quote rest with
          | [] => []
          | _ :: r2 => r2⟩
      else ⟨c :: rest, next_non_symbol rest⟩

/-- `ParseResult` of `parser.hpp`: error flag, parsed expression, error
message, and the end position (for a failure, the position the C code
stores). -/
structure ParseRes where
  is_error : Bool
  expr : Expr
  message : String
  rest : List Char
  deriving DecidableEq, Repr

def parse_success (e : Expr) (rest : List Char) : ParseRes :=
  ⟨false, e, "", rest⟩

def parse_failure (msg : String) (pos : List Char) : ParseRes :=
  ⟨true, .void, msg, pos⟩

/-- The scanning loop of `parse_string` of `parser.cpp`: walks the whole
input from the character after the opening quote (ignoring the token end),
processing the escapes `\n \r \t \\ \"`. -/
def parse_string_loop (gc : Gc) (startPos : List Char) :
    Bool → String → List Char → ParseRes × Gc
  | _, _, [] => (parse_failure "Unclosed string" startPos, gc)
  | true, acc, c :: rest =>
    if c == 'n' then parse_string_loop gc startPos false (acc.push '\n') rest
    else if c == 'r' then
      parse_string_loop gc startPos false (acc.push '\r') rest
    else if c == 't' then
      parse_string_loop gc startPos false (acc.push '\t') rest
    else if c == '\\' then
      parse_string_loop gc startPos false (acc.push '\\') rest
    else if c == Char.ofNat 34 then
      parse_string_loop gc startPos false (acc.push (Char.ofNat 34)) rest
    else (parse_failure "Invalid escaped character" (c :: rest), gc)
  | false, acc, c :: rest =>
    if c == '\\' then parse_string_loop gc startPos true acc rest
    else if c == Char.ofNat 34 then
      let (e, gc1) := STRING gc acc
      (parse_success e rest, gc1)
    else parse_string_loop gc startPos false (acc.push c) rest

/-- `parse_string` of `parser.cpp`. -/
def parse_string (gc : Gc) (tok : Token) : ParseRes × Gc :=
  match tok.tbegin with
  | c :: rest =>
    if c == Char.ofNat 34 then
      parse_string_loop gc tok.tbegin false "" rest
    else (parse_failure "Expected \"" tok.tbegin, gc)
  | [] => (parse_failure "Expected \"" tok.tbegin, gc)

/-- The digit scan of `strtol`/`strtof`. -/
def take_digits : List Char → List Char × List Char
  | [] => ([], [])
  | c :: rest =>
    if c.isDigit then
      let (ds, r) := take_digits rest
      (c :: ds, r)
    else ([], c :: rest)

def digits_val (ds : List Char) : Int :=
  ds.foldl (fun a c => a * 10 + ((c.toNat : Int) - 48)) 0

/-- `strtol(_, _, 10)`: skip leading whitespace, optional sign, digits;
returns the value and the end pointer (the original string when no digits
were consumed).  Overflow of the C `long` is undefined behaviour, so the
defined executions are those of unbounded `Int`. -/
def strtol10 (s : List Char) : Int × List Char :=
  let s1 := skip_whitespace s
  match s1 with
  | '-' :: rest =>
    match take_digits rest with
    | ([], _) => (0, s)
    | (ds, r) => (-(digits_val ds), r)
  | '+' :: rest =>
    match take_digits rest with
    | ([], _) => (0, s)
    | (ds, r) => (digits_val ds, r)
  | _ =>
    match take_digits s1 with
    | ([], _) => (0, s)
    | (ds, r) => (digits_val ds, r)

/-- `parse_integer` of `parser.cpp`. -/
def parse_integer (gc : Gc) (tok : Token) : ParseRes × Gc :=
  let (x, endp) := strtol10 tok.tbegin
  if tok.tbegin == endp || tok.tend != endp then
    (parse_failure "Expected integer" tok.tbegin, gc)
  else
    let (e, gc1) := INTEGER gc x
    (parse_success e tok.tend, gc1)

/-- `strtof`, modelled over `ℚ` on the plain decimal forms
`[±]digits[.digits]` (the model ignores binary-float rounding and the
exponent/hex/inf forms; the claims only use it at the kind level). -/
def strtof_model (s : List Char) : ℚ × List Char :=
  let s1 := skip_whitespace s
  let (neg, s2) :=
    match s1 with
    | '-' :: rest => (true, rest)
    | '+' :: rest => (false, rest)
    | _ => (false, s1)
  match take_digits s2 with
  | ([], _) =>
    match s2 with
    | '.' :: rest3 =>
      match take_digits rest3 with
      | ([], _) => (0, s)
      | (fs, r) =>
        let v : ℚ := (digits_val fs : ℚ) / ((10 : ℚ) ^ fs.length)
        (if neg then -v else v, r)
    | _ => (0, s)
  | (ds, r1) =>
    match r1 with
    | '.' :: rest3 =>
      match take_digits rest3 with
      | ([], _) => (if neg then -(digits_val ds : ℚ) else (digits_val ds : ℚ),
          rest3)
      | (fs, r) =>
        let v : ℚ := (digits_val ds : ℚ) +
          (digits_val fs : ℚ) / ((10 : ℚ) ^ fs.length)
        (if neg then -v else v, r)
    | _ => (if neg then -(digits_val ds : ℚ) else (digits_val ds : ℚ), r1)

/-- `parse_real` of `parser.cpp`. -/
def parse_real (gc : Gc) (tok : Token) : ParseRes × Gc :=
  let (x, endp) := strtof_model tok.tbegin
  if tok.tbegin == endp || tok.tend != endp then
    (parse_failure "Expected real" tok.tbegin, gc)
  else
    let (e, gc1) := REAL gc x
    (parse_success e tok.tend, gc1)

/-- The text of a token (`[begin, end)`). -/
def token_text (tok : Token) : String :=
  String.mk (tok.tbegin.take (tok.tbegin.length - tok.tend.length))

/-- `parse_symbol` of `parser.cpp`. -/
def parse_symbol (gc : Gc) (tok : Token) : ParseRes × Gc :=
  match tok.tbegin with
  | [] => (parse_failure "EOF" tok.tbegin, gc)
  | _ :: _ =>
    let (e, gc1) := SYMBOL gc (token_text tok)
    (parse_success e tok.tend, gc1)

/-- `parse_list_end` of `parser.cpp` (allocates the terminating `nil`). -/
def parse_list_end (gc : Gc) (tok : Token) : ParseRes × Gc :=
  match tok.tbegin with
  | ')' :: _ =>
    let (n, gc1) := NIL gc
    (parse_success n tok.tend, gc1)
  | _ => (parse_failure "Expected )" tok.tbegin, gc)

/-- The pending-call alphabet of the recursive-descent parser
(`parse_expr`, `parse_list` with its cell-splicing loop, and
`parse_cdr`). -/
inductive PCall where
  | pExpr (tok : Token)
  | pList (tok : Token)
  | pListLoop (head cur : Nat) (tok : Token)
  | pCdr (tok : Token)
  deriving DecidableEq, Repr

/-- One step of the parser; `recur` performs the mutually recursive calls
(cf. `step` for the evaluator).  The quote/quasiquote/unquote readers wrap
the result via `list(gc, "qe", …)`. -/
def pstep (recur : Gc → PCall → Option (ParseRes × Gc)) (gc : Gc)
    (c : PCall) : Option (ParseRes × Gc) :=
  match c with
  | .pExpr tok =>
    match tok.tbegin with
    | [] => some (parse_failure "EOF" tok.tbegin, gc)
    | c0 :: _ =>
      if c0 == '(' then recur gc (.pList tok)
      else if c0 == Char.ofNat 34 then some (parse_string gc tok)
      else if c0 == Char.ofNat 39 || c0 == Char.ofNat 96 || c0 == ',' then
        match recur gc (.pExpr (next_token tok.tend)) with
        | none => none
        | some (r, gc1) =>
          if r.is_error then some (r, gc1)
          else
            let name := if c0 == Char.ofNat 39 then "quote"
              else if c0 == Char.ofNat 96 then "quasiquote" else "unquote"
            let (q, gc2) := SYMBOL gc1 name
            let (l, gc3) := listOfExprs gc2 [q, r.expr]
            some ({ r with expr := l }, gc3)
      else if c0 == '-' || c0.isDigit then
        match parse_integer gc tok with
        | (ri, gci) =>
          if !ri.is_error then some (ri, gci)
          else
            match parse_real gci tok with
            | (rr, gcr) =>
              if !rr.is_error then some (rr, gcr)
              else some (parse_symbol gcr tok)
      else some (parse_symbol gc tok)
  | .pList tok =>
    match tok.tbegin with
    | '(' :: _ =>
      let tok1 := next_token tok.tend
      match tok1.tbegin with
      | ')' :: _ => some (parse_list_end gc tok1)
      | _ =>
        match recur gc (.pExpr tok1) with
        | none => none
        | some (car, gc1) =>
          if car.is_error then some (car, gc1)
          else
            let (listE, gc2) := CONS gc1 car.expr .void
            match listE with
            | .cons li => recur gc2 (.pListLoop li li (next_token car.rest))
            | _ => none
    | _ => some (parse_failure "Expected (" tok.tbegin, gc)
  | .pListLoop head cur tok =>
    match tok.tbegin with
    | c0 :: _ =>
      if c0 != '.' && c0 != ')' then
        match recur gc (.pExpr tok) with
        | none => none
        | some (car, gc1) =>
          if car.is_error then some (car, gc1)
          else
            let (cellE, gc2) := CONS gc1 car.expr .void
            match cellE with
            | .cons ci =>
              recur (gc2.setCdr cur cellE)
                (.pListLoop head ci (next_token car.rest))
            | _ => none
      else
        match (if c0 == '.' then recur gc (.pCdr tok)
            else some (parse_list_end gc tok)) with
        | none => none
        | some (cdr, gc1) =>
          if cdr.is_error then some (cdr, gc1)
          else
            some (parse_success (.cons head) cdr.rest, gc1.setCdr cur cdr.expr)
    | [] =>
      match parse_list_end gc tok with
      | (cdr, gc1) =>
        if cdr.is_error then some (cdr, gc1)
        else
          some (parse_success (.cons head) cdr.rest, gc1.setCdr cur cdr.expr)
  | .pCdr tok =>
    match tok.tbegin with
    | '.' :: _ =>
      match recur gc (.pExpr (next_token tok.tend)) with
      | none => none
      | some (cdr, gc1) =>
        if cdr.is_error then some (cdr, gc1)
        else
          let tok2 := next_token cdr.rest
          match tok2.tbegin with
          | ')' :: _ => some (parse_success cdr.expr tok2.tend, gc1)
          | _ => some (parse_failure "Expected )" tok2.tbegin, gc1)
    | _ => some (parse_failure "Expected ." tok.tbegin, gc)

/-- The parser: the fuelled fixed point of `pstep`. -/
def prun : Nat → Gc → PCall → Option (ParseRes × Gc)
  | 0, _, _ => none
  | f + 1, gc, c => pstep (prun f) gc c

/-- `read_expr_from_string` of `parser.cpp`, at a given fuel. -/
def read_expr_from_string (fuel : Nat) (gc : Gc) (s : String) :
    Option (ParseRes × Gc) :=
  prun fuel gc (.pExpr (next_token s.toList))

/-- The `%f` rendering of a real atom: fixed six fractional digits. -/
def print_real (x : ℚ) : String :=
  let neg := x < 0
  let y := if neg then -x else x
  let ip : Int := y.floor
  let fr : Int := ((y - (ip : ℚ)) * 1000000).floor
  let fs := toString fr
  (if neg then "-" else "") ++ toString ip ++ "." ++
    String.mk (List.replicate (6 - fs.length) '0') ++ fs

/-- `print_expr_as_sexpr`/`print_atom_as_sexpr`/`print_cons_as_sexpr` of
`expr.cpp` as one fuelled function; the `Bool` selects between printing an
expression and printing the tail of a cons chain (the loop plus the
terminal test of `print_cons_as_sexpr`).  Note the string case: the
payload is printed verbatim between quotes, *without* re-escaping.  `none`
models the undefined behaviour of the C printer (dangling object, or
reading `cdr.atom` of a non-atom terminal, or `args_list.atom->sym` of a
lambda whose parameter list is not a symbol atom). -/
def print_loop (gc : Gc) : Nat → Bool → Expr → Option String
  | _, false, .atom i =>
    match gc.getAtom i with
    | some (.symbol s) => some s
    | some (.integer n) => some (toString n)
    | some (.real x) => some (print_real x)
    | some (.string s) =>
      some (String.mk [Char.ofNat 34] ++ s ++ String.mk [Char.ofNat 34])
    | some (.lam l) =>
      match l.args_list with
      | .atom j =>
        match gc.getAtom j with
        | some (.symbol s) => some ("<lambda " ++ s ++ ">")
        | _ => none
      | _ => none
    | some (.native _) => some "<native>"
    | none => none
  | _, false, .void => none
  | 0, _, _ => none
  | f + 1, false, .cons i =>
    match gc.getCons i with
    | some cc =>
      match print_loop gc f false cc.car with
      | some s1 =>
        match print_loop gc f true cc.cdr with
        | some s2 => some ("(" ++ s1 ++ s2)
        | none => none
      | none => none
    | none => none
  | f + 1, true, e =>
    match e with
    | .cons j =>
      match gc.getCons j with
      | some cc =>
        match print_loop gc f false cc.car with
        | some s1 =>
          match print_loop gc f true cc.cdr with
          | some s2 => some (" " ++ s1 ++ s2)
          | none => none
        | none => none
      | none => none
    | .atom j =>
      match gc.getAtom j with
      | some (.symbol s) =>
        if s == "nil" then some ")"
        else
          match print_loop gc f false (.atom j) with
          | some s1 => some (" . " ++ s1 ++ ")")
          | none => none
      | some _ =>
        match print_loop gc f false (.atom j) with
        | some s1 => some (" . " ++ s1 ++ ")")
        | none => none
      | none => none
    | .void => none

/-- `print_expr_as_sexpr` of `expr.cpp`, at the standard fuel. -/
def print_expr_as_sexpr (gc : Gc) (e : Expr) : Option String :=
  print_loop gc (2 * gc.conses.length + 2) false e

/-- C8 failing input: the source text `"a\"b"` (six characters, with an
escaped inner quote). -/
def c8Input : String := "\"a\\\"b\""

/-- The heap after parsing the failing input into the empty heap. -/
def c8Gc1 : Gc := ⟨[some (.string "a\"b")], []⟩

/-- What the printer emits for the parsed value: the inner quote is *not*
re-escaped. -/
def c8Printed : String := "\"a\"b\""

/-- The heap after re-parsing the printed text. -/
def c8Gc2 : Gc := ⟨[some (.string "a\"b"), some (.string "a")], []⟩

/-! ### End of definitions; theorems follow. -/

set_option maxHeartbeats 1000000

/-! ## Fuel monotonicity

A successful evaluation stays successful (with the same result) at any larger
fuel; this is what lets big-step facts compose. -/

@[simp] theorem eval_success_is_error (e : Expr) : (eval_success e).is_error = false := rfl

@[simp] theorem eval_failure_is_error (e : Expr) : (eval_failure e).is_error = true := rfl

@[simp] theorem eval_success_expr (e : Expr) : (eval_success e).expr = e := rfl

@[simp] theorem eval_failure_expr (e : Expr) : (eval_failure e).expr = e := rfl

theorem step_mono {g1 g2 : Gc → Call → Option (EvalResult × Gc)}
    (hmono : ∀ gc c r, g1 gc c = some r → g2 gc c = some r) :
    ∀ gc c r, step g1 gc c = some r → step g2 gc c = some r := by
  intro gc c r h
  cases c with
  | evalC scope e =>
    dsimp only [step] at h ⊢
    cases e with
    | atom i => exact h
    | void => exact h
    | cons i =>
      cases hcc : gc.getCons i with
      | none => simp [hcc] at h
      | some cc =>
        simp only [hcc] at h ⊢
        exact hmono _ _ _ h
  | evalAllArgsC scope args =>
    dsimp only [step] at h ⊢
    cases args with
    | atom i => exact h
    | void => exact h
    | cons i =>
      cases hcc : gc.getCons i with
      | none => simp [hcc] at h
      | some cc =>
        simp only [hcc] at h ⊢
        cases h1 : g1 gc (.evalC scope cc.car) with
        | none => simp [h1] at h
        | some p =>
          obtain ⟨carR, gc1⟩ := p
          simp only [h1] at h
          simp only [hmono _ _ _ h1]
          cases hie : carR.is_error with
          | true => simp only [hie] at h ⊢; exact h
          | false =>
            simp only [hie] at h ⊢
            cases h2 : g1 gc1 (.evalAllArgsC scope cc.cdr) with
            | none => simp [h2] at h
            | some q =>
              obtain ⟨cdrR, gc2⟩ := q
              simp only [h2] at h
              simp only [hmono _ _ _ h2]
              cases hie2 : cdrR.is_error <;> simp only [hie2] at h ⊢ <;> exact h
  | evalFuncallC scope callable args =>
    dsimp only [step] at h ⊢
    cases h1 : g1 gc (.evalC scope callable) with
    | none => simp [h1] at h
    | some p =>
      obtain ⟨callableR, gc1⟩ := p
      simp only [h1] at h
      simp only [hmono _ _ _ h1]
      cases hie : callableR.is_error with
      | true => simp only [hie] at h ⊢; exact h
      | false =>
        simp only [hie] at h ⊢
        cases hsp : symbol_p gc1 callable && is_special ((symPayload gc1 callable).getD "") with
        | true =>
          simp [hsp] at h ⊢
          cases ce : callableR.expr with
          | atom j =>
            simp only [ce] at h ⊢
            cases hga : gc1.getAtom j with
            | none => simp [hga] at h
            | some a =>
              simp only [hga] at h ⊢
              cases a <;> exact hmono _ _ _ h
          | cons j => simp only [ce] at h ⊢; exact hmono _ _ _ h
          | void => simp only [ce] at h ⊢; exact hmono _ _ _ h
        | false =>
          simp [hsp] at h ⊢
          cases h2 : g1 gc1 (.evalAllArgsC scope args) with
          | none => simp [h2] at h
          | some q =>
            obtain ⟨argsR, gc2⟩ := q
            simp only [h2] at h
            simp only [hmono _ _ _ h2]
            cases hie2 : argsR.is_error with
            | true => simp only [hie2] at h ⊢; exact h
            | false =>
              simp only [hie2] at h ⊢
              cases ce : callableR.expr with
              | atom j =>
                simp only [ce] at h ⊢
                cases hga : gc2.getAtom j with
                | none => simp [hga] at h
                | some a =>
                  simp only [hga] at h ⊢
                  cases a <;> exact hmono _ _ _ h
              | cons j => simp only [ce] at h ⊢; exact hmono _ _ _ h
              | void => simp only [ce] at h ⊢; exact hmono _ _ _ h
  | callLambdaC lam args =>
    dsimp only [step] at h ⊢
    cases hl : (!lambda_p gc lam) with
    | true => simp only [hl] at h ⊢; exact h
    | false =>
      simp only [hl] at h ⊢
      cases hlp : (!list_p gc args) with
      | true => simp only [hlp] at h ⊢; exact h
      | false =>
        simp only [hlp] at h ⊢
        cases hlen : (length_of_list gc args != length_of_list gc
            ((lambdaPayload gc lam).getD ⟨.void, .void, .void⟩).args_list) with
        | true => simp only [hlen] at h ⊢; exact h
        | false =>
          simp only [hlen] at h ⊢
          rcases hps : push_scope_frame gc
              ((lambdaPayload gc lam).getD ⟨.void, .void, .void⟩).envir
              ((lambdaPayload gc lam).getD ⟨.void, .void, .void⟩).args_list args with
            ⟨scope', gc1⟩
          simp only [hps] at h ⊢
          rcases hn : NIL gc1 with ⟨n, gc2⟩
          simp only [hn] at h ⊢
          exact hmono _ _ _ h
  | lambdaBodyC scope body prev =>
    dsimp only [step] at h ⊢
    cases hn : nil_p gc body with
    | true => simp only [hn] at h ⊢; exact h
    | false =>
      simp only [hn] at h ⊢
      cases body with
      | atom i => simp at h
      | void => simp at h
      | cons i =>
        cases hcc : gc.getCons i with
        | none => simp [hcc] at h
        | some cc =>
          simp only [hcc] at h ⊢
          cases h1 : g1 gc (.evalC scope cc.car) with
          | none => simp [h1] at h
          | some p =>
            obtain ⟨r1, gc1⟩ := p
            simp only [h1] at h
            simp only [hmono _ _ _ h1]
            cases hie : r1.is_error with
            | true => simp only [hie] at h ⊢; exact h
            | false => simp only [hie] at h ⊢; exact hmono _ _ _ h
  | evalBlockC scope block =>
    dsimp only [step] at h ⊢
    cases hbp : (!list_p gc block) with
    | true => simp only [hbp] at h ⊢; exact h
    | false =>
      simp only [hbp] at h ⊢
      rcases hn : NIL gc with ⟨n, gc1⟩
      simp only [hn] at h ⊢
      exact hmono _ _ _ h
  | blockLoopC scope head prev =>
    dsimp only [step] at h ⊢
    cases head with
    | atom i => exact h
    | void => exact h
    | cons i =>
      cases hcc : gc.getCons i with
      | none => simp [hcc] at h
      | some cc =>
        simp only [hcc] at h ⊢
        cases h1 : g1 gc (.evalC scope cc.car) with
        | none => simp [h1] at h
        | some p =>
          obtain ⟨r1, gc1⟩ := p
          simp only [h1] at h
          simp only [hmono _ _ _ h1]
          cases hie : r1.is_error with
          | true => simp only [hie] at h ⊢; exact h
          | false => simp only [hie] at h ⊢; exact hmono _ _ _ h
  | nativeC fn scope args =>
    dsimp only [step] at h ⊢
    cases fn with
    | carN => exact h
    | greaterThanN => exact h
    | plusOpN => exact h
    | mulOpN => exact h
    | listOpN => exact h
    | assocOpN => exact h
    | quoteN => exact h
    | lambdaOpN => exact h
    | unquoteN => exact h
    | equalOpN => exact h
    | appendN => exact h
    | loadN => exact h
    | quasiquoteN => exact hmono _ _ _ h
    | setN =>
      rcases hml : match_list gc "qe" args with ⟨⟨r1, m⟩, gc1⟩
      simp only [hml] at h ⊢
      cases hie : r1.is_error with
      | true => simp only [hie] at h ⊢; exact h
      | false =>
        simp only [hie] at h ⊢
        match m with
        | [] => exact h
        | [_] => exact h
        | _ :: _ :: _ :: _ => exact h
        | [nameE, valueE] =>
          cases h1 : g1 gc1 (.evalC scope valueE) with
          | none => simp [h1] at h
          | some p =>
            obtain ⟨vr, gc2⟩ := p
            simp only [h1] at h
            simp only [hmono _ _ _ h1]
            cases hie2 : vr.is_error <;> simp only [hie2] at h ⊢ <;> exact h
    | beginN =>
      rcases hml : match_list gc "*" args with ⟨⟨r1, m⟩, gc1⟩
      simp only [hml] at h ⊢
      cases hie : r1.is_error with
      | true => simp only [hie] at h ⊢; exact h
      | false =>
        simp only [hie] at h ⊢
        exact hmono _ _ _ h
    | defunN =>
      rcases hml : match_list gc "ee*" args with ⟨⟨r1, m⟩, gc1⟩
      simp only [hml] at h ⊢
      cases hie : r1.is_error with
      | true => simp only [hie] at h ⊢; exact h
      | false =>
        simp only [hie] at h ⊢
        match m with
        | [] => exact h
        | [_] => exact h
        | [_, _] => exact h
        | _ :: _ :: _ :: _ :: _ => exact h
        | [nameE, args_list, body] =>
          cases hls : (!list_of_symbols_p gc1 args_list) with
          | true => simp only [hls] at h ⊢; exact h
          | false =>
            simp only [hls] at h ⊢
            rcases hs : SYMBOL gc1 "set" with ⟨setSym, gc2⟩
            simp only [hs] at h ⊢
            rcases hlam : lambda_helper gc2 args_list body scope with ⟨lamE, gc3⟩
            simp only [hlam] at h ⊢
            rcases hform : listOfExprs gc3 [setSym, nameE, lamE] with ⟨form, gc4⟩
            simp only [hform] at h ⊢
            exact hmono _ _ _ h
    | whenN =>
      rcases hml : match_list gc "e*" args with ⟨⟨r1, m⟩, gc1⟩
      simp only [hml] at h ⊢
      cases hie : r1.is_error with
      | true => simp only [hie] at h ⊢; exact h
      | false =>
        simp only [hie] at h ⊢
        match m with
        | [] => exact h
        | [_] => exact h
        | _ :: _ :: _ :: _ => exact h
        | [condE, body] =>
          cases h1 : g1 gc1 (.evalC scope condE) with
          | none => simp [h1] at h
          | some p =>
            obtain ⟨cr, gc2⟩ := p
            simp only [h1] at h
            simp only [hmono _ _ _ h1]
            cases hie2 : cr.is_error with
            | true => simp only [hie2] at h ⊢; exact h
            | false =>
              simp only [hie2] at h ⊢
              cases hn : (!nil_p gc2 cr.expr) with
              | true => simp only [hn] at h ⊢; exact hmono _ _ _ h
              | false => simp only [hn] at h ⊢; exact h
  | quasiquoteC scope args =>
    dsimp only [step] at h ⊢
    rcases hml : match_list gc "e" args with ⟨⟨r1, m⟩, gc1⟩
    simp only [hml] at h ⊢
    cases hie : r1.is_error with
    | true => simp only [hie] at h ⊢; exact h
    | false =>
      simp only [hie] at h ⊢
      rcases hml2 : match_list gc1 "qe" (m.headD .void) with ⟨⟨r2, m2⟩, gc2⟩
      simp only [hml2] at h ⊢
      cases huq : (!r2.is_error && (symPayload gc2 (m2.headD .void) == some "unquote")) with
      | true => simp only [huq] at h ⊢; exact hmono _ _ _ h
      | false =>
        simp only [huq] at h ⊢
        cases hcp : cons_p (m.headD .void) with
        | false => simp only [hcp] at h ⊢; exact h
        | true =>
          simp only [hcp] at h ⊢
          rcases hn1 : NIL gc2 with ⟨n1, gc3⟩
          simp only [hn1] at h ⊢
          rcases hw1 : CONS gc3 (CAR gc3 (m.headD .void)) n1 with ⟨w1, gc4⟩
          simp only [hw1] at h ⊢
          cases h1 : g1 gc4 (.quasiquoteC scope w1) with
          | none => simp [h1] at h
          | some p =>
            obtain ⟨leftR, gc5⟩ := p
            simp only [h1] at h
            simp only [hmono _ _ _ h1]
            cases hie2 : leftR.is_error with
            | true => simp only [hie2] at h ⊢; exact h
            | false =>
              simp only [hie2] at h ⊢
              rcases hn2 : NIL gc5 with ⟨n2, gc6⟩
              simp only [hn2] at h ⊢
              rcases hw2 : CONS gc6 (CDR gc6 (m.headD .void)) n2 with ⟨w2, gc7⟩
              simp only [hw2] at h ⊢
              cases h2 : g1 gc7 (.quasiquoteC scope w2) with
              | none => simp [h2] at h
              | some q =>
                obtain ⟨rightR, gc8⟩ := q
                simp only [h2] at h
                simp only [hmono _ _ _ h2]
                cases hie3 : rightR.is_error <;> simp only [hie3] at h ⊢ <;> exact h

theorem run_mono_succ (f : Nat) : ∀ gc c r, run f gc c = some r → run (f + 1) gc c = some r := by
  induction f with
  | zero => intro gc c r h; simp [run] at h
  | succ f ih =>
    intro gc c r h
    rw [run] at h ⊢
    exact step_mono ih gc c r h


/-- Fuel monotonicity of the evaluator. -/
theorem run_mono {f f' : Nat} (hf : f ≤ f') :
    ∀ gc c r, run f gc c = some r → run f' gc c = some r := by
  induction hf with
  | refl => intro gc c r h; exact h
  | step _ ih => intro gc c r h; exact run_mono_succ _ gc c r (ih gc c r h)

theorem Runs.determ {gc c r1 r2} (h1 : Runs gc c r1) (h2 : Runs gc c r2) :
    r1 = r2 := by
  obtain ⟨f1, h1⟩ := h1
  obtain ⟨f2, h2⟩ := h2
  rcases Nat.le_total f1 f2 with hle | hle
  · rw [run_mono hle _ _ _ h1] at h2; exact Option.some.inj h2
  · rw [run_mono hle _ _ _ h2] at h1; exact (Option.some.inj h1).symm

/-! ## Heap lemmas -/

theorem Gc.getAtom_lt_of_some {gc : Gc} {i : Nat} {a : Atom}
    (h : gc.getAtom i = some a) : i < gc.atoms.length := by
  by_contra hlt
  rw [Gc.getAtom, List.getD_eq_default _ _ (Nat.le_of_not_lt hlt)] at h
  cases h

theorem Gc.getCons_lt_of_some {gc : Gc} {i : Nat} {c : Cons}
    (h : gc.getCons i = some c) : i < gc.conses.length := by
  by_contra hlt
  rw [Gc.getCons, List.getD_eq_default _ _ (Nat.le_of_not_lt hlt)] at h
  cases h

theorem Gc.allocAtom_getAtom_self (gc : Gc) (a : Atom) :
    (gc.allocAtom a).2.getAtom gc.atoms.length = some a := by
  simp [Gc.allocAtom, Gc.getAtom, List.getD_append_right]

theorem Gc.allocCons_getCons_self (gc : Gc) (c : Cons) :
    (gc.allocCons c).2.getCons gc.conses.length = some c := by
  simp [Gc.allocCons, Gc.getCons, List.getD_append_right]

theorem Gc.Preserves.refl (gc : Gc) : Gc.Preserves gc gc :=
  ⟨fun h => h, fun h => h⟩

theorem Gc.Preserves.trans {g1 g2 g3 : Gc} (h12 : Gc.Preserves g1 g2)
    (h23 : Gc.Preserves g2 g3) : Gc.Preserves g1 g3 :=
  ⟨fun h => h23.atom (h12.atom h), fun h => h23.cons (h12.cons h)⟩

theorem Gc.Preserves.allocAtom (gc : Gc) (a : Atom) :
    Gc.Preserves gc (gc.allocAtom a).2 := by
  constructor
  · intro i x h
    rw [Gc.allocAtom, Gc.getAtom]
    dsimp only
    rw [List.getD_append _ _ _ _ (Gc.getAtom_lt_of_some h)]
    exact h
  · intro i c h
    exact h

theorem Gc.Preserves.allocCons (gc : Gc) (c : Cons) :
    Gc.Preserves gc (gc.allocCons c).2 := by
  constructor
  · intro i x h
    exact h
  · intro i x h
    rw [Gc.allocCons, Gc.getCons]
    dsimp only
    rw [List.getD_append _ _ _ _ (Gc.getCons_lt_of_some h)]
    exact h

theorem symPayload_mono {g g' : Gc} {e : Expr} {s : String}
    (hp : Gc.Preserves g g') (h : symPayload g e = some s) :
    symPayload g' e = some s := by
  cases e with
  | atom i =>
    simp only [symPayload] at h ⊢
    cases ha : g.getAtom i with
    | none => rw [ha] at h; cases h
    | some a => rw [ha] at h; rw [hp.atom ha]; exact h
  | cons i => cases h
  | void => cases h

theorem intPayload_mono {g g' : Gc} {e : Expr} {n : Int}
    (hp : Gc.Preserves g g') (h : intPayload g e = some n) :
    intPayload g' e = some n := by
  cases e with
  | atom i =>
    simp only [intPayload] at h ⊢
    cases ha : g.getAtom i with
    | none => rw [ha] at h; cases h
    | some a => rw [ha] at h; rw [hp.atom ha]; exact h
  | cons i => cases h
  | void => cases h

theorem nil_p_mono {g g' : Gc} {e : Expr} (hp : Gc.Preserves g g')
    (h : nil_p g e = true) : nil_p g' e = true := by
  simp only [nil_p, beq_iff_eq] at h ⊢
  exact symPayload_mono hp h

/-! ## C9: identity elements of the variadic arithmetic built-ins -/

/-- C9: the variadic arithmetic built-ins return their identity element on
the empty argument list: `PlusOpFn` and `MulOpFn` fold `plus2`/`mul2` from
the freshly allocated accumulators `0` and `1`, so on a `nil` argument list
they return those accumulators unchanged; end-to-end, evaluating `(+)` in
the standard scope yields the integer `0` and `(*)` yields `1`. -/
theorem claim_C9 :
    (∀ (gc : Gc) (args : Expr), nil_p gc args = true →
      ∃ e gc', plus_op gc args = (eval_success e, gc') ∧
        intPayload gc' e = some 0) ∧
    (∀ (gc : Gc) (args : Expr), nil_p gc args = true →
      ∃ e gc', mul_op gc args = (eval_success e, gc') ∧
        intPayload gc' e = some 1) ∧
    runRead 20 c9PlusState.2 stdScope c9PlusState.1 = some (false, .int 0) ∧
    runRead 20 c9MulState.2 stdScope c9MulState.1 = some (false, .int 1) := by
  refine ⟨?_, ?_, by decide, by decide⟩
  · intro gc args hnil
    have hnil' : nil_p (gc.allocAtom (.integer 0)).2 args = true :=
      nil_p_mono (Gc.Preserves.allocAtom gc _) hnil
    refine ⟨.atom gc.atoms.length, (gc.allocAtom (.integer 0)).2, ?_, ?_⟩
    · simp [plus_op, INTEGER, arith_op_loop, hnil']
      rfl
    · simp [intPayload, Gc.allocAtom_getAtom_self]
  · intro gc args hnil
    have hnil' : nil_p (gc.allocAtom (.integer 1)).2 args = true :=
      nil_p_mono (Gc.Preserves.allocAtom gc _) hnil
    refine ⟨.atom gc.atoms.length, (gc.allocAtom (.integer 1)).2, ?_, ?_⟩
    · simp [mul_op, INTEGER, arith_op_loop, hnil']
      rfl
    · simp [intPayload, Gc.allocAtom_getAtom_self]

/-- C9 witness: the fold-identity parts applied at a one-atom heap whose
argument list is the `nil` symbol. -/
theorem claim_C9_witness :
    (∃ e gc', plus_op (Gc.mk [some (.symbol "nil")] []) (.atom 0) =
      (eval_success e, gc') ∧ intPayload gc' e = some 0) ∧
    (∃ e gc', mul_op (Gc.mk [some (.symbol "nil")] []) (.atom 0) =
      (eval_success e, gc') ∧ intPayload gc' e = some 1) :=
  ⟨claim_C9.1 _ _ (by decide), claim_C9.2.1 _ _ (by decide)⟩

/-! ## C10: lambda arity mismatch -/

/-- C10: applying a lambda to an argument list whose length differs from its
parameter list's length yields `Err((wrong-integer-of-arguments . n))` with
`n` the number of arguments supplied; the error is produced before any
parameter is bound or body expression evaluated, and the final heap is the
entry heap extended by exactly the three error-value allocations — every
pre-existing binding cell, and hence the scope, is untouched. -/
theorem claim_C10 (f : Nat) (gc : Gc) (lam args : Expr)
    (hl : lambda_p gc lam = true) (ha : list_p gc args = true)
    (hn : length_of_list gc args ≠
      length_of_list gc ((lambdaPayload gc lam).getD ⟨.void, .void, .void⟩).args_list) :
    run (f + 1) gc (.callLambdaC lam args) =
      some (wrong_integer_of_arguments gc (length_of_list gc args)) ∧
    wrong_integer_of_arguments gc (length_of_list gc args) =
      (eval_failure (.cons gc.conses.length),
        { atoms := gc.atoms ++ [some (.symbol "wrong-integer-of-arguments"),
            some (.integer (length_of_list gc args))],
          conses := gc.conses ++
            [some ⟨.atom gc.atoms.length, .atom (gc.atoms.length + 1)⟩] }) := by
  constructor
  · have hbne : (length_of_list gc args !=
        length_of_list gc ((lambdaPayload gc lam).getD ⟨.void, .void, .void⟩).args_list) = true :=
      bne_iff_ne.mpr hn
    simp [run, step, hl, ha, hbne]
  · simp [wrong_integer_of_arguments, SYMBOL, INTEGER, CONS, Gc.allocAtom, Gc.allocCons,
      eval_failure]


/-! ## C7: `unquote` evaluated outside `quasiquote` -/

/-- C7 counterexample: the claim says evaluating `(unquote ...)` directly
yields `Err("Using unquote outside of quasiquote.")` *for every argument
list*; but `unquote` is not in `is_special`'s table, so the arguments are
evaluated first, and for `(unquote x)` with `x` unbound the result is
`Err((void-variable . x))`, a different value. -/
theorem claim_C7_cex :
    runRead 30 c7CexState.2 stdScope c7CexState.1 =
      some (true, .consV (.sym "void-variable") (.sym "x")) ∧
    SVal.consV (.sym "void-variable") (.sym "x") ≠
      SVal.str "Using unquote outside of quasiquote." :=
  ⟨by decide, by decide⟩

/-- C7 (amended): evaluating `(unquote . args)` directly returns
`Err("Using unquote outside of quasiquote.")` for every argument list whose
evaluation succeeds (an error from evaluating the arguments propagates
instead, because `unquote` is not a special form).  The hypotheses describe
a head symbol `unquote` bound in the scope to the `UnquoteFn` native; the
binding is also assumed intact in the post-argument heap `gcB`, which holds
on every interpreter execution since evaluation never destroys or mutates
atoms. -/
theorem claim_C7 :
    is_special "unquote" = false ∧
    ∀ (gc gcB : Gc) (scope args cell vA : Expr) (hi uqi : Nat),
      gc.getAtom hi = some (.symbol "unquote") →
      get_scope_value gc scope (.atom hi) = cell →
      nil_p gc cell = false →
      CDR gc cell = .atom uqi →
      gcB.getAtom uqi = some (.native .unquoteN) →
      Runs gc (.evalAllArgsC scope args) (eval_success vA, gcB) →
      Runs gc (.evalFuncallC scope (.atom hi) args) (unquote_native gcB) ∧
      (unquote_native gcB).1 = eval_failure (.atom gcB.atoms.length) ∧
      strPayload (unquote_native gcB).2 (.atom gcB.atoms.length) =
        some "Using unquote outside of quasiquote." := by
  refine ⟨by decide, ?_⟩
  intro gc gcB scope args cell vA hi uqi hsym hlook hnnil hcdr hnat hargs
  obtain ⟨fA, hargsRun⟩ := hargs
  refine ⟨⟨fA + 2, ?_⟩, rfl, by
    simp [unquote_native, STRING, strPayload, Gc.allocAtom_getAtom_self]⟩
  have hargs' : run (fA + 1) gc (.evalAllArgsC scope args) =
      some (eval_success vA, gcB) :=
    run_mono (Nat.le_succ fA) _ _ _ hargsRun
  have hhead : run (fA + 1) gc (.evalC scope (.atom hi)) =
      some (eval_success (.atom uqi), gc) := by
    have h1 : run (fA + 1) gc (.evalC scope (.atom hi)) =
        step (run fA) gc (.evalC scope (.atom hi)) := rfl
    rw [h1]
    simp only [step]
    simp [eval_atom, hsym, hlook, hnnil, hcdr]
  have h2 : run (fA + 2) gc (.evalFuncallC scope (.atom hi) args) =
      step (run (fA + 1)) gc (.evalFuncallC scope (.atom hi) args) := rfl
  rw [h2]
  simp only [step]
  rw [hhead]
  simp only [eval_success_is_error, Bool.false_eq_true, if_false]
  have hspec : (symbol_p gc (.atom hi) &&
      is_special ((symPayload gc (.atom hi)).getD "")) = false := by
    simp [symbol_p, symPayload, hsym, is_special, specials]
  rw [hspec]
  simp only [Bool.false_eq_true, if_false]
  rw [hargs']
  simp only [eval_success_is_error, Bool.false_eq_true, if_false,
    eval_success_expr]
  rw [hnat]
  have h3 : run (fA + 1) gcB (.nativeC .unquoteN scope vA) =
      some (unquote_native gcB) := rfl
  exact h3

/-- C7 witness: `(unquote 5)` evaluated in the standard scope reaches the
`unquote` native and fails with the dedicated error string. -/
theorem claim_C7_witness :
    Runs c7WitState.2 (.evalFuncallC stdScope (.atom 42) c7WitState.1.2)
      (unquote_native c7WitOut.2) :=
  (claim_C7.2 c7WitState.2 c7WitOut.2 stdScope c7WitState.1.2 (.cons 33)
    c7WitOut.1.expr 42 35 (by decide) (by decide) (by decide) (by decide)
    (by decide) ⟨20, by decide⟩).1

/-- C10 witness: `(lambda (x) )` applied to `(1 2)` fails with
`(wrong-integer-of-arguments . 2)`. -/
theorem claim_C10_witness :
    run 1 c10State.2 (.callLambdaC c10State.1.1 c10State.1.2) =
      some (wrong_integer_of_arguments c10State.2
        (length_of_list c10State.2 c10State.1.2)) :=
  (claim_C10 0 c10State.2 c10State.1.1 c10State.1.2 (by decide) (by decide)
    (by decide)).1



/-! ## C5: the argument-list matcher -/

theorem getD_append_len {α} (l L : List α) (d : α) :
    (l ++ L).getD l.length d = L.getD 0 d := by
  rw [List.getD_append_right _ _ _ _ (Nat.le_refl _)]
  simp

theorem getD_append_len1 {α} (l L : List α) (d : α) :
    (l ++ L).getD (l.length + 1) d = L.getD 1 d := by
  rw [List.getD_append_right _ _ _ _ (Nat.le_add_right _ _)]
  simp

theorem getD_append_len2 {α} (l L : List α) (d : α) :
    (l ++ L).getD (l.length + 2) d = L.getD 2 d := by
  rw [List.getD_append_right _ _ _ _ (Nat.le_add_right _ _)]
  simp

/-- The explicit heap effect of `wrong_argument_type`: a fresh proper
three-element list `(wrong-argument-type <type> <obj>)`. -/
theorem wrong_argument_type_form (gc : Gc) (t : String) (obj : Expr) :
    wrong_argument_type gc t obj =
      (eval_failure (.cons (gc.conses.length + 2)),
       { atoms := gc.atoms ++ [some (.symbol "wrong-argument-type"),
           some (.symbol t), some (.symbol "nil")],
         conses := gc.conses ++ [some ⟨obj, .atom (gc.atoms.length + 2)⟩,
           some ⟨.atom (gc.atoms.length + 1), .cons gc.conses.length⟩,
           some ⟨.atom gc.atoms.length, .cons (gc.conses.length + 1)⟩] }) := by
  simp [wrong_argument_type, SYMBOL, listOfExprs, NIL, CONS, Gc.allocAtom,
    Gc.allocCons, eval_failure]

/-- The error value of `wrong_argument_type` read back from the heap: it is
the proper list `(wrong-argument-type <type> <obj>)`, with the offending
object itself as third element. -/
theorem wrong_argument_type_shape (gc : Gc) (t : String) (obj : Expr) :
    (wrong_argument_type gc t obj).1.is_error = true ∧
    symPayload (wrong_argument_type gc t obj).2
      (CAR (wrong_argument_type gc t obj).2
        (wrong_argument_type gc t obj).1.expr) = some "wrong-argument-type" ∧
    symPayload (wrong_argument_type gc t obj).2
      (CAR (wrong_argument_type gc t obj).2
        (CDR (wrong_argument_type gc t obj).2
          (wrong_argument_type gc t obj).1.expr)) = some t ∧
    CAR (wrong_argument_type gc t obj).2
      (CDR (wrong_argument_type gc t obj).2
        (CDR (wrong_argument_type gc t obj).2
          (wrong_argument_type gc t obj).1.expr)) = obj ∧
    nil_p (wrong_argument_type gc t obj).2
      (CDR (wrong_argument_type gc t obj).2
        (CDR (wrong_argument_type gc t obj).2
          (CDR (wrong_argument_type gc t obj).2
            (wrong_argument_type gc t obj).1.expr))) = true := by
  rw [wrong_argument_type_form]
  refine ⟨rfl, ?_, ?_, ?_, ?_⟩ <;>
    simp only [eval_failure, CAR, CDR, symPayload, nil_p, Gc.getAtom,
      Gc.getCons, getD_append_len, getD_append_len1, getD_append_len2,
      List.getD_cons_zero, List.getD_cons_succ, beq_self_eq_true]

/-- The explicit heap effect of `wrong_integer_of_arguments`: a fresh dotted
pair `(wrong-integer-of-arguments . n)`. -/
theorem wrong_integer_of_arguments_form (gc : Gc) (n : Int) :
    wrong_integer_of_arguments gc n =
      (eval_failure (.cons gc.conses.length),
       { atoms := gc.atoms ++ [some (.symbol "wrong-integer-of-arguments"),
           some (.integer n)],
         conses := gc.conses ++
           [some ⟨.atom gc.atoms.length, .atom (gc.atoms.length + 1)⟩] }) := by
  simp [wrong_integer_of_arguments, SYMBOL, INTEGER, CONS, Gc.allocAtom,
    Gc.allocCons, eval_failure]

theorem wrong_integer_of_arguments_shape (gc : Gc) (n : Int) :
    (wrong_integer_of_arguments gc n).1.is_error = true ∧
    symPayload (wrong_integer_of_arguments gc n).2
      (CAR (wrong_integer_of_arguments gc n).2
        (wrong_integer_of_arguments gc n).1.expr) =
      some "wrong-integer-of-arguments" ∧
    intPayload (wrong_integer_of_arguments gc n).2
      (CDR (wrong_integer_of_arguments gc n).2
        (wrong_integer_of_arguments gc n).1.expr) = some n := by
  rw [wrong_integer_of_arguments_form]
  refine ⟨rfl, ?_, ?_⟩ <;>
    simp only [eval_failure, CAR, CDR, symPayload, intPayload, Gc.getAtom,
      Gc.getCons, getD_append_len, getD_append_len1, List.getD_cons_zero,
      List.getD_cons_succ]

/-- One scanning step of `match_list_loop` on a live cons cell, for the five
value format characters: a failed kind check stops with
`wrong_argument_type`, a passed one consumes the element. -/
theorem match_list_loop_cons_known (gc : Gc) (c : Char) (rest : List Char)
    (i : Nat) (cc : Cons) (acc : List Expr)
    (hc : c ∈ ['d', 'f', 's', 'q', 'e']) (hget : gc.getCons i = some cc) :
    match_list_loop gc (c :: rest) (.cons i) acc =
      if kindOK gc c cc.car = false then
        (((wrong_argument_type gc (kindName c) cc.car).1, []),
          (wrong_argument_type gc (kindName c) cc.car).2)
      else match_list_loop gc rest cc.cdr (acc ++ [cc.car]) := by
  have hnp : nil_p gc (.cons i) = false := rfl
  rcases (by simpa using hc) with rfl | rfl | rfl | rfl | rfl <;>
    · simp only [match_list_loop, hnp, Bool.false_eq_true, if_false,
        cons_p, Bool.not_true, CAR, CDR, hget, kindOK, kindName]
      split <;> simp_all

/-- C5 (amended).  For a proper argument list and a format of equal length
over `{d,f,s,q,e}`: the matcher succeeds exactly when every element has the
kind of its format character; on the first kind mismatch it stops with the
`wrong_argument_type` error — a proper *three-element list*
`(wrong-argument-type <kind> <obj>)`, not a dotted pair — and on a length
mismatch (in either direction, with all common positions kind-correct) it
returns `Err((wrong-integer-of-arguments . 0))`: the reported count is
always `0`, because the counter `i` of `match_list` is never
incremented. -/
theorem claim_C5 :
    (∀ (gc : Gc) (s : String) (xs : Expr),
      match_list gc s xs = match_list_loop gc s.toList xs []) ∧
    (∀ (gc : Gc) (format : List Char) (args : Expr) (es acc : List Expr),
      IsHeapList gc args es →
      (∀ c ∈ format, c ∈ ['d', 'f', 's', 'q', 'e']) →
      format.length = es.length →
      ((match_list_loop gc format args acc).1.1.is_error = false ↔
        ∀ j < format.length,
          kindOK gc (format.getD j ' ') (es.getD j .void) = true)) ∧
    (∀ (gc : Gc) (format : List Char) (args : Expr) (es acc : List Expr)
        (k : Nat),
      IsHeapList gc args es →
      (∀ c ∈ format, c ∈ ['d', 'f', 's', 'q', 'e']) →
      format.length = es.length →
      k < format.length →
      (∀ j < k, kindOK gc (format.getD j ' ') (es.getD j .void) = true) →
      kindOK gc (format.getD k ' ') (es.getD k .void) = false →
      match_list_loop gc format args acc =
        (((wrong_argument_type gc (kindName (format.getD k ' '))
            (es.getD k .void)).1, []),
          (wrong_argument_type gc (kindName (format.getD k ' '))
            (es.getD k .void)).2)) ∧
    (∀ (gc : Gc) (format : List Char) (args : Expr) (es acc : List Expr),
      IsHeapList gc args es →
      (∀ c ∈ format, c ∈ ['d', 'f', 's', 'q', 'e']) →
      format.length ≠ es.length →
      (∀ j, j < format.length → j < es.length →
        kindOK gc (format.getD j ' ') (es.getD j .void) = true) →
      match_list_loop gc format args acc =
        (((wrong_integer_of_arguments gc 0).1, []),
          (wrong_integer_of_arguments gc 0).2)) := by
  refine ⟨fun _ _ _ => rfl, ?_, ?_, ?_⟩
  · -- success iff all kinds match
    intro gc format
    induction format with
    | nil =>
      intro args es acc hlist hmem hlen
      rcases hlist with ⟨e, hn⟩ | ⟨i, cc, es', hget, htail⟩
      · simp [match_list_loop, match_list_post, hn, NIL, SYMBOL]
      · simp at hlen
    | cons c rest ih =>
      intro args es acc hlist hmem hlen
      rcases hlist with ⟨e, hn⟩ | ⟨i, cc, es', hget, htail⟩
      · simp at hlen
      · rw [match_list_loop_cons_known gc c rest i cc acc
          (hmem c (List.mem_cons_self _ _)) hget]
        cases hk : kindOK gc c cc.car with
        | false =>
          simp only [if_true, eq_self_iff_true]
          constructor
          · intro habs
            rw [show ((wrong_argument_type gc (kindName c) cc.car).1).is_error
                = true from (wrong_argument_type_shape gc _ _).1] at habs
            cases habs
          · intro hall
            have := hall 0 (Nat.succ_pos _)
            simp at this
            rw [this] at hk
            cases hk
        | true =>
          simp only [Bool.true_eq_false, if_false]
          have hiff := ih cc.cdr es' (acc ++ [cc.car]) htail
            (fun d hd => hmem d (List.mem_cons_of_mem _ hd)) (by simpa using hlen)
          rw [hiff]
          constructor
          · intro hall j hj
            cases j with
            | zero => simpa using hk
            | succ j => simpa using hall j (Nat.lt_of_succ_lt_succ hj)
          · intro hall j hj
            have := hall (j + 1) (Nat.succ_lt_succ hj)
            simpa using this
  · -- first kind mismatch
    intro gc format
    induction format with
    | nil =>
      intro args es acc k hlist hmem hlen hk
      simp at hk
    | cons c rest ih =>
      intro args es acc k hlist hmem hlen hk hfirst hmiss
      rcases hlist with ⟨e, hn⟩ | ⟨i, cc, es', hget, htail⟩
      · simp at hlen
      · rw [match_list_loop_cons_known gc c rest i cc acc
          (hmem c (List.mem_cons_self _ _)) hget]
        cases k with
        | zero =>
          simp only [List.getD_cons_zero] at hmiss ⊢
          rw [hmiss]
          simp
        | succ k =>
          have h0 := hfirst 0 (Nat.succ_pos _)
          simp at h0
          rw [h0]
          simp only [Bool.true_eq_false, if_false]
          have := ih cc.cdr es' (acc ++ [cc.car]) k htail
            (fun d hd => hmem d (List.mem_cons_of_mem _ hd))
            (by simpa using hlen) (by simpa using hk)
            (fun j hj => by simpa using hfirst (j + 1) (Nat.succ_lt_succ hj))
            (by simpa using hmiss)
          simpa using this
  · -- length mismatch with kind-correct common positions
    intro gc format
    induction format with
    | nil =>
      intro args es acc hlist hmem hlen hpre
      rcases hlist with ⟨e, hn⟩ | ⟨i, cc, es', hget, htail⟩
      · simp at hlen
      · have hnp : nil_p gc (.cons i) = false := rfl
        simp [match_list_loop, match_list_post, hnp]
    | cons c rest ih =>
      intro args es acc hlist hmem hlen hpre
      rcases hlist with ⟨e, hn⟩ | ⟨i, cc, es', hget, htail⟩
      · have hc := hmem c (List.mem_cons_self _ _)
        rcases (by simpa using hc) with rfl | rfl | rfl | rfl | rfl <;>
          simp [match_list_loop, match_list_post, hn]
      · rw [match_list_loop_cons_known gc c rest i cc acc
          (hmem c (List.mem_cons_self _ _)) hget]
        have h0 := hpre 0 (Nat.succ_pos _) (Nat.succ_pos _)
        simp at h0
        rw [h0]
        simp only [Bool.true_eq_false, if_false]
        exact ih cc.cdr es' (acc ++ [cc.car]) htail
          (fun d hd => hmem d (List.mem_cons_of_mem _ hd))
          (by simpa using hlen)
          (fun j hj1 hj2 => by
            simpa using hpre (j + 1) (Nat.succ_lt_succ hj1) (Nat.succ_lt_succ hj2))

/-- C5 witness: matching the format `"d"` against the one-element list
`(1)` succeeds, and the kind characterisation applies. -/
theorem claim_C5_witness :
    ((match_list_loop (Gc.mk [some (.integer 1), some (.symbol "nil")]
        [some ⟨.atom 0, .atom 1⟩]) ['d'] (.cons 0) []).1.1.is_error = false ↔
      ∀ j < 1, kindOK (Gc.mk [some (.integer 1), some (.symbol "nil")]
        [some ⟨.atom 0, .atom 1⟩]) (['d'].getD j ' ')
        (([Expr.atom 0].getD j .void)) = true) ∧
    (match_list_loop (Gc.mk [some (.integer 1), some (.symbol "nil")]
        [some ⟨.atom 0, .atom 1⟩]) ['d'] (.cons 0) []).1.1.is_error = false := by
  have hl : IsHeapList (Gc.mk [some (.integer 1), some (.symbol "nil")]
      [some ⟨.atom 0, .atom 1⟩]) (.cons 0) [.atom 0] := by
    refine IsHeapList.cons 0 ⟨.atom 0, .atom 1⟩ [] (by decide) ?_
    exact IsHeapList.nil _ (by decide)
  have h := claim_C5.2.1 (Gc.mk [some (.integer 1), some (.symbol "nil")]
    [some ⟨.atom 0, .atom 1⟩]) ['d'] (.cons 0) [.atom 0] [] hl
    (by decide) (by decide)
  exact ⟨h, h.mpr (by decide)⟩

/-- C5 counterexample: matching `"d"` against `(1 2)` reports
`(wrong-integer-of-arguments . 0)` — not the number of supplied arguments
`2` — and matching `"d"` against `("a")` yields the proper three-element
list `(wrong-argument-type integerp "a")`, not a dotted pair whose cdr is
the kind. -/
theorem claim_C5_cex :
    (readSVal (match_list c5CexState.2 "d" c5CexState.1.1).2
        (match_list c5CexState.2 "d" c5CexState.1.1).1.1.expr =
      .consV (.sym "wrong-integer-of-arguments") (.int 0) ∧
      SVal.consV (.sym "wrong-integer-of-arguments") (.int 0) ≠
        SVal.consV (.sym "wrong-integer-of-arguments") (.int 2)) ∧
    (readSVal (match_list c5CexState.2 "d" c5CexState.1.2).2
        (match_list c5CexState.2 "d" c5CexState.1.2).1.1.expr =
      .consV (.sym "wrong-argument-type")
        (.consV (.sym "integerp") (.consV (.str "a") (.sym "nil"))) ∧
      SVal.consV (.sym "wrong-argument-type")
        (.consV (.sym "integerp") (.consV (.str "a") (.sym "nil"))) ≠
        SVal.consV (.sym "wrong-argument-type") (.sym "integerp")) :=
  ⟨⟨by decide, by decide⟩, ⟨by decide, by decide⟩⟩

end FirstInterp

namespace FirstInterp

theorem nil_p_cons (gc : Gc) (i : Nat) : nil_p gc (.cons i) = false := rfl

theorem IsHeapList_determ {gc : Gc} {e : Expr} {es1 es2 : List Expr}
    (h1 : IsHeapList gc e es1) (h2 : IsHeapList gc e es2) : es1 = es2 := by
  induction h1 generalizing es2 with
  | nil e hn =>
    cases h2 with
    | nil => rfl
    | cons i cc es hget htail => rw [nil_p_cons] at hn; cases hn
  | cons i cc es hget htail ih =>
    cases h2 with
    | nil e hn => rw [nil_p_cons] at hn; cases hn
    | cons i cc' es' hget' htail' =>
      rw [hget] at hget'
      cases hget'
      rw [ih htail']

theorem IsHeapList_length_aux {gc : Gc} :
    ∀ (es : List Expr) (S : Finset ℕ) (e : Expr), IsHeapList gc e es →
      (∀ j ∈ S, ∃ xs : List Expr,
        IsHeapList gc (.cons j) xs ∧ es.length < xs.length) →
      S.card + es.length ≤ gc.conses.length := by
  intro es
  induction es with
  | nil =>
    intro S e hlist hS
    have hsub : S ⊆ Finset.range gc.conses.length := by
      intro j hj
      obtain ⟨xs, hxs, _⟩ := hS j hj
      cases hxs with
      | nil e hn => simp [nil_p_cons] at hn
      | cons i cc es hget htail =>
        exact Finset.mem_range.mpr (Gc.getCons_lt_of_some hget)
    simpa using Finset.card_le_card hsub
  | cons x es ih =>
    intro S e hlist hS
    cases hlist with
    | cons i cc es hget htail =>
      have hiS : i ∉ S := by
        intro hmem
        obtain ⟨xs, hxs, hlen⟩ := hS i hmem
        have := IsHeapList_determ hxs (IsHeapList.cons i cc es hget htail)
        subst this
        exact Nat.lt_irrefl _ hlen
      have hIH := ih (insert i S) cc.cdr htail ?_
      · rw [Finset.card_insert_of_not_mem hiS] at hIH
        simp only [List.length_cons]
        omega
      · intro j hj
        rcases Finset.mem_insert.mp hj with rfl | hj
        · exact ⟨cc.car :: es, IsHeapList.cons j cc es hget htail,
            Nat.lt_succ_self _⟩
        · obtain ⟨xs, hxs, hlen⟩ := hS j hj
          exact ⟨xs, hxs, Nat.lt_of_succ_lt hlen⟩

/-- A proper heap list cannot be longer than the cons table: its spine cells
are pairwise distinct. -/
theorem IsHeapList_length_le {gc : Gc} {e : Expr} {es : List Expr}
    (h : IsHeapList gc e es) : es.length ≤ gc.conses.length := by
  simpa using IsHeapList_length_aux es ∅ e h (by simp)

theorem IsHeapList_mono {g g' : Gc} {e : Expr} {es : List Expr}
    (hp : Gc.Preserves g g') (h : IsHeapList g e es) : IsHeapList g' e es := by
  induction h with
  | nil e hn => exact IsHeapList.nil e (nil_p_mono hp hn)
  | cons i cc es hget htail ih => exact IsHeapList.cons i cc es (hp.cons hget) ih

/-! ## C4 support: the two-argument arithmetic kernels on integer atoms -/

theorem CAR_cons {gc : Gc} {i : Nat} {cc : Cons} (h : gc.getCons i = some cc) :
    CAR gc (.cons i) = cc.car := by
  simp [CAR, h]

theorem CDR_cons {gc : Gc} {i : Nat} {cc : Cons} (h : gc.getCons i = some cc) :
    CDR gc (.cons i) = cc.cdr := by
  simp [CDR, h]

theorem bool_as_expr_eq (gc : Gc) (c : Bool) :
    bool_as_expr gc c =
      (.atom gc.atoms.length,
       ⟨gc.atoms ++ [some (.symbol (if c then "t" else "nil"))], gc.conses⟩) := by
  cases c <;> rfl

theorem integer_p_atom {gc : Gc} {i : Nat} {n : Int}
    (h : gc.getAtom i = some (.integer n)) : integer_p gc (.atom i) = true := by
  simp [integer_p, h]

theorem intPayload_atom {gc : Gc} {i : Nat} {n : Int}
    (h : gc.getAtom i = some (.integer n)) : intPayload gc (.atom i) = some n := by
  simp [intPayload, h]

theorem plus2_int {g : Gc} {i j : Nat} {x y : Int}
    (hi : g.getAtom i = some (.integer x)) (hj : g.getAtom j = some (.integer y)) :
    plus2 g (.atom i) (.atom j) =
      (eval_success (.atom g.atoms.length), (g.allocAtom (.integer (x + y))).2) := by
  simp [plus2, integer_p_atom hi, integer_p_atom hj, intPayload_atom hi,
    intPayload_atom hj, INTEGER, Gc.allocAtom]

theorem mul2_int {g : Gc} {i j : Nat} {x y : Int}
    (hi : g.getAtom i = some (.integer x)) (hj : g.getAtom j = some (.integer y)) :
    mul2 g (.atom i) (.atom j) =
      (eval_success (.atom g.atoms.length), (g.allocAtom (.integer (x * y))).2) := by
  simp [mul2, integer_p_atom hi, integer_p_atom hj, intPayload_atom hi,
    intPayload_atom hj, INTEGER, Gc.allocAtom]

theorem greaterThan2_int {g : Gc} {i j : Nat} {x y : Int}
    (hi : g.getAtom i = some (.integer x)) (hj : g.getAtom j = some (.integer y)) :
    greaterThan2 g (.atom i) (.atom j) =
      (eval_success (.atom g.atoms.length),
       ⟨g.atoms ++ [some (.symbol (if x > y then "t" else "nil"))],
        g.conses⟩) := by
  simp [greaterThan2, integer_p_atom hi, integer_p_atom hj, intPayload_atom hi,
    intPayload_atom hj, bool_as_expr_eq]

/-! ## C4 support: folding the two-argument kernels over integer lists -/

theorem forall2_intAtoms_mono {g g' : Gc} (hp : Gc.Preserves g g')
    {es : List Expr} {vs : List Int}
    (h : List.Forall₂ (fun e v => ∃ i, e = Expr.atom i ∧
      g.getAtom i = some (.integer v)) es vs) :
    List.Forall₂ (fun e v => ∃ i, e = Expr.atom i ∧
      g'.getAtom i = some (.integer v)) es vs :=
  h.imp fun a b hab => by
    obtain ⟨i, he, hg⟩ := hab
    exact ⟨i, he, hp.atom hg⟩

theorem foldl_add_int (accv : Int) (vs : List Int) :
    List.foldl (· + ·) accv vs = accv + vs.sum := by
  induction vs generalizing accv with
  | nil => simp
  | cons v vs ih => simp [List.foldl, ih, List.sum_cons]; ring

theorem foldl_mul_int (accv : Int) (vs : List Int) :
    List.foldl (· * ·) accv vs = accv * vs.prod := by
  induction vs generalizing accv with
  | nil => simp
  | cons v vs ih => simp [List.foldl, ih, List.prod_cons]; ring

theorem arith_loop_int {op : Gc → Expr → Expr → EvalResult × Gc}
    {opf : Int → Int → Int}
    (hop : ∀ (g : Gc) (i j : Nat) (x y : Int),
      g.getAtom i = some (.integer x) → g.getAtom j = some (.integer y) →
      op g (.atom i) (.atom j) =
        (eval_success (.atom g.atoms.length),
         (g.allocAtom (.integer (opf x y))).2)) :
    ∀ (es : List Expr) (f : Nat) (gc : Gc) (args : Expr) (vs : List Int)
      (ia : Nat) (accv : Int),
      es.length < f →
      IsHeapList gc args es →
      List.Forall₂ (fun e v => ∃ i, e = Expr.atom i ∧
        gc.getAtom i = some (.integer v)) es vs →
      gc.getAtom ia = some (.integer accv) →
      ∃ (k : Nat) (gcf : Gc),
        arith_op_loop op f gc args (.atom ia) = (eval_success (.atom k), gcf) ∧
        gcf.getAtom k = some (.integer (List.foldl opf accv vs)) ∧
        Gc.Preserves gc gcf ∧ gcf.conses = gc.conses := by
  intro es
  induction es with
  | nil =>
    intro f gc args vs ia accv hf hlist hfa hacc
    cases hfa
    obtain ⟨f', rfl⟩ := Nat.exists_eq_succ_of_ne_zero (by omega : f ≠ 0)
    cases hlist with
    | nil e hn =>
      refine ⟨ia, gc, ?_, hacc, Gc.Preserves.refl gc, rfl⟩
      simp only [arith_op_loop, hn, if_true, List.foldl]
  | cons x es ih =>
    intro f gc args vs ia accv hf hlist hfa hacc
    obtain ⟨f', rfl⟩ := Nat.exists_eq_succ_of_ne_zero (by omega : f ≠ 0)
    cases hlist with
    | cons i cc es' hget htail =>
      cases hfa with
      | cons hx hftail =>
        rename_i v vs'
        obtain ⟨ix, hxe, hxv⟩ := hx
        have hcar : CAR gc (.cons i) = Expr.atom ix := by
          rw [CAR_cons hget, hxe]
        have hopr := hop gc ia ix accv v hacc hxv
        have hp1 : Gc.Preserves gc ((gc.allocAtom
            (.integer (opf accv v))).2) := Gc.Preserves.allocAtom gc _
        have hcdr : CDR ((gc.allocAtom (.integer (opf accv v))).2) (.cons i) =
            cc.cdr := CDR_cons hget
        obtain ⟨k, gcf, hrun, hkv, hpf, hcf⟩ :=
          ih f' ((gc.allocAtom (.integer (opf accv v))).2) cc.cdr vs'
            gc.atoms.length (opf accv v) (by simpa using hf)
            (IsHeapList_mono hp1 htail) (forall2_intAtoms_mono hp1 hftail)
            (Gc.allocAtom_getAtom_self gc _)
        refine ⟨k, gcf, ?_, by simpa using hkv, hp1.trans hpf, hcf⟩
        simp only [arith_op_loop, nil_p_cons, Bool.false_eq_true, if_false,
          cons_p, Bool.not_true, hcar, hopr, hcdr, eval_success_is_error,
          Bool.not_false]
        exact hrun

theorem plus_op_int {gc : Gc} {args : Expr} {es : List Expr} {vs : List Int}
    (hlist : IsHeapList gc args es)
    (hfa : List.Forall₂ (fun e v => ∃ i, e = Expr.atom i ∧
      gc.getAtom i = some (.integer v)) es vs) :
    ∃ k gcf, plus_op gc args = (eval_success (.atom k), gcf) ∧
      gcf.getAtom k = some (.integer vs.sum) ∧
      Gc.Preserves gc gcf ∧ gcf.conses = gc.conses := by
  have hp1 : Gc.Preserves gc ((gc.allocAtom (.integer 0)).2) :=
    Gc.Preserves.allocAtom gc _
  have hlen := IsHeapList_length_le hlist
  obtain ⟨k, gcf, hrun, hkv, hpf, hcf⟩ :=
    arith_loop_int (fun g i j x y hi hj => plus2_int hi hj) es
      (gc.conses.length + 1) ((gc.allocAtom (.integer 0)).2) args vs
      gc.atoms.length 0 (by omega)
      (IsHeapList_mono hp1 hlist) (forall2_intAtoms_mono hp1 hfa)
      (Gc.allocAtom_getAtom_self gc _)
  rw [foldl_add_int, Int.zero_add] at hkv
  exact ⟨k, gcf, hrun, hkv, hp1.trans hpf, hcf⟩

theorem mul_op_int {gc : Gc} {args : Expr} {es : List Expr} {vs : List Int}
    (hlist : IsHeapList gc args es)
    (hfa : List.Forall₂ (fun e v => ∃ i, e = Expr.atom i ∧
      gc.getAtom i = some (.integer v)) es vs) :
    ∃ k gcf, mul_op gc args = (eval_success (.atom k), gcf) ∧
      gcf.getAtom k = some (.integer vs.prod) ∧
      Gc.Preserves gc gcf ∧ gcf.conses = gc.conses := by
  have hp1 : Gc.Preserves gc ((gc.allocAtom (.integer 1)).2) :=
    Gc.Preserves.allocAtom gc _
  have hlen := IsHeapList_length_le hlist
  obtain ⟨k, gcf, hrun, hkv, hpf, hcf⟩ :=
    arith_loop_int (fun g i j x y hi hj => mul2_int hi hj) es
      (gc.conses.length + 1) ((gc.allocAtom (.integer 1)).2) args vs
      gc.atoms.length 1 (by omega)
      (IsHeapList_mono hp1 hlist) (forall2_intAtoms_mono hp1 hfa)
      (Gc.allocAtom_getAtom_self gc _)
  rw [foldl_mul_int, Int.one_mul] at hkv
  exact ⟨k, gcf, hrun, hkv, hp1.trans hpf, hcf⟩

/-! ## C4 support: `GreaterThanFn` on a two-integer argument list -/

theorem greaterThan_loop_last {g : Gc} {t x2 : Expr} {sorted : Bool} {f : Nat}
    (ht : nil_p g t = true) :
    greaterThan_loop (f + 1) g x2 t sorted =
      (eval_success (.atom g.atoms.length),
       ⟨g.atoms ++ [some (.symbol (if sorted then "t" else "nil"))],
        g.conses⟩) := by
  simp only [greaterThan_loop, ht, Bool.not_true, Bool.false_and,
    Bool.false_eq_true, if_false, bool_as_expr_eq]

theorem greaterThan_int2 {gc : Gc} {K K' i j : Nat} {t : Expr} {a b : Int}
    (hK : gc.getCons K = some ⟨.atom i, .cons K'⟩)
    (hK' : gc.getCons K' = some ⟨.atom j, t⟩)
    (ht : nil_p gc t = true)
    (hi : gc.getAtom i = some (.integer a))
    (hj : gc.getAtom j = some (.integer b)) :
    ∃ k gcf, greaterThan gc (.cons K) = (eval_success (.atom k), gcf) ∧
      symPayload gcf (.atom k) = some (if a > b then "t" else "nil") ∧
      Gc.Preserves gc gcf ∧ gcf.conses = gc.conses := by
  have hne : K ≠ K' := by
    intro h
    rw [h, hK'] at hK
    simp only [Option.some.injEq, Cons.mk.injEq] at hK
    rw [hK.2] at ht
    rw [nil_p_cons] at ht
    cases ht
  have hlen2 : 2 ≤ gc.conses.length := by
    have h1 := Gc.getCons_lt_of_some hK
    have h2 := Gc.getCons_lt_of_some hK'
    omega
  obtain ⟨L1, hL1⟩ : ∃ m, gc.conses.length = m + 2 :=
    ⟨gc.conses.length - 2, by omega⟩
  have hgc1 : Gc.Preserves gc
      ⟨gc.atoms ++ [some (.symbol (if a > b then "t" else "nil"))],
       gc.conses⟩ := Gc.Preserves.allocAtom gc _
  have ht1 : nil_p
      (⟨gc.atoms ++ [some (.symbol (if a > b then "t" else "nil"))],
        gc.conses⟩ : Gc) t = true := nil_p_mono hgc1 ht
  have hnil1 : nil_p
      (⟨gc.atoms ++ [some (.symbol (if a > b then "t" else "nil"))],
        gc.conses⟩ : Gc) (.atom gc.atoms.length) = !(decide (a > b)) := by
    simp only [nil_p, symPayload, Gc.getAtom, getD_append_len,
      List.getD_cons_zero]
    by_cases h : a > b <;> simp [h]
  refine ⟨gc.atoms.length + 1,
    ⟨(gc.atoms ++ [some (.symbol (if a > b then "t" else "nil"))]) ++
       [some (.symbol (if a > b then "t" else "nil"))], gc.conses⟩,
    ?_, ?_, hgc1.trans (Gc.Preserves.allocAtom _ _), rfl⟩
  · have e0 : greaterThan gc (.cons K) =
        greaterThan_loop (gc.conses.length + 1) gc (.atom i) (.cons K') true := by
      simp [greaterThan, cons_p, CAR_cons hK, CDR_cons hK]
    rw [e0, hL1]
    simp only [greaterThan_loop, nil_p_cons, Bool.not_false, Bool.and_true,
      if_true, CAR_cons hK', CDR_cons hK', greaterThan2_int hi hj,
      eval_success_is_error, Bool.false_eq_true, if_false]
    simp only [ht1, eval_success_expr, Bool.not_true, Bool.false_and,
      Bool.false_eq_true, if_false, hnil1, Bool.not_not, Bool.true_and,
      bool_as_expr_eq, List.length_append, List.length_cons, List.length_nil]
    by_cases h : a > b <;> simp [h]
  · simp only [symPayload, Gc.getAtom, List.append_assoc,
      List.singleton_append, getD_append_len1, List.getD_cons_succ,
      List.getD_cons_zero]

/-! ## C4 support: dispatch plumbing through `eval_funcall` -/

theorem runs_evalC_cons {gc : Gc} {scope : Expr} {K : Nat} {cc : Cons}
    {out : EvalResult × Gc} (hK : gc.getCons K = some cc)
    (h : Runs gc (.evalFuncallC scope cc.car cc.cdr) out) :
    Runs gc (.evalC scope (.cons K)) out := by
  obtain ⟨f, hf⟩ := h
  refine ⟨f + 1, ?_⟩
  have hs : run (f + 1) gc (.evalC scope (.cons K)) =
      step (run f) gc (.evalC scope (.cons K)) := rfl
  rw [hs]
  simp only [step]
  rw [hK]
  exact hf

theorem runs_evalFuncall_native {gc gc1 gc2 : Gc}
    {scope callable args aE : Expr} {j : Nat} {fn : NativeId}
    {out : EvalResult × Gc}
    (hhead : Runs gc (.evalC scope callable) (eval_success (.atom j), gc1))
    (hspec : (symbol_p gc1 callable &&
      is_special ((symPayload gc1 callable).getD "")) = false)
    (hargs : Runs gc1 (.evalAllArgsC scope args) (eval_success aE, gc2))
    (hnat : gc2.getAtom j = some (.native fn))
    (hout : Runs gc2 (.nativeC fn scope aE) out) :
    Runs gc (.evalFuncallC scope callable args) out := by
  obtain ⟨f1, h1⟩ := hhead
  obtain ⟨f2, h2⟩ := hargs
  obtain ⟨f3, h3⟩ := hout
  have h1' := run_mono (show f1 ≤ f1 + f2 + f3 by omega) _ _ _ h1
  have h2' := run_mono (show f2 ≤ f1 + f2 + f3 by omega) _ _ _ h2
  have h3' := run_mono (show f3 ≤ f1 + f2 + f3 by omega) _ _ _ h3
  refine ⟨f1 + f2 + f3 + 1, ?_⟩
  have hs : run (f1 + f2 + f3 + 1) gc (.evalFuncallC scope callable args) =
      step (run (f1 + f2 + f3)) gc (.evalFuncallC scope callable args) := rfl
  rw [hs]
  simp only [step]
  rw [h1']
  simp only [eval_success_is_error, Bool.false_eq_true, if_false]
  rw [hspec]
  simp only [Bool.false_eq_true, if_false]
  rw [h2']
  simp only [eval_success_is_error, Bool.false_eq_true, if_false,
    eval_success_expr]
  rw [hnat]
  exact h3'

/-! ## C4 support: the three end-to-end instances -/

theorem stdGc_lit : stdGc = stdGcLit := by decide

theorem stdScope_lit : stdScope = .cons 0 := by decide

set_option maxHeartbeats 2000000 in
theorem c4State_lit (a b : Int) : (c4State stdGc a b).2 = c4Lit a b := by
  rw [stdGc_lit]
  exact rfl

set_option maxHeartbeats 800000 in
theorem c4State_forms (a b : Int) :
    (c4State stdGc a b).1 = (.cons 43, .cons 46, .cons 49) := by
  rw [stdGc_lit]
  exact rfl

set_option maxHeartbeats 800000 in
theorem c4_head_plus (a b : Int) :
    run 1 (c4Lit a b) (.evalC (.cons 0) (.atom 44)) =
      some (eval_success (.atom 7), c4Lit a b) := rfl

set_option maxHeartbeats 800000 in
theorem c4_head_mul (a b : Int) :
    run 1 (c4Lit a b) (.evalC (.cons 0) (.atom 45)) =
      some (eval_success (.atom 9), c4Lit a b) := rfl

set_option maxHeartbeats 800000 in
theorem c4_head_gt (a b : Int) :
    run 1 (c4Lit a b) (.evalC (.cons 0) (.atom 46)) =
      some (eval_success (.atom 5), c4Lit a b) := rfl

set_option maxHeartbeats 3000000 in
theorem c4_args_plus (a b : Int) :
    run 20 (c4Lit a b) (.evalAllArgsC (.cons 0) (.cons 42)) =
      some (eval_success (.cons 51), c4MidL a b) := rfl

set_option maxHeartbeats 3000000 in
theorem c4_args_mul (a b : Int) :
    run 20 (c4Lit a b) (.evalAllArgsC (.cons 0) (.cons 45)) =
      some (eval_success (.cons 51), c4MidL a b) := rfl

set_option maxHeartbeats 3000000 in
theorem c4_args_gt (a b : Int) :
    run 20 (c4Lit a b) (.evalAllArgsC (.cons 0) (.cons 48)) =
      some (eval_success (.cons 51), c4MidL a b) := rfl

/-! ## C4 support: promotion to real on mixed operand kinds -/

theorem is_num_atom_shape {gc : Gc} {e : Expr} (h : is_num_atom gc e = true) :
    ∃ i, e = Expr.atom i := by
  cases e with
  | atom i => exact ⟨i, rfl⟩
  | cons i => simp [is_num_atom, integer_p, real_p] at h
  | void => simp [is_num_atom, integer_p, real_p] at h

theorem is_num_atom_atom {gc : Gc} {i : Nat}
    (h : is_num_atom gc (.atom i) = true) :
    (∃ n : Int, gc.getAtom i = some (.integer n)) ∨
    (∃ q : ℚ, gc.getAtom i = some (.real q)) := by
  cases hA : gc.getAtom i with
  | none => simp [is_num_atom, integer_p, real_p, hA] at h
  | some p =>
    cases p with
    | integer n => exact Or.inl ⟨n, rfl⟩
    | real q => exact Or.inr ⟨q, rfl⟩
    | symbol s => simp [is_num_atom, integer_p, real_p, hA] at h
    | string s => simp [is_num_atom, integer_p, real_p, hA] at h
    | lam l => simp [is_num_atom, integer_p, real_p, hA] at h
    | native fn => simp [is_num_atom, integer_p, real_p, hA] at h

theorem is_num_atom_mono {g g' : Gc} {e : Expr} (hp : Gc.Preserves g g')
    (h : is_num_atom g e = true) : is_num_atom g' e = true := by
  obtain ⟨i, rfl⟩ := is_num_atom_shape h
  rcases is_num_atom_atom h with ⟨n, hn⟩ | ⟨q, hq⟩
  · simp [is_num_atom, integer_p, hp.atom hn]
  · simp [is_num_atom, real_p, hp.atom hq]

theorem real_p_mono {g g' : Gc} {e : Expr} (hp : Gc.Preserves g g')
    (h : real_p g e = true) : real_p g' e = true := by
  cases e with
  | atom i =>
    simp only [real_p] at h ⊢
    cases hA : g.getAtom i with
    | none => rw [hA] at h; cases h
    | some p => rw [hA] at h; rw [hp.atom hA]; exact h
  | cons i => simp [real_p] at h
  | void => simp [real_p] at h

theorem realPayload_atom {g : Gc} {i : Nat} {q : ℚ}
    (h : g.getAtom i = some (.real q)) : realPayload g (.atom i) = some q := by
  simp [realPayload, h]

theorem realFn_int {g : Gc} {i : Nat} {n : Int}
    (h : g.getAtom i = some (.integer n)) :
    realFn g (.atom i) =
      (eval_success (.atom g.atoms.length),
       (g.allocAtom (.real (n : ℚ))).2) := by
  simp [realFn, real_p, integer_p, intPayload, h, REAL, Gc.allocAtom]

theorem realFn_real {g : Gc} {i : Nat} {q : ℚ}
    (h : g.getAtom i = some (.real q)) :
    realFn g (.atom i) = (eval_success (.atom i), g) := by
  simp [realFn, real_p, h]

theorem plus2_num {g : Gc} {i j : Nat}
    (hi : is_num_atom g (.atom i) = true)
    (hj : is_num_atom g (.atom j) = true)
    (hmix : (integer_p g (.atom i) && integer_p g (.atom j)) = false) :
    ∃ k q g', plus2 g (.atom i) (.atom j) = (eval_success (.atom k), g') ∧
      g'.getAtom k = some (.real q) ∧ Gc.Preserves g g' ∧
      g'.conses = g.conses := by
  rcases is_num_atom_atom hi with ⟨n, hin⟩ | ⟨qi, hiq⟩ <;>
    rcases is_num_atom_atom hj with ⟨m, hjn⟩ | ⟨qj, hjq⟩
  · rw [integer_p_atom hin, integer_p_atom hjn] at hmix
    cases hmix
  · have hp1 : Gc.Preserves g ((g.allocAtom (.real (n : ℚ))).2) :=
      Gc.Preserves.allocAtom g _
    refine ⟨(g.allocAtom (.real (n : ℚ))).2.atoms.length, (n : ℚ) + qj,
      ((g.allocAtom (.real (n : ℚ))).2.allocAtom
        (.real ((n : ℚ) + qj))).2, ?_,
      Gc.allocAtom_getAtom_self _ _,
      hp1.trans (Gc.Preserves.allocAtom _ _), rfl⟩
    simp only [plus2, hmix, Bool.false_eq_true, if_false, realFn_int hin,
      eval_success_is_error, realFn_real (hp1.atom hjq), eval_success_expr,
      realPayload_atom (Gc.allocAtom_getAtom_self g (.real (n : ℚ))),
      realPayload_atom (hp1.atom hjq), Option.getD_some, REAL]
    rfl
  · have hp1 : Gc.Preserves g ((g.allocAtom (.real (m : ℚ))).2) :=
      Gc.Preserves.allocAtom g _
    refine ⟨(g.allocAtom (.real (m : ℚ))).2.atoms.length, qi + (m : ℚ),
      ((g.allocAtom (.real (m : ℚ))).2.allocAtom
        (.real (qi + (m : ℚ)))).2, ?_,
      Gc.allocAtom_getAtom_self _ _,
      hp1.trans (Gc.Preserves.allocAtom _ _), rfl⟩
    simp only [plus2, hmix, Bool.false_eq_true, if_false, realFn_real hiq,
      eval_success_is_error, realFn_int hjn, eval_success_expr,
      realPayload_atom (Gc.allocAtom_getAtom_self g (.real (m : ℚ))),
      realPayload_atom (hp1.atom hiq), Option.getD_some, REAL]
    rfl
  · refine ⟨g.atoms.length, qi + qj,
      (g.allocAtom (.real (qi + qj))).2, ?_,
      Gc.allocAtom_getAtom_self _ _, Gc.Preserves.allocAtom g _, rfl⟩
    simp only [plus2, hmix, Bool.false_eq_true, if_false, realFn_real hiq,
      eval_success_is_error, realFn_real hjq, eval_success_expr,
      realPayload_atom hiq, realPayload_atom hjq, Option.getD_some, REAL]
    rfl

theorem mul2_num {g : Gc} {i j : Nat}
    (hi : is_num_atom g (.atom i) = true)
    (hj : is_num_atom g (.atom j) = true)
    (hmix : (integer_p g (.atom i) && integer_p g (.atom j)) = false) :
    ∃ k q g', mul2 g (.atom i) (.atom j) = (eval_success (.atom k), g') ∧
      g'.getAtom k = some (.real q) ∧ Gc.Preserves g g' ∧
      g'.conses = g.conses := by
  rcases is_num_atom_atom hi with ⟨n, hin⟩ | ⟨qi, hiq⟩ <;>
    rcases is_num_atom_atom hj with ⟨m, hjn⟩ | ⟨qj, hjq⟩
  · rw [integer_p_atom hin, integer_p_atom hjn] at hmix
    cases hmix
  · have hp1 : Gc.Preserves g ((g.allocAtom (.real (n : ℚ))).2) :=
      Gc.Preserves.allocAtom g _
    refine ⟨(g.allocAtom (.real (n : ℚ))).2.atoms.length, (n : ℚ) * qj,
      ((g.allocAtom (.real (n : ℚ))).2.allocAtom
        (.real ((n : ℚ) * qj))).2, ?_,
      Gc.allocAtom_getAtom_self _ _,
      hp1.trans (Gc.Preserves.allocAtom _ _), rfl⟩
    simp only [mul2, hmix, Bool.false_eq_true, if_false, realFn_int hin,
      eval_success_is_error, realFn_real (hp1.atom hjq), eval_success_expr,
      realPayload_atom (Gc.allocAtom_getAtom_self g (.real (n : ℚ))),
      realPayload_atom (hp1.atom hjq), Option.getD_some, REAL]
    rfl
  · have hp1 : Gc.Preserves g ((g.allocAtom (.real (m : ℚ))).2) :=
      Gc.Preserves.allocAtom g _
    refine ⟨(g.allocAtom (.real (m : ℚ))).2.atoms.length, qi * (m : ℚ),
      ((g.allocAtom (.real (m : ℚ))).2.allocAtom
        (.real (qi * (m : ℚ)))).2, ?_,
      Gc.allocAtom_getAtom_self _ _,
      hp1.trans (Gc.Preserves.allocAtom _ _), rfl⟩
    simp only [mul2, hmix, Bool.false_eq_true, if_false, realFn_real hiq,
      eval_success_is_error, realFn_int hjn, eval_success_expr,
      realPayload_atom (Gc.allocAtom_getAtom_self g (.real (m : ℚ))),
      realPayload_atom (hp1.atom hiq), Option.getD_some, REAL]
    rfl
  · refine ⟨g.atoms.length, qi * qj,
      (g.allocAtom (.real (qi * qj))).2, ?_,
      Gc.allocAtom_getAtom_self _ _, Gc.Preserves.allocAtom g _, rfl⟩
    simp only [mul2, hmix, Bool.false_eq_true, if_false, realFn_real hiq,
      eval_success_is_error, realFn_real hjq, eval_success_expr,
      realPayload_atom hiq, realPayload_atom hjq, Option.getD_some, REAL]
    rfl

theorem arith_loop_realacc {op : Gc → Expr → Expr → EvalResult × Gc}
    (hop_num : ∀ (g : Gc) (i j : Nat),
      is_num_atom g (.atom i) = true → is_num_atom g (.atom j) = true →
      (integer_p g (.atom i) && integer_p g (.atom j)) = false →
      ∃ k q g', op g (.atom i) (.atom j) = (eval_success (.atom k), g') ∧
        g'.getAtom k = some (.real q) ∧ Gc.Preserves g g' ∧
        g'.conses = g.conses) :
    ∀ (es : List Expr) (f : Nat) (gc : Gc) (args : Expr) (ia : Nat) (qa : ℚ),
      es.length < f →
      IsHeapList gc args es →
      (∀ e ∈ es, is_num_atom gc e = true) →
      gc.getAtom ia = some (.real qa) →
      ∃ k q gcf,
        arith_op_loop op f gc args (.atom ia) = (eval_success (.atom k), gcf) ∧
        gcf.getAtom k = some (.real q) ∧ Gc.Preserves gc gcf ∧
        gcf.conses = gc.conses := by
  intro es
  induction es with
  | nil =>
    intro f gc args ia qa hf hlist hnum hacc
    obtain ⟨f', rfl⟩ := Nat.exists_eq_succ_of_ne_zero (by omega : f ≠ 0)
    cases hlist with
    | nil e hn =>
      refine ⟨ia, qa, gc, ?_, hacc, Gc.Preserves.refl gc, rfl⟩
      simp only [arith_op_loop, hn, if_true]
  | cons x es ih =>
    intro f gc args ia qa hf hlist hnum hacc
    obtain ⟨f', rfl⟩ := Nat.exists_eq_succ_of_ne_zero (by omega : f ≠ 0)
    cases hlist with
    | cons i cc es' hget htail =>
      have hxnum : is_num_atom gc cc.car = true :=
        hnum _ (List.mem_cons_self _ _)
      obtain ⟨ix, hxe⟩ := is_num_atom_shape hxnum
      have hianum : is_num_atom gc (.atom ia) = true := by
        simp [is_num_atom, real_p, hacc]
      have hmix : (integer_p gc (.atom ia) &&
          integer_p gc (.atom ix)) = false := by
        simp [integer_p, hacc]
      obtain ⟨k1, q1, g1, hop, hk1, hp1, hc1⟩ :=
        hop_num gc ia ix hianum (hxe ▸ hxnum) hmix
      have hcar : CAR gc (.cons i) = Expr.atom ix := by
        rw [CAR_cons hget, hxe]
      have hget1 : g1.getCons i = some cc := by
        simp only [Gc.getCons, hc1]
        exact hget
      have hcdr : CDR g1 (.cons i) = cc.cdr := CDR_cons hget1
      obtain ⟨k, q, gcf, hrun, hkq, hpf, hcf⟩ :=
        ih f' g1 cc.cdr k1 q1 (by simpa using hf)
          (IsHeapList_mono hp1 htail)
          (fun e he => is_num_atom_mono hp1 (hnum e (List.mem_cons_of_mem _ he)))
          hk1
      refine ⟨k, q, gcf, ?_, hkq, hp1.trans hpf, hcf.trans hc1⟩
      simp only [arith_op_loop, nil_p_cons, Bool.false_eq_true, if_false,
        cons_p, Bool.not_true, hcar, hop, eval_success_is_error,
        Bool.not_false, hcdr]
      exact hrun

theorem arith_loop_promote {op : Gc → Expr → Expr → EvalResult × Gc}
    {opf : Int → Int → Int}
    (hop : ∀ (g : Gc) (i j : Nat) (x y : Int),
      g.getAtom i = some (.integer x) → g.getAtom j = some (.integer y) →
      op g (.atom i) (.atom j) =
        (eval_success (.atom g.atoms.length),
         (g.allocAtom (.integer (opf x y))).2))
    (hop_num : ∀ (g : Gc) (i j : Nat),
      is_num_atom g (.atom i) = true → is_num_atom g (.atom j) = true →
      (integer_p g (.atom i) && integer_p g (.atom j)) = false →
      ∃ k q g', op g (.atom i) (.atom j) = (eval_success (.atom k), g') ∧
        g'.getAtom k = some (.real q) ∧ Gc.Preserves g g' ∧
        g'.conses = g.conses) :
    ∀ (es : List Expr) (f : Nat) (gc : Gc) (args : Expr) (ia : Nat)
      (accv : Int),
      es.length < f →
      IsHeapList gc args es →
      (∀ e ∈ es, is_num_atom gc e = true) →
      (∃ e, e ∈ es ∧ real_p gc e = true) →
      gc.getAtom ia = some (.integer accv) →
      ∃ k q gcf,
        arith_op_loop op f gc args (.atom ia) = (eval_success (.atom k), gcf) ∧
        gcf.getAtom k = some (.real q) ∧ Gc.Preserves gc gcf ∧
        gcf.conses = gc.conses := by
  intro es
  induction es with
  | nil =>
    intro f gc args ia accv hf hlist hnum hreal hacc
    obtain ⟨e, he, _⟩ := hreal
    simp at he
  | cons x es ih =>
    intro f gc args ia accv hf hlist hnum hreal hacc
    obtain ⟨f', rfl⟩ := Nat.exists_eq_succ_of_ne_zero (by omega : f ≠ 0)
    cases hlist with
    | cons i cc es' hget htail =>
      have hxnum : is_num_atom gc cc.car = true :=
        hnum _ (List.mem_cons_self _ _)
      obtain ⟨ix, hxe⟩ := is_num_atom_shape hxnum
      have hcar : CAR gc (.cons i) = Expr.atom ix := by
        rw [CAR_cons hget, hxe]
      rcases is_num_atom_atom (hxe ▸ hxnum) with ⟨m, hxm⟩ | ⟨qx, hxq⟩
      · -- integer head: the accumulator stays an integer
        obtain ⟨e, he, hre⟩ := hreal
        have hetail : e ∈ es := by
          rcases List.mem_cons.mp he with rfl | h
          · rw [hxe] at hre
            simp [real_p, hxm] at hre
          · exact h
        have hopr := hop gc ia ix accv m hacc hxm
        have hp1 : Gc.Preserves gc
            ((gc.allocAtom (.integer (opf accv m))).2) :=
          Gc.Preserves.allocAtom gc _
        have hcdr : CDR ((gc.allocAtom (.integer (opf accv m))).2) (.cons i) =
            cc.cdr := CDR_cons hget
        obtain ⟨k, q, gcf, hrun, hkq, hpf, hcf⟩ :=
          ih f' ((gc.allocAtom (.integer (opf accv m))).2) cc.cdr
            gc.atoms.length (opf accv m) (by simpa using hf)
            (IsHeapList_mono hp1 htail)
            (fun e he => is_num_atom_mono hp1
              (hnum e (List.mem_cons_of_mem _ he)))
            ⟨e, hetail, real_p_mono hp1 hre⟩
            (Gc.allocAtom_getAtom_self gc _)
        refine ⟨k, q, gcf, ?_, hkq, hp1.trans hpf, hcf⟩
        simp only [arith_op_loop, nil_p_cons, Bool.false_eq_true, if_false,
          cons_p, Bool.not_true, hcar, hopr, eval_success_is_error,
          Bool.not_false, hcdr]
        exact hrun
      · -- real head: the accumulator becomes real and stays real
        have hianum : is_num_atom gc (.atom ia) = true := by
          simp [is_num_atom, integer_p, hacc]
        have hmix : (integer_p gc (.atom ia) &&
            integer_p gc (.atom ix)) = false := by
          simp [integer_p, hxq]
        obtain ⟨k1, q1, g1, hopn, hk1, hp1, hc1⟩ :=
          hop_num gc ia ix hianum (hxe ▸ hxnum) hmix
        have hget1 : g1.getCons i = some cc := by
          simp only [Gc.getCons, hc1]
          exact hget
        have hcdr : CDR g1 (.cons i) = cc.cdr := CDR_cons hget1
        obtain ⟨k, q, gcf, hrun, hkq, hpf, hcf⟩ :=
          arith_loop_realacc hop_num es f' g1 cc.cdr k1 q1
            (by simpa using hf)
            (IsHeapList_mono hp1 htail)
            (fun e he => is_num_atom_mono hp1
              (hnum e (List.mem_cons_of_mem _ he)))
            hk1
        refine ⟨k, q, gcf, ?_, hkq, hp1.trans hpf, hcf.trans hc1⟩
        simp only [arith_op_loop, nil_p_cons, Bool.false_eq_true, if_false,
          cons_p, Bool.not_true, hcar, hopn, eval_success_is_error,
          Bool.not_false, hcdr]
        exact hrun

theorem plus_op_promote {gc : Gc} {args : Expr} {es : List Expr}
    (hlist : IsHeapList gc args es)
    (hnum : ∀ e ∈ es, is_num_atom gc e = true)
    (hreal : ∃ e, e ∈ es ∧ real_p gc e = true) :
    ∃ k q gcf, plus_op gc args = (eval_success (.atom k), gcf) ∧
      gcf.getAtom k = some (.real q) := by
  have hp1 : Gc.Preserves gc ((gc.allocAtom (.integer 0)).2) :=
    Gc.Preserves.allocAtom gc _
  have hlen := IsHeapList_length_le hlist
  obtain ⟨e, he, hre⟩ := hreal
  obtain ⟨k, q, gcf, hrun, hkq, _, _⟩ :=
    arith_loop_promote (fun g i j x y hi hj => plus2_int hi hj)
      (fun g i j hi hj hmix => plus2_num hi hj hmix) es
      (gc.conses.length + 1) ((gc.allocAtom (.integer 0)).2) args
      gc.atoms.length 0 (by omega)
      (IsHeapList_mono hp1 hlist)
      (fun e he => is_num_atom_mono hp1 (hnum e he))
      ⟨e, he, real_p_mono hp1 hre⟩
      (Gc.allocAtom_getAtom_self gc _)
  exact ⟨k, q, gcf, hrun, hkq⟩

theorem mul_op_promote {gc : Gc} {args : Expr} {es : List Expr}
    (hlist : IsHeapList gc args es)
    (hnum : ∀ e ∈ es, is_num_atom gc e = true)
    (hreal : ∃ e, e ∈ es ∧ real_p gc e = true) :
    ∃ k q gcf, mul_op gc args = (eval_success (.atom k), gcf) ∧
      gcf.getAtom k = some (.real q) := by
  have hp1 : Gc.Preserves gc ((gc.allocAtom (.integer 1)).2) :=
    Gc.Preserves.allocAtom gc _
  have hlen := IsHeapList_length_le hlist
  obtain ⟨e, he, hre⟩ := hreal
  obtain ⟨k, q, gcf, hrun, hkq, _, _⟩ :=
    arith_loop_promote (fun g i j x y hi hj => mul2_int hi hj)
      (fun g i j hi hj hmix => mul2_num hi hj hmix) es
      (gc.conses.length + 1) ((gc.allocAtom (.integer 1)).2) args
      gc.atoms.length 1 (by omega)
      (IsHeapList_mono hp1 hlist)
      (fun e he => is_num_atom_mono hp1 (hnum e he))
      ⟨e, he, real_p_mono hp1 hre⟩
      (Gc.allocAtom_getAtom_self gc _)
  exact ⟨k, q, gcf, hrun, hkq⟩

theorem c4_plus_end (a b : Int) :
    ∃ k gcf, Runs (c4Lit a b) (.evalC (.cons 0) (.cons 43))
      (eval_success (.atom k), gcf) ∧
      gcf.getAtom k = some (.integer (a + b)) := by
  obtain ⟨k, gcf, hrun, hkv, _, _⟩ := @plus_op_int
    (c4MidL a b) (.cons 51) [Expr.atom 42, Expr.atom 43] [a, b]
    (.cons 51 ⟨.atom 42, .cons 50⟩ _ rfl
      (.cons 50 ⟨.atom 43, .atom 15⟩ _ rfl (.nil _ rfl)))
    (.cons ⟨42, rfl, rfl⟩ (.cons ⟨43, rfl, rfl⟩ .nil))
  refine ⟨k, gcf, ?_, by simpa using hkv⟩
  refine runs_evalC_cons (show (c4Lit a b).getCons 43 =
    some ⟨Expr.atom 44, Expr.cons 42⟩ from rfl) ?_
  exact runs_evalFuncall_native (j := 7)
    ⟨1, c4_head_plus a b⟩ rfl ⟨20, c4_args_plus a b⟩ rfl
    ⟨1, by
      rw [show run 1 (c4MidL a b) (.nativeC .plusOpN (.cons 0) (.cons 51)) =
        some (plus_op (c4MidL a b) (.cons 51)) from rfl, hrun]⟩

theorem c4_mul_end (a b : Int) :
    ∃ k gcf, Runs (c4Lit a b) (.evalC (.cons 0) (.cons 46))
      (eval_success (.atom k), gcf) ∧
      gcf.getAtom k = some (.integer (a * b)) := by
  obtain ⟨k, gcf, hrun, hkv, _, _⟩ := @mul_op_int
    (c4MidL a b) (.cons 51) [Expr.atom 42, Expr.atom 43] [a, b]
    (.cons 51 ⟨.atom 42, .cons 50⟩ _ rfl
      (.cons 50 ⟨.atom 43, .atom 15⟩ _ rfl (.nil _ rfl)))
    (.cons ⟨42, rfl, rfl⟩ (.cons ⟨43, rfl, rfl⟩ .nil))
  refine ⟨k, gcf, ?_, by simpa using hkv⟩
  refine runs_evalC_cons (show (c4Lit a b).getCons 46 =
    some ⟨Expr.atom 45, Expr.cons 45⟩ from rfl) ?_
  exact runs_evalFuncall_native (j := 9)
    ⟨1, c4_head_mul a b⟩ rfl ⟨20, c4_args_mul a b⟩ rfl
    ⟨1, by
      rw [show run 1 (c4MidL a b) (.nativeC .mulOpN (.cons 0) (.cons 51)) =
        some (mul_op (c4MidL a b) (.cons 51)) from rfl, hrun]⟩

theorem c4_gt_end (a b : Int) :
    ∃ k gcf, Runs (c4Lit a b) (.evalC (.cons 0) (.cons 49))
      (eval_success (.atom k), gcf) ∧
      symPayload gcf (.atom k) = some (if a > b then "t" else "nil") := by
  obtain ⟨k, gcf, heq, hsym, _, _⟩ := @greaterThan_int2
    (c4MidL a b) 51 50 42 43 (.atom 15) a b rfl rfl rfl rfl rfl
  refine ⟨k, gcf, ?_, hsym⟩
  refine runs_evalC_cons (show (c4Lit a b).getCons 49 =
    some ⟨Expr.atom 46, Expr.cons 48⟩ from rfl) ?_
  exact runs_evalFuncall_native (j := 5)
    ⟨1, c4_head_gt a b⟩ rfl ⟨20, c4_args_gt a b⟩ rfl
    ⟨1, by
      rw [show run 1 (c4MidL a b)
          (.nativeC .greaterThanN (.cons 0) (.cons 51)) =
        some (greaterThan (c4MidL a b) (.cons 51)) from rfl, heq]⟩

/-! ## C4: arithmetic and comparison built-ins -/

/-- C4: for all integer payloads `a`, `b`, evaluating `(+ a b)` in the
standard scope yields the integer `a + b`, `(* a b)` yields `a * b`, and
`(> a b)` yields the symbol `t` exactly when `a > b` and `nil` otherwise.
`PlusOpFn` and `MulOpFn` are variadic folds over the whole argument list:
on any all-integer argument list they return the integer sum respectively
product, and as soon as any operand is a real atom (all operands numeric)
the result is promoted to a real atom. -/
theorem claim_C4 :
    (∀ a b : Int,
      (∃ k gcf, Runs (c4State stdGc a b).2
          (.evalC stdScope (c4State stdGc a b).1.1)
          (eval_success (.atom k), gcf) ∧
          gcf.getAtom k = some (.integer (a + b))) ∧
      (∃ k gcf, Runs (c4State stdGc a b).2
          (.evalC stdScope (c4State stdGc a b).1.2.1)
          (eval_success (.atom k), gcf) ∧
          gcf.getAtom k = some (.integer (a * b))) ∧
      (∃ k gcf, Runs (c4State stdGc a b).2
          (.evalC stdScope (c4State stdGc a b).1.2.2)
          (eval_success (.atom k), gcf) ∧
          symPayload gcf (.atom k) = some (if a > b then "t" else "nil"))) ∧
    (∀ (gc : Gc) (args : Expr) (es : List Expr) (vs : List Int),
      IsHeapList gc args es →
      List.Forall₂ (fun e v => ∃ i, e = Expr.atom i ∧
        gc.getAtom i = some (.integer v)) es vs →
      (∃ k gcf, plus_op gc args = (eval_success (.atom k), gcf) ∧
        gcf.getAtom k = some (.integer vs.sum)) ∧
      (∃ k gcf, mul_op gc args = (eval_success (.atom k), gcf) ∧
        gcf.getAtom k = some (.integer vs.prod))) ∧
    (∀ (gc : Gc) (args : Expr) (es : List Expr),
      IsHeapList gc args es →
      (∀ e ∈ es, is_num_atom gc e = true) →
      (∃ e, e ∈ es ∧ real_p gc e = true) →
      (∃ k q gcf, plus_op gc args = (eval_success (.atom k), gcf) ∧
        gcf.getAtom k = some (.real q)) ∧
      (∃ k q gcf, mul_op gc args = (eval_success (.atom k), gcf) ∧
        gcf.getAtom k = some (.real q))) := by
  refine ⟨?_, ?_, ?_⟩
  · intro a b
    rw [stdScope_lit, c4State_lit, c4State_forms]
    exact ⟨c4_plus_end a b, c4_mul_end a b, c4_gt_end a b⟩
  · intro gc args es vs hlist hfa
    obtain ⟨k1, gcf1, h1, h2, _, _⟩ := plus_op_int hlist hfa
    obtain ⟨k2, gcf2, h3, h4, _, _⟩ := mul_op_int hlist hfa
    exact ⟨⟨k1, gcf1, h1, h2⟩, ⟨k2, gcf2, h3, h4⟩⟩
  · intro gc args es hlist hnum hreal
    exact ⟨plus_op_promote hlist hnum hreal, mul_op_promote hlist hnum hreal⟩

/-- C4 witness: the all-integer list `(2 3)` sums to the integer `5`, and
the mixed list `(2 1/2)` multiplies to a real atom. -/
theorem claim_C4_witness :
    (∃ k gcf, plus_op c4WitState.2 c4WitState.1.1 =
        (eval_success (.atom k), gcf) ∧
      gcf.getAtom k = some (.integer 5)) ∧
    (∃ k q gcf, mul_op c4WitState.2 c4WitState.1.2 =
        (eval_success (.atom k), gcf) ∧
      gcf.getAtom k = some (.real q)) := by
  constructor
  · obtain ⟨k, gcf, h1, h2⟩ := (claim_C4.2.1 c4WitState.2 c4WitState.1.1
      [Expr.atom 0, Expr.atom 1] [2, 3]
      (.cons 1 ⟨.atom 0, .cons 0⟩ _ rfl
        (.cons 0 ⟨.atom 1, .atom 2⟩ _ rfl (.nil _ rfl)))
      (.cons ⟨0, rfl, rfl⟩ (.cons ⟨1, rfl, rfl⟩ .nil))).1
    exact ⟨k, gcf, h1, by simpa using h2⟩
  · exact (claim_C4.2.2 c4WitState.2 c4WitState.1.2
      [Expr.atom 0, Expr.atom 3]
      (.cons 3 ⟨.atom 0, .cons 2⟩ _ rfl
        (.cons 2 ⟨.atom 3, .atom 4⟩ _ rfl (.nil _ rfl)))
      (by decide)
      ⟨.atom 3, by decide, by decide⟩).2

/-! ## C2 support: the `QuasiquoteFn` argument probes -/

theorem Gc.Preserves.append (gc : Gc) (L : List (Option Atom))
    (M : List (Option Cons)) :
    Gc.Preserves gc ⟨gc.atoms ++ L, gc.conses ++ M⟩ := by
  constructor
  · intro i a h
    have hlt := Gc.getAtom_lt_of_some h
    show (gc.atoms ++ L).getD i none = some a
    rw [List.getD_append _ _ _ _ hlt]
    exact h
  · intro i c h
    have hlt := Gc.getCons_lt_of_some h
    show (gc.conses ++ M).getD i none = some c
    rw [List.getD_append _ _ _ _ hlt]
    exact h

theorem wrong_argument_type_preserves (gc : Gc) (t : String) (obj : Expr) :
    Gc.Preserves gc (wrong_argument_type gc t obj).2 := by
  rw [wrong_argument_type_form]
  exact Gc.Preserves.append gc _ _

theorem wrong_integer_of_arguments_preserves (gc : Gc) (n : Int) :
    Gc.Preserves gc (wrong_integer_of_arguments gc n).2 := by
  rw [wrong_integer_of_arguments_form]
  exact Gc.Preserves.append gc _ _

theorem match_list_post_preserves (gc : Gc) (format : List Char) (xs : Expr)
    (acc : List Expr) :
    Gc.Preserves gc (match_list_post gc format xs acc).2 := by
  simp only [match_list_post, NIL, SYMBOL, INTEGER, CONS, Gc.allocAtom,
    Gc.allocCons, wrong_integer_of_arguments]
  repeat' split
  all_goals
    first
      | exact Gc.Preserves.allocAtom gc _
      | exact (Gc.Preserves.allocAtom gc _).trans (Gc.Preserves.allocAtom _ _)
      | exact ((Gc.Preserves.allocAtom gc _).trans
          (Gc.Preserves.allocAtom _ _)).trans (Gc.Preserves.allocCons _ _)
      | exact (((Gc.Preserves.allocAtom gc _).trans
          (Gc.Preserves.allocAtom _ _)).trans
          (Gc.Preserves.allocAtom _ _)).trans (Gc.Preserves.allocCons _ _)

theorem match_list_loop_preserves :
    ∀ (format : List Char) (gc : Gc) (xs : Expr) (acc : List Expr),
      Gc.Preserves gc (match_list_loop gc format xs acc).2 := by
  intro format
  induction format with
  | nil => intro gc xs acc; exact match_list_post_preserves gc [] xs acc
  | cons c rest ih =>
    intro gc xs acc
    simp only [match_list_loop, NIL, SYMBOL]
    by_cases hn : nil_p gc xs = true
    · simp only [hn, if_true]
      exact match_list_post_preserves gc _ xs acc
    · simp only [hn, Bool.false_eq_true, if_false]
      by_cases hc : cons_p xs = true
      · simp only [hc, Bool.not_true, Bool.false_eq_true, if_false]
        split <;>
          first
            | exact ih gc _ _
            | exact (Gc.Preserves.allocAtom gc _).trans (ih _ _ _)
            | (split
               · exact wrong_argument_type_preserves gc _ _
               · exact ih gc _ _)
      · simp only [hc, Bool.not_false, if_true]
        exact wrong_argument_type_preserves gc _ _

theorem match_list_preserves (gc : Gc) (format : String) (xs : Expr) :
    Gc.Preserves gc (match_list gc format xs).2 :=
  match_list_loop_preserves format.toList gc xs []

theorem match_list_e_singleton {gc : Gc} {A : Nat} {x t : Expr}
    (hA : gc.getCons A = some ⟨x, t⟩) (ht : nil_p gc t = true) :
    match_list gc "e" (.cons A) =
      ((eval_success (.atom gc.atoms.length), [x]),
       (gc.allocAtom (.symbol "nil")).2) := by
  show match_list_loop gc ['e'] (.cons A) [] = _
  rw [match_list_loop_cons_known gc 'e' [] A ⟨x, t⟩ [] (by simp) hA]
  have hk : kindOK gc 'e' x = true := rfl
  simp only [hk, Bool.true_eq_false, if_false, match_list_loop,
    match_list_post, ht, if_true, NIL, SYMBOL, Gc.allocAtom,
    List.nil_append]

theorem match_list_qe_pair {gc : Gc} {X R U : Nat} {e t2 : Expr} {s : String}
    (hX : gc.getCons X = some ⟨.atom U, .cons R⟩)
    (hU : gc.getAtom U = some (.symbol s))
    (hR : gc.getCons R = some ⟨e, t2⟩) (ht2 : nil_p gc t2 = true) :
    match_list gc "qe" (.cons X) =
      ((eval_success (.atom gc.atoms.length), [.atom U, e]),
       (gc.allocAtom (.symbol "nil")).2) := by
  show match_list_loop gc ['q', 'e'] (.cons X) [] = _
  rw [match_list_loop_cons_known gc 'q' ['e'] X ⟨.atom U, .cons R⟩ []
    (by simp) hX]
  have hk : kindOK gc 'q' (Expr.atom U) = true := by
    simp [kindOK, symbol_p, hU]
  simp only [hk, Bool.true_eq_false, if_false]
  show match_list_loop gc ['e'] (.cons R) [Expr.atom U] = _
  rw [match_list_loop_cons_known gc 'e' [] R ⟨e, t2⟩ [Expr.atom U]
    (by simp) hR]
  have hk2 : kindOK gc 'e' e = true := rfl
  simp only [hk2, Bool.true_eq_false, if_false, match_list_loop,
    match_list_post, ht2, if_true, NIL, SYMBOL, Gc.allocAtom,
    List.cons_append, List.nil_append]

theorem match_list_qe_noncons {gc : Gc} {x : Expr} (hx : cons_p x = false) :
    (match_list gc "qe" x).1.1.is_error = true := by
  show (match_list_loop gc ['q', 'e'] x []).1.1.is_error = true
  simp only [match_list_loop]
  by_cases hn : nil_p gc x = true
  · simp only [hn, if_true, match_list_post]
    simp [wrong_integer_of_arguments_form]
  · simp only [hn, Bool.false_eq_true, if_false, hx, Bool.not_false, if_true]
    simp [wrong_argument_type_form]

/-! ## C2: the quasiquote characterisation -/

/-- C2: `QuasiquoteFn`, called on a one-element argument list `(x)`,
satisfies the three-case characterisation: if `x` is a cons `(unquote e)`
(car the symbol `unquote`, cdr a one-element list), the result is `eval(e)`
in the current scope (in the heap extended by the two probe allocations);
if `x` is any other cons, the result is a fresh cons of the quasiquotes of
`CAR(x)` and `CDR(x)` (each taken through the `CONS(·, NIL)` single-element
wrappers the code builds); and if `x` is an atom, the result is `x`
itself. -/
theorem claim_C2 :
    ∀ (gc : Gc) (scope args x t : Expr) (A : Nat),
      args = Expr.cons A → gc.getCons A = some ⟨x, t⟩ → nil_p gc t = true →
      (cons_p x = false →
        Runs gc (.quasiquoteC scope args) (eval_success x, (qqProbe gc x).2) ∧
        Gc.Preserves gc (qqProbe gc x).2) ∧
      (∀ (X U R : Nat) (e t2 : Expr),
        x = Expr.cons X → gc.getCons X = some ⟨.atom U, .cons R⟩ →
        gc.getAtom U = some (.symbol "unquote") →
        gc.getCons R = some ⟨e, t2⟩ → nil_p gc t2 = true →
        ∀ r, Runs (((gc.allocAtom (.symbol "nil")).2.allocAtom
            (.symbol "nil")).2) (.evalC scope e) r →
          Runs gc (.quasiquoteC scope args) r) ∧
      (∀ X : Nat, x = Expr.cons X →
        ((qqProbe gc x).1.1.is_error = true ∨
          symPayload (qqProbe gc x).2 ((qqProbe gc x).1.2.headD .void) ≠
            some "unquote") →
        ∀ (l r : Expr) (gc5 gc8 : Gc),
          Runs (qqLeft (qqProbe gc x).2 x).2
            (.quasiquoteC scope (qqLeft (qqProbe gc x).2 x).1)
            (eval_success l, gc5) →
          Runs (qqRight gc5 x).2 (.quasiquoteC scope (qqRight gc5 x).1)
            (eval_success r, gc8) →
          Runs gc (.quasiquoteC scope args)
            (eval_success (.cons gc8.conses.length),
             (gc8.allocCons ⟨l, r⟩).2)) := by
  intro gc scope args x t A hargs hA ht
  subst hargs
  have hfirst : match_list gc "e" (.cons A) =
      ((eval_success (.atom gc.atoms.length), [x]),
       (gc.allocAtom (.symbol "nil")).2) := match_list_e_singleton hA ht
  refine ⟨?_, ?_, ?_⟩
  · -- atom case
    intro hx
    constructor
    · refine ⟨1, ?_⟩
      show step (run 0) gc (.quasiquoteC scope (.cons A)) =
        some (eval_success x,
          (match_list ((gc.allocAtom (.symbol "nil")).2) "qe" x).2)
      simp only [step]
      rw [hfirst]
      simp only [eval_success_is_error, Bool.false_eq_true, if_false,
        List.headD_cons]
      rcases hqq : match_list ((gc.allocAtom (.symbol "nil")).2) "qe" x
        with ⟨⟨r2, m2⟩, gc2⟩
      have hq : r2.is_error = true := by
        have h0 := @match_list_qe_noncons ((gc.allocAtom (.symbol "nil")).2)
          x hx
        rw [hqq] at h0
        exact h0
      simp only [hq, Bool.not_true, Bool.false_and, Bool.false_eq_true,
        if_false, hx]
    · exact (Gc.Preserves.allocAtom gc _).trans
        (match_list_preserves _ "qe" x)
  · -- unquote case
    intro X U R e t2 hxX hX hU hR ht2 r hr
    subst hxX
    obtain ⟨f, hf⟩ := hr
    refine ⟨f + 1, ?_⟩
    show step (run f) gc (.quasiquoteC scope (.cons A)) = some r
    simp only [step]
    rw [hfirst]
    simp only [eval_success_is_error, Bool.false_eq_true, if_false,
      List.headD_cons]
    have hsecond : match_list ((gc.allocAtom (.symbol "nil")).2) "qe"
        (.cons X) =
        ((eval_success (.atom ((gc.allocAtom (.symbol "nil")).2).atoms.length),
          [.atom U, e]),
         (((gc.allocAtom (.symbol "nil")).2).allocAtom (.symbol "nil")).2) :=
      match_list_qe_pair hX ((Gc.Preserves.allocAtom gc _).atom hU) hR
        (nil_p_mono (Gc.Preserves.allocAtom gc _) ht2)
    rw [hsecond]
    have hsp : symPayload
        (((gc.allocAtom (.symbol "nil")).2.allocAtom (.symbol "nil")).2)
        (.atom U) = some "unquote" :=
      symPayload_mono ((Gc.Preserves.allocAtom gc _).trans
        (Gc.Preserves.allocAtom _ _)) (by simp [symPayload, hU])
    simp only [eval_success_is_error, Bool.not_false, List.headD_cons,
      Bool.true_and, hsp, beq_self_eq_true, if_true, List.getD_cons_succ,
      List.getD_cons_zero, Bool.false_eq_true, if_false]
    exact hf
  · -- general cons case
    intro X hxX hcond l r gc5 gc8 hl hr
    subst hxX
    obtain ⟨f1, hf1⟩ := hl
    obtain ⟨f2, hf2⟩ := hr
    have hl' := run_mono (show f1 ≤ f1 + f2 by omega) _ _ _ hf1
    have hr' := run_mono (show f2 ≤ f1 + f2 by omega) _ _ _ hf2
    refine ⟨f1 + f2 + 1, ?_⟩
    show step (run (f1 + f2)) gc (.quasiquoteC scope (.cons A)) = _
    simp only [step]
    rw [hfirst]
    simp only [eval_success_is_error, Bool.false_eq_true, if_false,
      List.headD_cons]
    rcases hqq : match_list ((gc.allocAtom (.symbol "nil")).2) "qe" (.cons X)
      with ⟨⟨r2, m2⟩, gc2⟩
    have hcF : (!r2.is_error &&
        (symPayload gc2 (m2.headD .void) == some "unquote")) = false := by
      rcases hcond with hc | hc
      · simp only [qqProbe] at hc
        rw [hqq] at hc
        have hq : r2.is_error = true := hc
        rw [hq]
        rfl
      · simp only [qqProbe] at hc
        rw [hqq] at hc
        have hb : (symPayload gc2 (m2.headD .void) == some "unquote")
            = false := by
          rw [beq_eq_false_iff_ne]
          exact hc
        rw [hb, Bool.and_false]
    rw [hcF]
    simp only [Bool.false_eq_true, if_false, cons_p, if_true]
    simp only [NIL, SYMBOL, CONS, Gc.allocAtom, Gc.allocCons]
    simp only [qqLeft, qqProbe] at hl'
    rw [hqq] at hl'
    simp only [NIL, SYMBOL, CONS, Gc.allocAtom, Gc.allocCons] at hl'
    rw [hl']
    simp only [eval_success_is_error, Bool.false_eq_true, if_false,
      eval_success_expr]
    simp only [qqRight, NIL, SYMBOL, CONS, Gc.allocAtom, Gc.allocCons] at hr'
    rw [hr']
    simp only [eval_success_is_error, Bool.false_eq_true, if_false,
      eval_success_expr]

/-- C2 witness: quasiquoting the one-element list `((unquote 5))` evaluates
the integer `5`, yielding it unchanged. -/
theorem claim_C2_witness :
    Runs c2WitState (.quasiquoteC .void (.cons 2))
      (eval_success (.atom 1),
       ((c2WitState.allocAtom (.symbol "nil")).2.allocAtom
         (.symbol "nil")).2) :=
  (claim_C2 c2WitState .void (.cons 2) (.cons 1) (.atom 3) 2 rfl (by decide)
    (by decide)).2.1 1 0 0 (.atom 1) (.atom 2) rfl (by decide) (by decide)
    (by decide) (by decide) _ ⟨1, by decide⟩

/-! ## C1: special forms get raw arguments; all other heads get them
evaluated -/

theorem claim_C1_cex :
    is_special "unquote" = false ∧
    runRead 30 c1CexState.2 stdScope c1CexState.1 =
      some (true, .consV (.sym "void-variable") (.sym "z")) ∧
    SVal.consV (.sym "void-variable") (.sym "z") ≠
      SVal.str "Using unquote outside of quasiquote." :=
  ⟨by decide, by decide, by decide⟩

/-- C1 (amended): the special-form names are exactly the eight-element set
`{set, quote, begin, defun, lambda, λ, when, quasiquote}` — `unquote` is
*not* among them, so its arguments are evaluated like any other call.  A
special head (a symbol bound to a callable) receives its argument list raw;
for every other head `eval_all_args` evaluates the elements left to right,
threading the heap, stops at the first error, and builds the result as a
fresh cons chain of the evaluated values whose terminal is the evaluation
of the argument list's own terminal (the scope's `nil` binding value for a
proper list in the standard scope). -/
theorem claim_C1 :
    (∀ s : String, is_special s = true ↔
      s ∈ (["set", "quote", "begin", "defun", "lambda", "λ", "when",
        "quasiquote"] : List String)) ∧
    is_special "unquote" = false ∧
    (∀ (gc gc1 : Gc) (scope callable args : Expr) (j : Nat) (fn : NativeId)
        (out : EvalResult × Gc),
      Runs gc (.evalC scope callable) (eval_success (.atom j), gc1) →
      (symbol_p gc1 callable &&
        is_special ((symPayload gc1 callable).getD "")) = true →
      gc1.getAtom j = some (.native fn) →
      Runs gc1 (.nativeC fn scope args) out →
      Runs gc (.evalFuncallC scope callable args) out) ∧
    (∀ (gc : Gc) (scope : Expr) (i : Nat) (cc : Cons),
      gc.getCons i = some cc →
      (∀ r gc1, r.is_error = true →
        Runs gc (.evalC scope cc.car) (r, gc1) →
        Runs gc (.evalAllArgsC scope (.cons i)) (r, gc1)) ∧
      (∀ v gc1 r gc2, Runs gc (.evalC scope cc.car) (eval_success v, gc1) →
        r.is_error = true →
        Runs gc1 (.evalAllArgsC scope cc.cdr) (r, gc2) →
        Runs gc (.evalAllArgsC scope (.cons i)) (r, gc2)) ∧
      (∀ v gc1 vs gc2, Runs gc (.evalC scope cc.car) (eval_success v, gc1) →
        Runs gc1 (.evalAllArgsC scope cc.cdr) (eval_success vs, gc2) →
        Runs gc (.evalAllArgsC scope (.cons i))
          (eval_success (.cons gc2.conses.length),
           (gc2.allocCons ⟨v, vs⟩).2))) ∧
    (∀ (gc : Gc) (scope : Expr) (j : Nat) (s : String) (cell : Expr),
      gc.getAtom j = some (.symbol s) →
      get_scope_value gc scope (.atom j) = cell →
      nil_p gc cell = false →
      Runs gc (.evalAllArgsC scope (.atom j))
        (eval_success (CDR gc cell), gc)) := by
  refine ⟨?_, by decide, ?_, ?_, ?_⟩
  · intro s
    simp [is_special, specials]
  · -- special heads receive the raw argument list
    intro gc gc1 scope callable args j fn out hhead hspec hnat hout
    obtain ⟨f1, h1⟩ := hhead
    obtain ⟨f3, h3⟩ := hout
    have h1' := run_mono (show f1 ≤ f1 + f3 by omega) _ _ _ h1
    have h3' := run_mono (show f3 ≤ f1 + f3 by omega) _ _ _ h3
    refine ⟨f1 + f3 + 1, ?_⟩
    show step (run (f1 + f3)) gc (.evalFuncallC scope callable args) =
      some out
    simp only [step]
    rw [h1']
    simp only [eval_success_is_error, Bool.false_eq_true, if_false]
    rw [hspec]
    simp only [if_true, eval_success_is_error, Bool.false_eq_true, if_false,
      eval_success_expr]
    rw [hnat]
    exact h3'
  · -- ordered evaluation of the argument list
    intro gc scope i cc hget
    refine ⟨?_, ?_, ?_⟩
    · intro r gc1 herr hr
      obtain ⟨f, hf⟩ := hr
      refine ⟨f + 1, ?_⟩
      show step (run f) gc (.evalAllArgsC scope (.cons i)) = some (r, gc1)
      simp only [step, hget]
      rw [hf]
      simp only [herr, if_true]
    · intro v gc1 r gc2 hcar herr htail
      obtain ⟨f1, h1⟩ := hcar
      obtain ⟨f2, h2⟩ := htail
      have h1' := run_mono (show f1 ≤ f1 + f2 by omega) _ _ _ h1
      have h2' := run_mono (show f2 ≤ f1 + f2 by omega) _ _ _ h2
      refine ⟨f1 + f2 + 1, ?_⟩
      show step (run (f1 + f2)) gc (.evalAllArgsC scope (.cons i)) =
        some (r, gc2)
      simp only [step, hget]
      rw [h1']
      simp only [eval_success_is_error, Bool.false_eq_true, if_false,
        eval_success_expr]
      rw [h2']
      simp only [herr, if_true]
    · intro v gc1 vs gc2 hcar htail
      obtain ⟨f1, h1⟩ := hcar
      obtain ⟨f2, h2⟩ := htail
      have h1' := run_mono (show f1 ≤ f1 + f2 by omega) _ _ _ h1
      have h2' := run_mono (show f2 ≤ f1 + f2 by omega) _ _ _ h2
      refine ⟨f1 + f2 + 1, ?_⟩
      show step (run (f1 + f2)) gc (.evalAllArgsC scope (.cons i)) = _
      simp only [step, hget]
      rw [h1']
      simp only [eval_success_is_error, Bool.false_eq_true, if_false,
        eval_success_expr]
      rw [h2']
      simp only [eval_success_is_error, Bool.false_eq_true, if_false,
        eval_success_expr, CONS]
      rfl
  · -- the terminal of the argument list is itself evaluated
    intro gc scope j s cell hsym hlook hnnil
    refine ⟨1, ?_⟩
    show step (run 0) gc (.evalAllArgsC scope (.atom j)) =
      some (eval_success (CDR gc cell), gc)
    simp only [step, eval_atom, hsym, hlook, hnnil, Bool.false_eq_true,
      if_false]

/-- C1 witness: the special head `quote` receives its argument list raw —
`(quote z)` evaluates to the unevaluated symbol `z` — and the ordered
argument evaluation composes: the terminal `nil` of an argument list
resolves to the standard `nil` binding. -/
theorem claim_C1_witness :
    (Runs c1WitState.2 (.evalFuncallC stdScope c1WitState.1.1
        c1WitState.1.2) c1WitOut ∧
      c1WitOut.1 = eval_success (.atom 43)) ∧
    Runs c1WitState.2 (.evalAllArgsC stdScope (.atom 44))
      (eval_success (CDR c1WitState.2 (.cons 13)), c1WitState.2) := by
  constructor
  · constructor
    · exact claim_C1.2.2.1 c1WitState.2 c1WitState.2 stdScope
        c1WitState.1.1 c1WitState.1.2 23 .quoteN c1WitOut
        ⟨1, by decide⟩ (by decide) (by decide) ⟨2, by decide⟩
    · decide
  · exact claim_C1.2.2.2.2 c1WitState.2 stdScope 44 "nil" (.cons 13)
      (by decide) (by decide) (by decide)

/-! ## C3: scope mutation and lookup -/

theorem Gc.setCar_getCons_self {gc : Gc} {i : Nat} {c : Cons}
    (h : gc.getCons i = some c) (e : Expr) :
    (gc.setCar i e).getCons i = some ⟨e, c.cdr⟩ := by
  have hlt : i < gc.conses.length := Gc.getCons_lt_of_some h
  simp only [Gc.setCar, h]
  show (gc.conses.set i (some ⟨e, c.cdr⟩)).getD i none = some ⟨e, c.cdr⟩
  rw [List.getD_eq_getElem?_getD, List.getElem?_set_self (by simpa using hlt)]
  rfl

theorem Gc.setCdr_getCons_self {gc : Gc} {i : Nat} {c : Cons}
    (h : gc.getCons i = some c) (e : Expr) :
    (gc.setCdr i e).getCons i = some ⟨c.car, e⟩ := by
  have hlt : i < gc.conses.length := Gc.getCons_lt_of_some h
  simp only [Gc.setCdr, h]
  show (gc.conses.set i (some ⟨c.car, e⟩)).getD i none = some ⟨c.car, e⟩
  rw [List.getD_eq_getElem?_getD, List.getElem?_set_self (by simpa using hlt)]
  rfl

/-- C3: `set_scope_value_impl` scans the frames head-to-tail: a binding
found by `assoc` in the current frame is mutated in place through its
`cdr`; when the frame misses and the spine continues, it recurses with the
scope expression unchanged; when the frame misses at the global frame (the
spine `cdr` is `nil`), the new binding is spliced into the frame through
`setCar` on the *same* spine cell, whose index and `cdr` are preserved (so
closures holding that cell observe the addition).  `get_scope_value_impl`
performs the same head-to-tail scan.  End to end in the standard scope:
`(begin (set a 1) (set a 2) a)` evaluates to `2`, and
`(begin (defun g () a) (set a 3) (g))` evaluates to `3`. -/
theorem claim_C3 :
    (∀ (f : Nat) (gc : Gc) (name value : Expr) (i j : Nat) (c : Cons),
      gc.getCons i = some c →
      assoc gc name c.car = .cons j →
      set_scope_value_impl_fueled name value (f + 1) gc (.cons i) =
        (.cons i, gc.setCdr j value)) ∧
    (∀ (f : Nat) (gc : Gc) (name value : Expr) (i : Nat) (c : Cons),
      gc.getCons i = some c →
      nil_p gc (assoc gc name c.car) = true →
      nil_p gc c.cdr = false →
      set_scope_value_impl_fueled name value (f + 1) gc (.cons i) =
        (.cons i,
         (set_scope_value_impl_fueled name value f gc c.cdr).2)) ∧
    (∀ (f : Nat) (gc : Gc) (name value : Expr) (i : Nat) (c : Cons),
      gc.getCons i = some c →
      nil_p gc (assoc gc name c.car) = true →
      nil_p gc c.cdr = true →
      set_scope_value_impl_fueled name value (f + 1) gc (.cons i) =
        (.cons i,
         (((gc.allocCons ⟨name, value⟩).2.allocCons
             ⟨.cons gc.conses.length, c.car⟩).2).setCar i
           (.cons (gc.conses.length + 1))) ∧
      ((((gc.allocCons ⟨name, value⟩).2.allocCons
          ⟨.cons gc.conses.length, c.car⟩).2).setCar i
         (.cons (gc.conses.length + 1))).getCons i =
        some ⟨.cons (gc.conses.length + 1), c.cdr⟩) ∧
    (∀ (f : Nat) (gc : Gc) (name : Expr) (i : Nat) (c : Cons),
      gc.getCons i = some c →
      (nil_p gc (assoc gc name c.car) = false →
        get_scope_value_impl_fueled gc name (f + 1) (.cons i) =
          assoc gc name c.car) ∧
      (nil_p gc (assoc gc name c.car) = true →
        get_scope_value_impl_fueled gc name (f + 1) (.cons i) =
          get_scope_value_impl_fueled gc name f c.cdr)) ∧
    runRead 60 c3Law1State.2 stdScope c3Law1State.1 =
      some (false, .int 2) ∧
    runRead 80 c3Law2State.2 stdScope c3Law2State.1 =
      some (false, .int 3) := by
  refine ⟨?_, ?_, ?_, ?_, by decide, by decide⟩
  · intro f gc name value i j c hget hassoc
    simp only [set_scope_value_impl_fueled, hget, hassoc, nil_p_cons,
      Bool.not_false, if_true]
  · intro f gc name value i c hget hassoc hcdr
    simp only [set_scope_value_impl_fueled, hget, hassoc, Bool.not_true,
      Bool.false_eq_true, if_false, hcdr]
  · intro f gc name value i c hget hassoc hcdr
    constructor
    · simp only [set_scope_value_impl_fueled, hget, hassoc, Bool.not_true,
        Bool.false_eq_true, if_false, hcdr, if_true, CONS, Gc.allocCons,
        List.length_append, List.length_cons, List.length_nil,
        List.append_assoc, List.cons_append, List.nil_append]
    · have hget2 : (((gc.allocCons ⟨name, value⟩).2.allocCons
          ⟨.cons gc.conses.length, c.car⟩).2).getCons i = some c :=
        ((Gc.Preserves.allocCons gc _).trans
          (Gc.Preserves.allocCons _ _)).cons hget
      exact Gc.setCar_getCons_self hget2 _
  · intro f gc name i c hget
    constructor
    · intro hfound
      simp only [get_scope_value_impl_fueled, hget, hfound,
        Bool.false_eq_true, if_false]
    · intro hmiss
      simp only [get_scope_value_impl_fueled, hget, hmiss, if_true]

/-- C3 witness: in the scope `((a . 1))` (spine cell `.cons 2`, frame
`.cons 1`, binding cell `.cons 0`), setting `a` to the fresh `2` atom
mutates the binding cell's `cdr` in place. -/
theorem claim_C3_witness :
    set_scope_value_impl_fueled (.atom 0) (.atom 4) 4 c3WitState
      (.cons 2) = (.cons 2, c3WitState.setCdr 0 (.atom 4)) :=
  claim_C3.1 3 c3WitState (.atom 0) (.atom 4) 2 0 ⟨.cons 1, .atom 3⟩
    (by decide) (by decide)

/-! ## C6 support: soundness and completeness of the mark phase -/

theorem gc_mark_sound {gc : Gc} {r0 : GcRef} :
    ∀ (f : Nat) (vis : List GcRef) (ws : List Expr) (vis' : List GcRef),
      gc_mark f gc vis ws = some vis' →
      (∀ r ∈ vis, Reach gc r0 r) →
      (∀ e ∈ ws, ∀ r', toRef e = some r' → Reach gc r0 r') →
      ∀ r ∈ vis', Reach gc r0 r := by
  intro f
  induction f with
  | zero => intro vis ws vis' h; cases h
  | succ f ih =>
    intro vis ws vis' h hvis hws
    match ws with
    | [] =>
      simp only [gc_mark, Option.some.injEq] at h
      subst h
      exact hvis
    | e :: rest =>
      simp only [gc_mark] at h
      cases htr : toRef e with
      | none => rw [htr] at h; cases h
      | some r =>
        simp only [htr] at h
        have hre : Reach gc r0 r := hws e (List.mem_cons_self _ _) r htr
        by_cases hmem : r ∈ vis
        · rw [if_pos hmem] at h
          exact ih vis rest vis' h hvis
            (fun e' he' => hws e' (List.mem_cons_of_mem _ he'))
        · rw [if_neg hmem] at h
          cases hch : exprChildren gc r with
          | none => rw [hch] at h; cases h
          | some children =>
            simp only [hch] at h
            refine ih (r :: vis) (children ++ rest) vis' h ?_ ?_
            · intro r' hr'
              rcases List.mem_cons.mp hr' with rfl | hr'
              · exact hre
              · exact hvis r' hr'
            · intro e' he' r' htr'
              rcases List.mem_append.mp he' with he' | he'
              · exact Reach.step hre hch he' htr'
              · exact hws e' (List.mem_cons_of_mem _ he') r' htr'

theorem gc_mark_closed {gc : Gc} :
    ∀ (f : Nat) (vis : List GcRef) (ws : List Expr) (vis' : List GcRef),
      gc_mark f gc vis ws = some vis' →
      (∀ r ∈ vis', r ∈ vis ∨ ∃ ch, exprChildren gc r = some ch ∧
        ∀ e ∈ ch, ∃ r', toRef e = some r' ∧ r' ∈ vis') ∧
      (∀ e ∈ ws, ∃ r', toRef e = some r' ∧ r' ∈ vis') ∧
      (∀ r ∈ vis, r ∈ vis') := by
  intro f
  induction f with
  | zero => intro vis ws vis' h; cases h
  | succ f ih =>
    intro vis ws vis' h
    match ws with
    | [] =>
      simp only [gc_mark, Option.some.injEq] at h
      subst h
      exact ⟨fun r hr => Or.inl hr, fun e he => absurd he (by simp),
        fun r hr => hr⟩
    | e :: rest =>
      simp only [gc_mark] at h
      cases htr : toRef e with
      | none => rw [htr] at h; cases h
      | some r =>
        simp only [htr] at h
        by_cases hmem : r ∈ vis
        · rw [if_pos hmem] at h
          obtain ⟨h1, h2, h3⟩ := ih vis rest vis' h
          refine ⟨h1, ?_, h3⟩
          intro e' he'
          rcases List.mem_cons.mp he' with rfl | he'
          · exact ⟨r, htr, h3 r hmem⟩
          · exact h2 e' he'
        · rw [if_neg hmem] at h
          cases hch : exprChildren gc r with
          | none => rw [hch] at h; cases h
          | some children =>
            simp only [hch] at h
            obtain ⟨h1, h2, h3⟩ := ih (r :: vis) (children ++ rest) vis' h
            have hrv : r ∈ vis' := h3 r (List.mem_cons_self _ _)
            refine ⟨?_, ?_, fun r' hr' => h3 r' (List.mem_cons_of_mem _ hr')⟩
            · intro r' hr'
              rcases h1 r' hr' with hin | hcl
              · rcases List.mem_cons.mp hin with rfl | hin
                · exact Or.inr ⟨children, hch,
                    fun e' he' => h2 e' (List.mem_append_left _ he')⟩
                · exact Or.inl hin
              · exact Or.inr hcl
            · intro e' he'
              rcases List.mem_cons.mp he' with rfl | he'
              · exact ⟨r, htr, hrv⟩
              · exact h2 e' (List.mem_append_right _ he')

theorem sweepAtoms_getD (vis : List GcRef) :
    ∀ (l : List (Option Atom)) (i k : Nat),
      (sweepAtoms vis i l).getD k none =
        if GcRef.a (i + k) ∈ vis then l.getD k none else none := by
  intro l
  induction l with
  | nil =>
    intro i k
    simp only [sweepAtoms, List.getD]
    split <;> simp
  | cons a rest ih =>
    intro i k
    match k with
    | 0 => simp [sweepAtoms]
    | k + 1 =>
      simp only [sweepAtoms, List.getD_cons_succ]
      rw [ih (i + 1) k]
      have : i + 1 + k = i + (k + 1) := by omega
      rw [this]

theorem sweepConses_getD (vis : List GcRef) :
    ∀ (l : List (Option Cons)) (i k : Nat),
      (sweepConses vis i l).getD k none =
        if GcRef.c (i + k) ∈ vis then l.getD k none else none := by
  intro l
  induction l with
  | nil =>
    intro i k
    simp only [sweepConses, List.getD]
    split <;> simp
  | cons c rest ih =>
    intro i k
    match k with
    | 0 => simp [sweepConses]
    | k + 1 =>
      simp only [sweepConses, List.getD_cons_succ]
      rw [ih (i + 1) k]
      have : i + 1 + k = i + (k + 1) := by omega
      rw [this]

/-! ## C6: garbage collection preserves exactly the reachable objects -/

/-- C6: when `gc_collect(root)` completes, every object reachable from the
root — following cons cars/cdrs and lambda parameter lists, bodies and
captured environments — keeps its slot and payload unchanged, and exactly
the slots of unreachable objects are destroyed (overwritten with the void
tombstone).  In particular (witness) a scope's bindings survive a
collection rooted at the scope while garbage is reclaimed. -/
theorem claim_C6 :
    ∀ (gc : Gc) (root : Expr) (r0 : GcRef) (gc' : Gc),
      toRef root = some r0 →
      gc_collect gc root = some gc' →
      (∀ i, Reach gc r0 (.a i) → gc'.getAtom i = gc.getAtom i) ∧
      (∀ i, Reach gc r0 (.c i) → gc'.getCons i = gc.getCons i) ∧
      (∀ i, ¬ Reach gc r0 (.a i) → gc'.getAtom i = none) ∧
      (∀ i, ¬ Reach gc r0 (.c i) → gc'.getCons i = none) := by
  intro gc root r0 gc' htr hcol
  simp only [gc_collect] at hcol
  cases hmark : gc_mark (4 * (gc.atoms.length + gc.conses.length) + 8) gc []
      [root] with
  | none => rw [hmark] at hcol; cases hcol
  | some vis =>
    rw [hmark] at hcol
    simp only [Option.some.injEq] at hcol
    subst hcol
    have hsound := @gc_mark_sound gc r0 _ [] [root] vis hmark
      (by simp)
      (by
        intro e he r' htr'
        simp only [List.mem_singleton] at he
        subst he
        rw [htr] at htr'
        cases htr'
        exact Reach.base)
    obtain ⟨hclosed, hws, _⟩ := gc_mark_closed _ [] [root] vis hmark
    have hcomplete : ∀ r, Reach gc r0 r → r ∈ vis := by
      intro r hr
      induction hr with
      | base =>
        obtain ⟨r', htr', hr'⟩ := hws root (List.mem_singleton_self _)
        rw [htr] at htr'
        cases htr'
        exact hr'
      | step hra hch hmem htr' ih =>
        rcases hclosed _ ih with hin | ⟨ch2, hch2, hall⟩
        · simp at hin
        · rw [hch] at hch2
          cases hch2
          obtain ⟨r'', htr'', hr''⟩ := hall _ hmem
          rw [htr'] at htr''
          cases htr''
          exact hr''
    refine ⟨?_, ?_, ?_, ?_⟩
    · intro i hr
      show (sweepAtoms vis 0 gc.atoms).getD i none = _
      rw [sweepAtoms_getD vis gc.atoms 0 i]
      simp only [Nat.zero_add, if_pos (hcomplete _ hr)]
      rfl
    · intro i hr
      show (sweepConses vis 0 gc.conses).getD i none = _
      rw [sweepConses_getD vis gc.conses 0 i]
      simp only [Nat.zero_add, if_pos (hcomplete _ hr)]
      rfl
    · intro i hr
      show (sweepAtoms vis 0 gc.atoms).getD i none = none
      rw [sweepAtoms_getD vis gc.atoms 0 i]
      have : GcRef.a (0 + i) ∉ vis := by
        intro hmem
        exact hr (hsound _ (by simpa using hmem))
      rw [if_neg this]
    · intro i hr
      show (sweepConses vis 0 gc.conses).getD i none = none
      rw [sweepConses_getD vis gc.conses 0 i]
      have : GcRef.c (0 + i) ∉ vis := by
        intro hmem
        exact hr (hsound _ (by simpa using hmem))
      rw [if_neg this]

/-- C6 witness: collecting the witness heap rooted at the scope keeps the
scope spine, the frame and the `(a . 1)` binding byte-for-byte (the lookup
still resolves `a` to the same `1` atom), and voids exactly the garbage
atom and cons. -/
theorem claim_C6_witness :
    gc_collect c6State (.cons 2) = some c6Collected ∧
    c6Collected.getCons 0 = c6State.getCons 0 ∧
    c6Collected.getAtom 1 = some (.integer 1) ∧
    CDR c6Collected (get_scope_value c6Collected (.cons 2) (.atom 0)) =
      .atom 1 ∧
    c6Collected.getAtom 4 = none ∧
    c6Collected.getCons 3 = none := by
  have hcol : gc_collect c6State (.cons 2) = some c6Collected := by decide
  have hreach1 : Reach c6State (.c 2) (.c 1) :=
    @Reach.step c6State (.c 2) (.c 2) (.c 1) [Expr.cons 1, Expr.atom 3]
      (Expr.cons 1) Reach.base (by decide) (by decide) rfl
  have hreach0 : Reach c6State (.c 2) (.c 0) :=
    @Reach.step c6State (.c 2) (.c 1) (.c 0) [Expr.cons 0, Expr.atom 2]
      (Expr.cons 0) hreach1 (by decide) (by decide) rfl
  have hreachA1 : Reach c6State (.c 2) (.a 1) :=
    @Reach.step c6State (.c 2) (.c 0) (.a 1) [Expr.atom 0, Expr.atom 1]
      (Expr.atom 1) hreach0 (by decide) (by decide) rfl
  obtain ⟨hA, hC, hA0, hC0⟩ :=
    claim_C6 c6State (.cons 2) (.c 2) c6Collected rfl hcol
  refine ⟨hcol, hC 0 hreach0, ?_, by decide, ?_, ?_⟩
  · rw [hA 1 hreachA1]
    decide
  · exact hA0 4 (by
      intro hr
      have := hA 4 hr
      rw [show c6Collected.getAtom 4 = none from by decide] at this
      rw [show c6State.getAtom 4 = some (.integer 99) from by decide] at this
      cases this)
  · exact hC0 3 (by
      intro hr
      have := hC 3 hr
      rw [show c6Collected.getCons 3 = none from by decide] at this
      rw [show c6State.getCons 3 = some ⟨.atom 4, .atom 4⟩ from by
        decide] at this
      cases this)

/-! ### C8: the print/parse round trip (`spec.md` §8) -/

/-- C8: code bug — the round-trip property fails.  Parsing the
six-character source text `"a\"b"` (with an escaped inner quote) yields a
string atom with payload `a"b`; `print_expr_as_sexpr` prints that payload
verbatim between quotes, without re-escaping, producing `"a"b"`; re-parsing
the printed text truncates at the first bare quote, yielding the string
`a`, which is not `equal` to the original value.  (The parser understands
`\"` escapes but the printer never emits them.) -/
theorem claim_C8 :
    read_expr_from_string 10 (⟨[], []⟩ : Gc) c8Input =
        some (parse_success (.atom 0) [], c8Gc1) ∧
    strPayload c8Gc1 (.atom 0) = some "a\"b" ∧
    print_expr_as_sexpr c8Gc1 (.atom 0) = some c8Printed ∧
    read_expr_from_string 10 c8Gc1 c8Printed =
        some (parse_success (.atom 1) ['b', Char.ofNat 34], c8Gc2) ∧
    strPayload c8Gc2 (.atom 1) = some "a" ∧
    equal c8Gc2 (.atom 0) (.atom 1) = false := by
  refine ⟨?_, ?_, ?_, ?_, ?_, ?_⟩ <;> decide

end FirstInterp
